import Mathlib

/-!
# Pairs-trading engine (`Statistical Arbitrage/pairs_trading.cpp`)

Shallow embedding of the rolling OLS estimator, the spread / z-score normaliser and the
position state machine of the pairs-trading backtest.

Modelling conventions.

* `double` is modelled by an arbitrary linearly ordered field `K` (the reals in the
  theorems that speak about square roots); `std::sqrt` is passed as a parameter `sqrt`.
  Division by zero is `0` in the model, so every statement that relies on the value of a
  quotient also establishes that its denominator is non-zero.
* `int` is modelled by `Int`; the loop counters of the program stay far below `2^31`.
* `std::vector` is modelled by `List`; `v[i]` is `vget`, which returns a default value for
  an index outside the vector (undefined behaviour in the program). The definitions
  `vgetC`, `stepC`, `runC`, ... are the same code with every access bounds-checked; under the
  window hypotheses they agree with the unchecked ones.
* A `for (int i = start; i <= stop; i++)` loop is `forLe`, a `for (int t = start; t < stop;
  ++t)` loop is `forLt`; both unfold to `loopFrom`, which threads the loop state through the
  body for a given number of iterations.
-/

namespace Pairs

/-! ## Data model -/

/-- Position state, `enum class PosState`. -/
inductive PosState where
  | FLAT
  | LONG_SPREAD
  | SHORT_SPREAD
  deriving DecidableEq

/-- One observation, `struct PairPoint`. -/
structure PairPoint (K : Type) where
  x : K
  y : K

/-- A closed position, `struct Trade`. -/
structure Trade (K : Type) where
  entry : Int
  exit : Int
  side : PosState
  entry_spread : K
  exit_spread : K
  pnl : K
  reason : String

/-- Strategy parameters, the constants `L_beta`, `L_z`, `z_entry`, `z_exit`, `max_hold` of
`main`. -/
structure Params (K : Type) where
  L_beta : Int
  L_z : Int
  z_entry : K
  z_exit : K
  max_hold : Int

/-- Mutable variables of `main`'s decision loop: the `spread` vector, the open position
(`pos`, `entry_t`, `entry_sp`, `pnl`) and the ledger `trades`. -/
structure Engine (K : Type) where
  spread : List K
  pos : PosState
  entry_t : Int
  entry_sp : K
  pnl : K
  trades : List (Trade K)

/-! ## Vectors and loops -/

/-- Read `v[i]`; `d` stands for the value of an out-of-range read. -/
def vget {α : Type} (d : α) (v : List α) (i : Int) : α :=
  if i < 0 then d else v.getD i.toNat d

/-- Write `v[i] = a`; an out-of-range write leaves the vector unchanged. -/
def vset {α : Type} (v : List α) (i : Int) (a : α) : List α :=
  if i < 0 then v else v.set i.toNat a

/-- Run `body` for `n` consecutive counter values starting at `i`. -/
def loopFrom {σ : Type} (body : σ → Int → σ) : Nat → Int → σ → σ
  | 0, _, s => s
  | n + 1, i, s => loopFrom body n (i + 1) (body s i)

/-- The loop `for (int i = start; i <= stop; i++) body`. -/
def forLe {σ : Type} (body : σ → Int → σ) (start stop : Int) (s : σ) : σ :=
  loopFrom body (stop - start + 1).toNat start s

/-- The loop `for (int t = start; t < stop; ++t) body`. -/
def forLt {σ : Type} (body : σ → Int → σ) (start stop : Int) (s : σ) : σ :=
  loopFrom body (stop - start).toNat start s

section Field

variable {K : Type} [LinearOrderedField K]

/-- The `x` coordinate `data[i].x`. -/
def xAt (data : List (PairPoint K)) (i : Int) : K :=
  (vget (PairPoint.mk 0 0) data i).x

/-- The `y` coordinate `data[i].y`. -/
def yAt (data : List (PairPoint K)) (i : Int) : K :=
  (vget (PairPoint.mk 0 0) data i).y

/-! ## Rolling statistics -/

/-- Arithmetic mean of `v[start..stop]`, the function `mean`. -/
def mean (v : List K) (start stop : Int) : K :=
  let s := forLe (fun s i => s + vget 0 v i) start stop 0
  s / ((stop - start + 1 : Int) : K)

/-- Floored population standard deviation of `v[start..stop]` around `mu`, the function
`stdev`. -/
def stdev (sqrt : K → K) (v : List K) (start stop : Int) (mu : K) : K :=
  let s2 := forLe (fun s2 i => let d := vget 0 v i - mu; s2 + d * d) start stop 0
  let var := s2 / ((stop - start + 1 : Int) : K)
  sqrt (max var 1e-12)

/-- Rolling OLS `y ≈ a + b x` over `[t_end - L + 1, t_end]`, the function
`rolling_ols_beta_alpha`; returns `(a, b)`. -/
def rolling_ols_beta_alpha (data : List (PairPoint K)) (t_end L : Int) : K × K :=
  let start := t_end - L + 1
  let m := forLe (fun (m : K × K) i => (m.1 + xAt data i, m.2 + yAt data i)) start t_end (0, 0)
  let mx := m.1 / (L : K)
  let my := m.2 / (L : K)
  let nd := forLe (fun (nd : K × K) i =>
      let dx := xAt data i - mx
      let dy := yAt data i - my
      (nd.1 + dx * dy, nd.2 + dx * dx)) start t_end (0, 0)
  let num := nd.1
  let den := nd.2
  let b := if den > 1e-12 then num / den else 0
  let a := my - b * mx
  (a, b)

/-! ## Decision loop -/

/-- The `spread` vector after the assignment `spread[sig] = data[sig].y - (a + b *
data[sig].x)` of step `t`, with `(a, b)` the fit at `t - 1`. -/
def spreadAt (cfg : Params K) (data : List (PairPoint K)) (spread : List K) (t : Int) :
    List K :=
  let ab := rolling_ols_beta_alpha data (t - 1) cfg.L_beta
  let sig := t - 1
  vset spread sig (yAt data sig - (ab.1 + ab.2 * xAt data sig))

/-- The z-score `z` of step `t`, computed from the `spread` vector as it stands after the
assignment of step `t`. -/
def zscore (sqrt : K → K) (cfg : Params K) (spread : List K) (t : Int) : K :=
  let sig := t - 1
  let z_start := sig - cfg.L_z + 1
  let mu := mean spread z_start sig
  let sd := stdev sqrt spread z_start sig mu
  (vget 0 spread sig - mu) / sd

/-- The sign `s` of the hedged portfolio: `+1` for `LONG_SPREAD`, `-1` otherwise. -/
def sideSign (pos : PosState) : Int :=
  if pos = PosState.LONG_SPREAD then 1 else -1

/-- One-step hedged return `s * (dy - b * dx)` between `t - 1` and `t`. -/
def hedgedReturn (data : List (PairPoint K)) (pos : PosState) (b : K) (t : Int) : K :=
  let dy := yAt data t - yAt data (t - 1)
  let dx := xAt data t - xAt data (t - 1)
  (sideSign pos : K) * (dy - b * dx)

/-- Body of the decision loop of `main` for the counter value `t`. -/
def step (sqrt : K → K) (cfg : Params K) (data : List (PairPoint K)) (st : Engine K)
    (t : Int) : Engine K :=
  let b := (rolling_ols_beta_alpha data (t - 1) cfg.L_beta).2
  let sig := t - 1
  let spread := spreadAt cfg data st.spread t
  let z := zscore sqrt cfg spread t
  let pnl := if st.pos ≠ PosState.FLAT then st.pnl + hedgedReturn data st.pos b t else st.pnl
  if st.pos ≠ PosState.FLAT then
    if |z| < cfg.z_exit ∨ t - st.entry_t ≥ cfg.max_hold then
      let tr : Trade K :=
        { entry := st.entry_t, exit := t, side := st.pos, entry_spread := st.entry_sp,
          exit_spread := vget 0 spread sig, pnl := pnl,
          reason := if |z| < cfg.z_exit then "Z_EXIT" else "TIME_STOP" }
      { spread := spread, pos := PosState.FLAT, entry_t := -1, entry_sp := 0, pnl := 0,
        trades := st.trades ++ [tr] }
    else
      { st with spread := spread, pnl := pnl }
  else if z > cfg.z_entry then
    { st with spread := spread, pos := PosState.SHORT_SPREAD, entry_t := t,
              entry_sp := vget 0 spread sig, pnl := 0 }
  else if z < -cfg.z_entry then
    { st with spread := spread, pos := PosState.LONG_SPREAD, entry_t := t,
              entry_sp := vget 0 spread sig, pnl := 0 }
  else
    { st with spread := spread }

/-- State of `main` before the decision loop, for `T` observations. -/
def initEngine (T : Nat) : Engine K :=
  { spread := List.replicate T 0, pos := PosState.FLAT, entry_t := -1, entry_sp := 0,
    pnl := 0, trades := [] }

/-- First counter value of the decision loop, `std::max(L_beta, L_z)`. -/
def firstStep (cfg : Params K) : Int := max cfg.L_beta cfg.L_z

/-- State after the iterations `firstStep, ..., t` of the decision loop. -/
def runThrough (sqrt : K → K) (cfg : Params K) (data : List (PairPoint K)) (t : Int) :
    Engine K :=
  forLe (step sqrt cfg data) (firstStep cfg) t (initEngine data.length)

/-- State when the decision loop `for (int t = std::max(L_beta, L_z); t < T; ++t)` ends. -/
def run (sqrt : K → K) (cfg : Params K) (data : List (PairPoint K)) : Engine K :=
  forLt (step sqrt cfg data) (firstStep cfg) (data.length : Int) (initEngine data.length)

/-! ## Window statistics as finite sums -/

/-- The index window `[t_end - L + 1, t_end]`. -/
def window (t_end L : Int) : Finset Int := Finset.Icc (t_end - L + 1) t_end

/-- Mean of `x` over the window. -/
def windowMeanX (data : List (PairPoint K)) (t_end L : Int) : K :=
  (∑ i in window t_end L, xAt data i) / (L : K)

/-- Mean of `y` over the window. -/
def windowMeanY (data : List (PairPoint K)) (t_end L : Int) : K :=
  (∑ i in window t_end L, yAt data i) / (L : K)

/-- Centred sum of squares of `x` over the window. -/
def centredSumSq (data : List (PairPoint K)) (t_end L : Int) : K :=
  ∑ i in window t_end L, (xAt data i - windowMeanX data t_end L) ^ 2

/-- Centred cross sum of `x` and `y` over the window. -/
def centredCross (data : List (PairPoint K)) (t_end L : Int) : K :=
  ∑ i in window t_end L,
    (xAt data i - windowMeanX data t_end L) * (yAt data i - windowMeanY data t_end L)

/-- Sum of squared residuals of the line `a + b x` over the window. -/
def sumSqResiduals (data : List (PairPoint K)) (t_end L : Int) (a b : K) : K :=
  ∑ i in window t_end L, (yAt data i - a - b * xAt data i) ^ 2

/-! ## Views of a run used by the statements -/

/-- Trades appended to the ledger by the iteration `t` of the decision loop. -/
def emittedAt (sqrt : K → K) (cfg : Params K) (data : List (PairPoint K)) (t : Int) :
    List (Trade K) :=
  (runThrough sqrt cfg data t).trades.drop (runThrough sqrt cfg data (t - 1)).trades.length

/-- Every field of a trade except its realised pnl. -/
def Trade.decision (tr : Trade K) : Int × Int × PosState × K × K × String :=
  (tr.entry, tr.exit, tr.side, tr.entry_spread, tr.exit_spread, tr.reason)

/-- The z-score computed by the iteration `t` of the decision loop when it starts from the
engine state `st`. -/
def zStep (sqrt : K → K) (cfg : Params K) (data : List (PairPoint K)) (st : Engine K)
    (t : Int) : K :=
  zscore sqrt cfg (spreadAt cfg data st.spread t) t

/-- The z-score computed by the iteration `t` of the run on `data`. -/
def zAt (sqrt : K → K) (cfg : Params K) (data : List (PairPoint K)) (t : Int) : K :=
  zStep sqrt cfg data (runThrough sqrt cfg data (t - 1)) t

/-- Hedged pnl of a position of the given side held from `e` to `x`: the sum over
`u = e + 1, ..., x` of `s * ((y[u] - y[u-1]) - b_u * (x[u] - x[u-1]))`, where `b_u` is the
slope fitted over the window of length `L_beta` ending at `u - 1`. -/
def hedgedPnl (cfg : Params K) (data : List (PairPoint K)) (side : PosState) (e x : Int) : K :=
  ∑ u in Finset.Ioc e x,
    (sideSign side : K) * ((yAt data u - yAt data (u - 1))
      - (rolling_ols_beta_alpha data (u - 1) cfg.L_beta).2 * (xAt data u - xAt data (u - 1)))

/-- The entry signal of the iteration `e` of the run justifies opening a position of the
given side: `z > z_entry` for a short, `z < -z_entry` for a long. -/
def OpenOK (sqrt : K → K) (cfg : Params K) (data : List (PairPoint K)) (side : PosState)
    (e : Int) : Prop :=
  (side = PosState.SHORT_SPREAD ∧ zAt sqrt cfg data e > cfg.z_entry) ∨
  (side = PosState.LONG_SPREAD ∧ zAt sqrt cfg data e < -cfg.z_entry)

/-- Invariant of the decision loop, for the engine state `st` reached after the iteration
`t`: facts about the open position and about every trade of the ledger. -/
structure RunInv (sqrt : K → K) (cfg : Params K) (data : List (PairPoint K)) (t : Int)
    (st : Engine K) : Prop where
  open_entry : st.pos ≠ PosState.FLAT → firstStep cfg ≤ st.entry_t ∧ st.entry_t ≤ t
  open_signal : st.pos ≠ PosState.FLAT → OpenOK sqrt cfg data st.pos st.entry_t
  open_pnl : st.pos ≠ PosState.FLAT → st.pnl = hedgedPnl cfg data st.pos st.entry_t t
  open_hold : 1 ≤ cfg.max_hold → st.pos ≠ PosState.FLAT → t - st.entry_t < cfg.max_hold
  led_signal : ∀ tr ∈ st.trades, OpenOK sqrt cfg data tr.side tr.entry
  led_pnl : ∀ tr ∈ st.trades, tr.pnl = hedgedPnl cfg data tr.side tr.entry tr.exit
  led_hold : 1 ≤ cfg.max_hold → ∀ tr ∈ st.trades,
    1 ≤ tr.exit - tr.entry ∧ tr.exit - tr.entry ≤ cfg.max_hold

/-- Arithmetic mean of `v` over the index window `[start, stop]`, as a finite sum. -/
def windowMean (v : List K) (start stop : Int) : K :=
  (∑ i in Finset.Icc start stop, vget 0 v i) / ((stop - start + 1 : Int) : K)

/-- Population variance of `v` over the index window `[start, stop]`. -/
def popVar (v : List K) (start stop : Int) : K :=
  (∑ i in Finset.Icc start stop, (vget 0 v i - windowMean v start stop) ^ 2)
    / ((stop - start + 1 : Int) : K)

/-! ## Concrete inputs -/

/-- Four observations `(0,0), (1,0), (2,12), (3,0)`. -/
def obs4 (K : Type) [LinearOrderedField K] : List (PairPoint K) :=
  [⟨0, 0⟩, ⟨1, 0⟩, ⟨2, 12⟩, ⟨3, 0⟩]

/-- The observations `obs4` with a different last observation `(3,5)`. -/
def obs4b (K : Type) [LinearOrderedField K] : List (PairPoint K) :=
  [⟨0, 0⟩, ⟨1, 0⟩, ⟨2, 12⟩, ⟨3, 5⟩]

/-- Five observations `(0,0), (1,1), (2,2), (3,15), (4,0)`. -/
def obsLate (K : Type) [LinearOrderedField K] : List (PairPoint K) :=
  [⟨0, 0⟩, ⟨1, 1⟩, ⟨2, 2⟩, ⟨3, 15⟩, ⟨4, 0⟩]

/-- Parameters `L_beta = 3`, `L_z = 2`, `z_entry = 1/2`, `z_exit = 1/4`, `max_hold = 10`. -/
def cfgSmall (K : Type) [LinearOrderedField K] : Params K :=
  { L_beta := 3, L_z := 2, z_entry := 1 / 2, z_exit := 1 / 4, max_hold := 10 }

/-- An engine state with an open short position entered at time `2`. -/
def openShort (K : Type) [LinearOrderedField K] : Engine K :=
  { spread := [0, 0, 0, 0], pos := PosState.SHORT_SPREAD, entry_t := 2, entry_sp := 0,
    pnl := 0, trades := [] }

/-- Parameters with `max_hold = 1`: `L_beta = 3`, `L_z = 2`, `z_entry = 1/2`,
`z_exit = 1/4`. -/
def cfgHold1 (K : Type) [LinearOrderedField K] : Params K :=
  { L_beta := 3, L_z := 2, z_entry := 1 / 2, z_exit := 1 / 4, max_hold := 1 }

/-- Five observations `(0,0), (1,0), (2,12), (3,24), (4,25)`. -/
def obs5 (K : Type) [LinearOrderedField K] : List (PairPoint K) :=
  [⟨0, 0⟩, ⟨1, 0⟩, ⟨2, 12⟩, ⟨3, 24⟩, ⟨4, 25⟩]

/-- The trade recorded by the run on `obs5` with `cfgHold1`. -/
def trade5 (K : Type) [LinearOrderedField K] : Trade K :=
  { entry := 3, exit := 4, side := PosState.SHORT_SPREAD, entry_spread := 2,
    exit_spread := 0, pnl := 11, reason := "TIME_STOP" }

/-- The engine state reached on `obs5` after the iteration `t = 3`: a short position
entered at `3` with entry spread `2`. -/
def heldShort (K : Type) [LinearOrderedField K] : Engine K :=
  { spread := [0, 0, 2, 0, 0], pos := PosState.SHORT_SPREAD, entry_t := 3, entry_sp := 2,
    pnl := 0, trades := [] }

/-- Five observations `(0,0), (1,0), (2,12), (3,0), (4,0)`. -/
def obs5z (K : Type) [LinearOrderedField K] : List (PairPoint K) :=
  [⟨0, 0⟩, ⟨1, 0⟩, ⟨2, 12⟩, ⟨3, 0⟩, ⟨4, 0⟩]

/-- Parameters with a z-window longer than the regression window: `L_beta = 3`,
`L_z = 4`, `z_entry = 1/2`, `z_exit = 1/4`, `max_hold = 10`. -/
def cfgLongZ (K : Type) [LinearOrderedField K] : Params K :=
  { L_beta := 3, L_z := 4, z_entry := 1 / 2, z_exit := 1 / 4, max_hold := 10 }

/-! ## Inputs for the degenerate-denominator policy -/

/-- Four observations `(0,0), (0,0), (1e-6,1), (1e-6,1)`: the centred sum of squares of `x`
over the whole window is exactly `1e-12`. -/
def obsTiny (K : Type) [LinearOrderedField K] : List (PairPoint K) :=
  [⟨0, 0⟩, ⟨0, 0⟩, ⟨1e-6, 1⟩, ⟨1e-6, 1⟩]

/-- Two observations `(5,1), (5,3)` with the same `x`. -/
def obsFlatX (K : Type) [LinearOrderedField K] : List (PairPoint K) :=
  [⟨5, 1⟩, ⟨5, 3⟩]

/-! ## Report and ledger invariant -/

/-- Summary `(total, wins, losses)` computed by the report loop of `main` over the
ledger. -/
def report (trades : List (Trade K)) : K × Int × Int :=
  trades.foldl (fun (acc : K × Int × Int) tr =>
    (acc.1 + tr.pnl,
     if tr.pnl ≥ 0 then acc.2.1 + 1 else acc.2.1,
     if tr.pnl ≥ 0 then acc.2.2 else acc.2.2 + 1)) (0, 0, 0)

/-- Shape invariant of the decision loop, for the engine state `st` reached after the
iteration `t`: the open position was entered at a decision step after every recorded exit,
and the ledger holds well-formed, chronologically ordered trades. -/
structure LedgerInv (cfg : Params K) (t : Int) (st : Engine K) : Prop where
  open_entry : st.pos ≠ PosState.FLAT → firstStep cfg ≤ st.entry_t ∧ st.entry_t ≤ t
  open_after : st.pos ≠ PosState.FLAT → ∀ tr ∈ st.trades, tr.exit < st.entry_t
  led_side : ∀ tr ∈ st.trades,
    tr.side = PosState.LONG_SPREAD ∨ tr.side = PosState.SHORT_SPREAD
  led_reason : ∀ tr ∈ st.trades, tr.reason = "Z_EXIT" ∨ tr.reason = "TIME_STOP"
  led_times : ∀ tr ∈ st.trades, firstStep cfg ≤ tr.entry ∧ tr.entry < tr.exit ∧ tr.exit ≤ t
  led_chain : st.trades.Pairwise (fun a b => a.exit < b.entry)

/-! ## Bounds-checked reading of the program

The definitions below repeat `mean`, `stdev`, `rolling_ols_beta_alpha` and the body of the
decision loop with every vector access checked: a read or write outside the vector gives
`none`. -/

/-- Checked read `v[i]`: `none` for an index outside the vector. -/
def vgetC {α : Type} (v : List α) (i : Int) : Option α :=
  if i < 0 then none else v[i.toNat]?

/-- Checked write `v[i] = a`: `none` for an index outside the vector. -/
def vsetC {α : Type} (v : List α) (i : Int) (a : α) : Option (List α) :=
  if 0 ≤ i ∧ i.toNat < v.length then some (v.set i.toNat a) else none

/-- Run a checked `body` for `n` consecutive counter values starting at `i`. -/
def loopFromC {σ : Type} (body : σ → Int → Option σ) : Nat → Int → σ → Option σ
  | 0, _, s => some s
  | n + 1, i, s => (body s i).bind (fun s1 => loopFromC body n (i + 1) s1)

/-- The loop `for (int i = start; i <= stop; i++) body` with a checked body. -/
def forLeC {σ : Type} (body : σ → Int → Option σ) (start stop : Int) (s : σ) : Option σ :=
  loopFromC body (stop - start + 1).toNat start s

/-- The loop `for (int t = start; t < stop; ++t) body` with a checked body. -/
def forLtC {σ : Type} (body : σ → Int → Option σ) (start stop : Int) (s : σ) : Option σ :=
  loopFromC body (stop - start).toNat start s

/-- The function `mean` with checked reads. -/
def meanC (v : List K) (start stop : Int) : Option K :=
  (forLeC (fun s i => (vgetC v i).map (fun vi => s + vi)) start stop 0).map
    (fun s => s / ((stop - start + 1 : Int) : K))

/-- The function `stdev` with checked reads. -/
def stdevC (sqrt : K → K) (v : List K) (start stop : Int) (mu : K) : Option K :=
  (forLeC (fun s2 i => (vgetC v i).map (fun vi => let d := vi - mu; s2 + d * d))
      start stop 0).map
    (fun s2 => sqrt (max (s2 / ((stop - start + 1 : Int) : K)) 1e-12))

/-- The function `rolling_ols_beta_alpha` with checked reads. -/
def rolling_ols_beta_alphaC (data : List (PairPoint K)) (t_end L : Int) : Option (K × K) :=
  let start := t_end - L + 1
  (forLeC (fun (m : K × K) i => (vgetC data i).map (fun p => (m.1 + p.x, m.2 + p.y)))
      start t_end (0, 0)).bind fun m =>
  let mx := m.1 / (L : K)
  let my := m.2 / (L : K)
  (forLeC (fun (nd : K × K) i => (vgetC data i).map (fun p =>
      let dx := p.x - mx
      let dy := p.y - my
      (nd.1 + dx * dy, nd.2 + dx * dx))) start t_end (0, 0)).map fun nd =>
  let b := if nd.2 > 1e-12 then nd.1 / nd.2 else 0
  (my - b * mx, b)

/-- Body of the decision loop of `main` for the counter value `t`, with every access to
`data` and `spread` checked. -/
def stepC (sqrt : K → K) (cfg : Params K) (data : List (PairPoint K)) (st : Engine K)
    (t : Int) : Option (Engine K) :=
  (rolling_ols_beta_alphaC data (t - 1) cfg.L_beta).bind fun ab =>
  let sig := t - 1
  (vgetC data sig).bind fun psig =>
  (vsetC st.spread sig (psig.y - (ab.1 + ab.2 * psig.x))).bind fun spread =>
  let z_start := sig - cfg.L_z + 1
  (meanC spread z_start sig).bind fun mu =>
  (stdevC sqrt spread z_start sig mu).bind fun sd =>
  (vgetC spread sig).bind fun ssig =>
  let z := (ssig - mu) / sd
  (if st.pos ≠ PosState.FLAT then
      (vgetC data t).bind fun pt =>
      (vgetC data (t - 1)).map fun pt1 =>
        st.pnl + (sideSign st.pos : K) * ((pt.y - pt1.y) - ab.2 * (pt.x - pt1.x))
    else some st.pnl).map fun pnl =>
  if st.pos ≠ PosState.FLAT then
    if |z| < cfg.z_exit ∨ t - st.entry_t ≥ cfg.max_hold then
      let tr : Trade K :=
        { entry := st.entry_t, exit := t, side := st.pos, entry_spread := st.entry_sp,
          exit_spread := ssig, pnl := pnl,
          reason := if |z| < cfg.z_exit then "Z_EXIT" else "TIME_STOP" }
      { spread := spread, pos := PosState.FLAT, entry_t := -1, entry_sp := 0, pnl := 0,
        trades := st.trades ++ [tr] }
    else
      { st with spread := spread, pnl := pnl }
  else if z > cfg.z_entry then
    { st with spread := spread, pos := PosState.SHORT_SPREAD, entry_t := t,
              entry_sp := ssig, pnl := 0 }
  else if z < -cfg.z_entry then
    { st with spread := spread, pos := PosState.LONG_SPREAD, entry_t := t,
              entry_sp := ssig, pnl := 0 }
  else
    { st with spread := spread }

/-- The decision loop of `main` with every vector access checked. -/
def runC (sqrt : K → K) (cfg : Params K) (data : List (PairPoint K)) : Option (Engine K) :=
  forLtC (stepC sqrt cfg data) (firstStep cfg) (data.length : Int) (initEngine data.length)

/-! ## Configuration of `main` -/

/-- The strategy parameters of `main`: `L_beta = 200`, `L_z = 200`, `z_entry = 2.0`,
`z_exit = 0.5`, `max_hold = 400`. -/
def mainParams (K : Type) [LinearOrderedField K] : Params K :=
  { L_beta := 200, L_z := 200, z_entry := 2.0, z_exit := 0.5, max_hold := 400 }

/-- The number of observations of `main`, `T = 4000`. -/
def mainT : Nat := 4000

/-- Parameters with `z_exit ≥ z_entry`: `L_beta = 3`, `L_z = 2`, `z_entry = 1/2`,
`z_exit = 1`, `max_hold = 1`. -/
def cfgBadExit (K : Type) [LinearOrderedField K] : Params K :=
  { L_beta := 3, L_z := 2, z_entry := 1 / 2, z_exit := 1, max_hold := 1 }

/-- Parameters with empty windows: `L_beta = 0`, `L_z = 0`, `z_entry = 1/2`,
`z_exit = 1/4`, `max_hold = 1`. -/
def cfgNoWindow (K : Type) [LinearOrderedField K] : Params K :=
  { L_beta := 0, L_z := 0, z_entry := 1 / 2, z_exit := 1 / 4, max_hold := 1 }

/-! ## A run with two trades -/

/-- Seven observations `(0,0), (1,0), (2,12), (3,24), (4,48), (5,72), (6,97)`. -/
def obs7 (K : Type) [LinearOrderedField K] : List (PairPoint K) :=
  [⟨0, 0⟩, ⟨1, 0⟩, ⟨2, 12⟩, ⟨3, 24⟩, ⟨4, 48⟩, ⟨5, 72⟩, ⟨6, 97⟩]

/-- The first trade of the run on `obs7` with `cfgHold1`. -/
def trade7a (K : Type) [LinearOrderedField K] : Trade K :=
  { entry := 3, exit := 4, side := PosState.SHORT_SPREAD, entry_spread := 2,
    exit_spread := 0, pnl := -12, reason := "TIME_STOP" }

/-- The second trade of the run on `obs7` with `cfgHold1`. -/
def trade7b (K : Type) [LinearOrderedField K] : Trade K :=
  { entry := 5, exit := 6, side := PosState.SHORT_SPREAD, entry_spread := 2,
    exit_spread := 0, pnl := -1, reason := "TIME_STOP" }

/-! ## Trade record -/

/-- The spread value assigned by the iteration `t`: `data[t-1].y - (a + b * data[t-1].x)`
with `(a, b)` the fit over the window of length `L_beta` ending at `t - 1`. -/
def fitSpread (cfg : Params K) (data : List (PairPoint K)) (t : Int) : K :=
  yAt data (t - 1) - ((rolling_ols_beta_alpha data (t - 1) cfg.L_beta).1
    + (rolling_ols_beta_alpha data (t - 1) cfg.L_beta).2 * xAt data (t - 1))

/-- Invariant of the decision loop on recorded spreads: the `spread` vector keeps its
length, the entry spread of the open position is the spread assigned at its entry step, and
the entry and exit spreads of every trade are the spreads assigned at its entry and exit
steps. -/
structure SpreadInv (cfg : Params K) (data : List (PairPoint K)) (st : Engine K) : Prop where
  len : st.spread.length = data.length
  open_sp : st.pos ≠ PosState.FLAT → st.entry_sp = fitSpread cfg data st.entry_t
  led_sp : ∀ tr ∈ st.trades, tr.entry_spread = fitSpread cfg data tr.entry ∧
    tr.exit_spread = fitSpread cfg data tr.exit

/-- Observations on the line `y = 1 + 2 x`: `(0,1), (1,3), (2,5)`. -/
def obsLine (K : Type) [LinearOrderedField K] : List (PairPoint K) :=
  [⟨0, 1⟩, ⟨1, 3⟩, ⟨2, 5⟩]

/-! ## Counting opened positions along a loop -/

/-- Number of iterations, among the first `n` iterations of a loop, that start in a flat
state and end in a state that is not flat. -/
def opensCount {σ : Type} (body : σ → Int → σ) (isFlat : σ → Bool) (start : Int) (s0 : σ) :
    Nat → Nat
  | 0 => 0
  | n + 1 => opensCount body isFlat start s0 n +
      (if isFlat (loopFrom body n start s0) = true ∧
          isFlat (loopFrom body (n + 1) start s0) = false then 1 else 0)

end Field

end Pairs

/-!
# Bollinger-band reversion (`Mean Reversion - Range Trading/BB_Reversion.cpp`)

Same conventions as for the pairs engine; the loop and vector helpers `Pairs.forLt`,
`Pairs.forLe`, `Pairs.vget` are reused.
-/

namespace BB

/-- Position state, `enum class PosState { FLAT=0, LONG=1, SHORT=-1 }`. -/
inductive PosState where
  | FLAT
  | LONG
  | SHORT
  deriving DecidableEq

/-- The conversion `static_cast<int>(pos)`. -/
def PosState.toInt : PosState → Int
  | PosState.FLAT => 0
  | PosState.LONG => 1
  | PosState.SHORT => -1

/-- A closed position, `struct Trade`. -/
structure Trade (K : Type) where
  entry_idx : Int
  exit_idx : Int
  side : PosState
  entry_px : K
  exit_px : K
  reason : String
  pnl : K

/-- Bollinger and risk parameters of `main`: `N_bb`, `k`, `useSLTP`, `alphaSL`, `alphaTP`. -/
structure Params (K : Type) where
  N_bb : Int
  k : K
  useSLTP : Bool
  alphaSL : K
  alphaTP : K

/-- Strategy state of `main`: `pos`, `entry`, `entry_idx` and the ledger `trades`. -/
structure State (K : Type) where
  pos : PosState
  entry : K
  entry_idx : Int
  trades : List (Trade K)

section Field

variable {K : Type} [LinearOrderedField K]

/-- Mean of `x[start .. end_excl)`, the function `mean`. -/
def mean (x : List K) (start end_excl : Int) : K :=
  let s := Pairs.forLt (fun s i => s + Pairs.vget 0 x i) start end_excl 0
  s / ((end_excl - start : Int) : K)

/-- Population standard deviation of `x[start .. end_excl)` around `m`, the function
`stdev`. -/
def stdev (sqrt : K → K) (x : List K) (start end_excl : Int) (m : K) : K :=
  let ss := Pairs.forLt (fun ss i => let d := Pairs.vget 0 x i - m; ss + d * d) start end_excl 0
  sqrt (ss / ((end_excl - start : Int) : K))

/-- The lambda `open_trade`. -/
def open_trade (st : State K) (idx : Int) (side : PosState) (px : K) : State K :=
  { st with pos := side, entry := px, entry_idx := idx }

/-- The lambda `close_trade`. -/
def close_trade (st : State K) (idx : Int) (px : K) (reason : String) : State K :=
  let tr : Trade K :=
    { entry_idx := st.entry_idx, exit_idx := idx, side := st.pos, entry_px := st.entry,
      exit_px := px, reason := reason, pnl := (px - st.entry) * ((st.pos.toInt : Int) : K) }
  { pos := PosState.FLAT, entry := 0, entry_idx := -1, trades := st.trades ++ [tr] }

/-- The stop level `SL = entry * (1 - s * alphaSL)`. -/
def slPrice (cfg : Params K) (st : State K) : K :=
  st.entry * (1 - ((st.pos.toInt : Int) : K) * cfg.alphaSL)

/-- The target level `TP = entry * (1 + s * alphaTP)`. -/
def tpPrice (cfg : Params K) (st : State K) : K :=
  st.entry * (1 + ((st.pos.toInt : Int) : K) * cfg.alphaTP)

/-- The flag `hitSL = (s == +1) ? (P <= SL) : (P >= SL)`. -/
def hitSL (cfg : Params K) (st : State K) (P : K) : Bool :=
  if st.pos.toInt = 1 then decide (P ≤ slPrice cfg st) else decide (P ≥ slPrice cfg st)

/-- The flag `hitTP = (s == +1) ? (P >= TP) : (P <= TP)`. -/
def hitTP (cfg : Params K) (st : State K) (P : K) : Bool :=
  if st.pos.toInt = 1 then decide (P ≥ tpPrice cfg st) else decide (P ≤ tpPrice cfg st)

/-- Upper band `m + k * sd` over the window `[t - N_bb, t)`. -/
def bbUp (sqrt : K → K) (cfg : Params K) (close : List K) (t : Int) : K :=
  let m := mean close (t - cfg.N_bb) t
  m + cfg.k * stdev sqrt close (t - cfg.N_bb) t m

/-- Lower band `m - k * sd` over the window `[t - N_bb, t)`. -/
def bbLo (sqrt : K → K) (cfg : Params K) (close : List K) (t : Int) : K :=
  let m := mean close (t - cfg.N_bb) t
  m - cfg.k * stdev sqrt close (t - cfg.N_bb) t m

/-- Entry logic of the loop body (fade the band extremes when flat). -/
def entryLogic (sqrt : K → K) (cfg : Params K) (close : List K) (st : State K) (t : Int) :
    State K :=
  let P := Pairs.vget 0 close (t - 1)
  if st.pos = PosState.FLAT then
    if P > bbUp sqrt cfg close t then open_trade st (t - 1) PosState.SHORT P
    else if P < bbLo sqrt cfg close t then open_trade st (t - 1) PosState.LONG P
    else st
  else st

/-- Body of the main loop for the counter value `t`. -/
def step (sqrt : K → K) (cfg : Params K) (close : List K) (st : State K) (t : Int) :
    State K :=
  let P := Pairs.vget 0 close (t - 1)
  if cfg.useSLTP = true ∧ st.pos ≠ PosState.FLAT then
    if hitSL cfg st P = true then close_trade st (t - 1) (slPrice cfg st) "SL"
    else if hitTP cfg st P = true then close_trade st (t - 1) (tpPrice cfg st) "TP"
    else entryLogic sqrt cfg close st t
  else entryLogic sqrt cfg close st t

/-- State of `main` before the main loop. -/
def initState : State K :=
  { pos := PosState.FLAT, entry := 0, entry_idx := -1, trades := [] }

/-- State after the iterations `N_bb + 1, ..., t` of the main loop. -/
def loopThrough (sqrt : K → K) (cfg : Params K) (close : List K) (t : Int) : State K :=
  Pairs.forLe (step sqrt cfg close) (cfg.N_bb + 1) t initState

/-- State when the main loop `for (int t = N_bb + 1; t < T; ++t)` ends. -/
def runLoop (sqrt : K → K) (cfg : Params K) (close : List K) : State K :=
  Pairs.forLt (step sqrt cfg close) (cfg.N_bb + 1) (close.length : Int) initState

/-- The closing block after the loop: a position still open is closed at `T - 1`. -/
def closeAtEnd (close : List K) (st : State K) : State K :=
  if st.pos ≠ PosState.FLAT then
    close_trade st ((close.length : Int) - 1) (Pairs.vget 0 close ((close.length : Int) - 1)) "EOD"
  else st

/-- State of `main` before the report. -/
def run (sqrt : K → K) (cfg : Params K) (close : List K) : State K :=
  closeAtEnd close (runLoop sqrt cfg close)

/-- Trades appended to the ledger by the iteration `t` of the main loop. -/
def emittedAt (sqrt : K → K) (cfg : Params K) (close : List K) (t : Int) : List (Trade K) :=
  (loopThrough sqrt cfg close t).trades.drop (loopThrough sqrt cfg close (t - 1)).trades.length

end Field

end BB

namespace BB

/-- Fills of the ledger are at the level: a trade closed with reason `"SL"` has
`pnl = -alphaSL * entry_px`, one closed with reason `"TP"` has `pnl = alphaTP * entry_px`. -/
def FillsAtLevel {K : Type} [LinearOrderedField K] (cfg : Params K) (st : State K) : Prop :=
  ∀ tr ∈ st.trades, (tr.reason = "SL" → tr.pnl = -cfg.alphaSL * tr.entry_px) ∧
    (tr.reason = "TP" → tr.pnl = cfg.alphaTP * tr.entry_px)

/-- Number of positions opened by the main loop. -/
def opened {K : Type} [LinearOrderedField K] (sqrt : K → K) (cfg : Params K) (close : List K) :
    Nat :=
  Pairs.opensCount (step sqrt cfg close) (fun st => decide (st.pos = PosState.FLAT))
    (cfg.N_bb + 1) initState ((close.length : Int) - (cfg.N_bb + 1)).toNat

end BB

/-!
# ATR expansion breakout (`Volatility-based/ATR_Expansion_Breakout.cpp`)
-/

namespace ATR

/-- Position state, `enum class PosState { FLAT=0, LONG=1, SHORT=-1 }`. -/
inductive PosState where
  | FLAT
  | LONG
  | SHORT
  deriving DecidableEq

/-- The conversion `static_cast<int>(pos)`. -/
def PosState.toInt : PosState → Int
  | PosState.FLAT => 0
  | PosState.LONG => 1
  | PosState.SHORT => -1

/-- One OHLC bar, `struct Bar`; the field `open` of the program is `opn` here. -/
structure Bar (K : Type) where
  opn : K
  high : K
  low : K
  close : K

/-- A closed position, `struct Trade`. -/
structure Trade (K : Type) where
  entry_idx : Int
  exit_idx : Int
  side : PosState
  entry_px : K
  exit_px : K
  reason : String
  pnl : K

/-- ATR and risk parameters of `main`: `atrFast`, `atrSlow`, `mult`, `useSLTP`, `alphaSL`,
`alphaTP`. -/
structure Params (K : Type) where
  atrFast : Int
  atrSlow : Int
  mult : K
  useSLTP : Bool
  alphaSL : K
  alphaTP : K

/-- Strategy state of `main`: `pos`, `entry`, `entry_idx` and the ledger `trades`. -/
structure State (K : Type) where
  pos : PosState
  entry : K
  entry_idx : Int
  trades : List (Trade K)

section Field

variable {K : Type} [LinearOrderedField K]

/-- Read `bars[i]`. -/
def barAt (bars : List (Bar K)) (i : Int) : Bar K :=
  Pairs.vget (Bar.mk 0 0 0 0) bars i

/-- The function `true_range`: `std::max({tr1, tr2, tr3})`. -/
def true_range (b : Bar K) (prev_close : K) : K :=
  let tr1 := b.high - b.low
  let tr2 := |b.high - prev_close|
  let tr3 := |b.low - prev_close|
  max (max tr1 tr2) tr3

/-- The function `sma`: mean of `x[end_incl - win + 1 .. end_incl]`. -/
def sma (x : List K) (end_incl win : Int) : K :=
  let s := Pairs.forLe (fun s i => s + Pairs.vget 0 x i) (end_incl - win + 1) end_incl 0
  s / (win : K)

/-- The vector `tr` of `main`: `tr[0] = 0` and `tr[t] = true_range(bars[t],
bars[t-1].close)` for `1 ≤ t < T`. -/
def trSeries (bars : List (Bar K)) : List K :=
  Pairs.forLt (fun tr t => Pairs.vset tr t (true_range (barAt bars t) (barAt bars (t - 1)).close))
    1 (bars.length : Int) (List.replicate bars.length 0)

/-- The vectors `(atrF, atrS)` of `main`. -/
def atrSeries (cfg : Params K) (bars : List (Bar K)) : List K × List K :=
  let tr := trSeries bars
  Pairs.forLt (fun (a : List K × List K) t =>
      let aF := if t ≥ cfg.atrFast then Pairs.vset a.1 t (sma tr t cfg.atrFast) else a.1
      let aS := if t ≥ cfg.atrSlow then Pairs.vset a.2 t (sma tr t cfg.atrSlow) else a.2
      (aF, aS))
    0 (bars.length : Int) (List.replicate bars.length 0, List.replicate bars.length 0)

/-- The lambda `open_pos`. -/
def open_pos (st : State K) (idx : Int) (side : PosState) (px : K) : State K :=
  { st with pos := side, entry := px, entry_idx := idx }

/-- The lambda `close_pos`. -/
def close_pos (st : State K) (idx : Int) (px : K) (reason : String) : State K :=
  let trd : Trade K :=
    { entry_idx := st.entry_idx, exit_idx := idx, side := st.pos, entry_px := st.entry,
      exit_px := px, reason := reason, pnl := (px - st.entry) * ((st.pos.toInt : Int) : K) }
  { pos := PosState.FLAT, entry := 0, entry_idx := -1, trades := st.trades ++ [trd] }

/-- The stop level `SL = entry * (1 - s * alphaSL)`. -/
def slPrice (cfg : Params K) (st : State K) : K :=
  st.entry * (1 - ((st.pos.toInt : Int) : K) * cfg.alphaSL)

/-- The target level `TP = entry * (1 + s * alphaTP)`. -/
def tpPrice (cfg : Params K) (st : State K) : K :=
  st.entry * (1 + ((st.pos.toInt : Int) : K) * cfg.alphaTP)

/-- The flag `hitSL = (s == +1) ? (b.low <= SL) : (b.high >= SL)`. -/
def hitSL (cfg : Params K) (st : State K) (b : Bar K) : Bool :=
  if st.pos.toInt = 1 then decide (b.low ≤ slPrice cfg st) else decide (b.high ≥ slPrice cfg st)

/-- The flag `hitTP = (s == +1) ? (b.high >= TP) : (b.low <= TP)`. -/
def hitTP (cfg : Params K) (st : State K) (b : Bar K) : Bool :=
  if st.pos.toInt = 1 then decide (b.high ≥ tpPrice cfg st) else decide (b.low ≤ tpPrice cfg st)

/-- The flag `breakoutUp = (C > Hprev)` of the iteration `t`, with `sig_idx = t - 1`. -/
def breakoutUp (bars : List (Bar K)) (t : Int) : Bool :=
  decide ((barAt bars (t - 1)).close > (barAt bars (t - 1 - 1)).high)

/-- The flag `breakoutDown = (C < Lprev)` of the iteration `t`, with `sig_idx = t - 1`. -/
def breakoutDown (bars : List (Bar K)) (t : Int) : Bool :=
  decide ((barAt bars (t - 1)).close < (barAt bars (t - 1 - 1)).low)

/-- Signal part of the loop body (entries on an ATR expansion). -/
def signalLogic (cfg : Params K) (bars : List (Bar K)) (atr : List K × List K) (st : State K)
    (t : Int) : State K :=
  let sig_idx := t - 1
  let expansion : Bool := decide (Pairs.vget 0 atr.1 sig_idx > cfg.mult * Pairs.vget 0 atr.2 sig_idx)
  let C := (barAt bars sig_idx).close
  let Hprev := (barAt bars (sig_idx - 1)).high
  let Lprev := (barAt bars (sig_idx - 1)).low
  if st.pos = PosState.FLAT ∧ expansion = true then
    if breakoutUp bars t = true ∧ breakoutDown bars t = true then
      let dUp := |C - Hprev|
      let dDn := |C - Lprev|
      if dUp ≤ dDn then open_pos st sig_idx PosState.LONG C
      else open_pos st sig_idx PosState.SHORT C
    else if breakoutUp bars t = true then open_pos st sig_idx PosState.LONG C
    else if breakoutDown bars t = true then open_pos st sig_idx PosState.SHORT C
    else st
  else st

/-- Body of the main loop for the counter value `t`. -/
def step (cfg : Params K) (bars : List (Bar K)) (atr : List K × List K) (st : State K)
    (t : Int) : State K :=
  let sig_idx := t - 1
  if cfg.useSLTP = true ∧ st.pos ≠ PosState.FLAT then
    let b := barAt bars sig_idx
    if hitSL cfg st b = true then close_pos st sig_idx (slPrice cfg st) "SL"
    else if hitTP cfg st b = true then close_pos st sig_idx (tpPrice cfg st) "TP"
    else signalLogic cfg bars atr st t
  else signalLogic cfg bars atr st t

/-- State of `main` before the main loop. -/
def initState : State K :=
  { pos := PosState.FLAT, entry := 0, entry_idx := -1, trades := [] }

/-- State after the iterations `atrSlow + 2, ..., t` of the main loop. -/
def loopThrough (cfg : Params K) (bars : List (Bar K)) (t : Int) : State K :=
  Pairs.forLe (step cfg bars (atrSeries cfg bars)) (cfg.atrSlow + 2) t initState

/-- State when the main loop `for (int t = atrSlow + 2; t < T; ++t)` ends. -/
def runLoop (cfg : Params K) (bars : List (Bar K)) : State K :=
  Pairs.forLt (step cfg bars (atrSeries cfg bars)) (cfg.atrSlow + 2) (bars.length : Int)
    initState

/-- The closing block after the loop: a position still open is closed at `T - 1`. -/
def closeAtEnd (bars : List (Bar K)) (st : State K) : State K :=
  if st.pos ≠ PosState.FLAT then
    close_pos st ((bars.length : Int) - 1) (barAt bars ((bars.length : Int) - 1)).close "EOD"
  else st

/-- State of `main` before the report. -/
def run (cfg : Params K) (bars : List (Bar K)) : State K :=
  closeAtEnd bars (runLoop cfg bars)

end Field

end ATR

namespace ATR

/-- Fills of the ledger are at the level: a trade closed with reason `"SL"` has
`pnl = -alphaSL * entry_px`, one closed with reason `"TP"` has `pnl = alphaTP * entry_px`. -/
def FillsAtLevel {K : Type} [LinearOrderedField K] (cfg : Params K) (st : State K) : Prop :=
  ∀ tr ∈ st.trades, (tr.reason = "SL" → tr.pnl = -cfg.alphaSL * tr.entry_px) ∧
    (tr.reason = "TP" → tr.pnl = cfg.alphaTP * tr.entry_px)

/-- Number of positions opened by the main loop. -/
def opened {K : Type} [LinearOrderedField K] (cfg : Params K) (bars : List (Bar K)) : Nat :=
  Pairs.opensCount (step cfg bars (atrSeries cfg bars))
    (fun st => decide (st.pos = PosState.FLAT))
    (cfg.atrSlow + 2) initState ((bars.length : Int) - (cfg.atrSlow + 2)).toNat

end ATR

/-!
# London breakout (`Session-based/London_Breakout.cpp`)

The `break` of the session loop is modelled by a flag carried next to the strategy state:
once it is set, the remaining iterations of the session leave the state unchanged.
-/

namespace London

/-- Position state, `enum class PosState { FLAT=0, LONG=1, SHORT=-1 }`. -/
inductive PosState where
  | FLAT
  | LONG
  | SHORT
  deriving DecidableEq

/-- The conversion `static_cast<int>(pos)`. -/
def PosState.toInt : PosState → Int
  | PosState.FLAT => 0
  | PosState.LONG => 1
  | PosState.SHORT => -1

/-- A closed position, `struct Trade`. -/
structure Trade (K : Type) where
  day : Int
  entry_idx : Int
  exit_idx : Int
  side : PosState
  entry_px : K
  exit_px : K
  reason : String
  pnl : K

/-- One OHLC bar, `struct Bar`; the field `open` of the program is `opn` here. -/
structure Bar (K : Type) where
  opn : K
  high : K
  low : K
  close : K

/-- Session and risk parameters of `main`. -/
structure Params (K : Type) where
  days : Int
  bars_per_day : Int
  asia_start_bar : Int
  asia_end_bar : Int
  london_open_bar : Int
  london_close_bar : Int
  buffer : K
  useSLTP : Bool
  alphaSL : K
  alphaTP : K

/-- Strategy state of `main`: the position, the pending stop orders and the ledger. -/
structure State (K : Type) where
  pos : PosState
  entry : K
  entry_idx : Int
  pending_buy : Bool
  pending_sell : Bool
  buy_level : K
  sell_level : K
  trades : List (Trade K)

section Field

variable {K : Type} [LinearOrderedField K]

/-- Read `bars[i]`. -/
def barAt (bars : List (Bar K)) (i : Int) : Bar K :=
  Pairs.vget (Bar.mk 0 0 0 0) bars i

/-- The lambda `open_pos`. -/
def open_pos (st : State K) (_day : Int) (idx : Int) (side : PosState) (px : K) : State K :=
  { st with pos := side, entry := px, entry_idx := idx, pending_buy := false,
            pending_sell := false }

/-- The lambda `close_pos`. -/
def close_pos (st : State K) (day : Int) (idx : Int) (px : K) (reason : String) : State K :=
  let tr : Trade K :=
    { day := day, entry_idx := st.entry_idx, exit_idx := idx, side := st.pos,
      entry_px := st.entry, exit_px := px, reason := reason,
      pnl := (px - st.entry) * ((st.pos.toInt : Int) : K) }
  { st with pos := PosState.FLAT, entry := 0, entry_idx := -1, trades := st.trades ++ [tr] }

/-- The stop level `SL = entry * (1 - s * alphaSL)`. -/
def slPrice (cfg : Params K) (st : State K) : K :=
  st.entry * (1 - ((st.pos.toInt : Int) : K) * cfg.alphaSL)

/-- The target level `TP = entry * (1 + s * alphaTP)`. -/
def tpPrice (cfg : Params K) (st : State K) : K :=
  st.entry * (1 + ((st.pos.toInt : Int) : K) * cfg.alphaTP)

/-- The flag `hitSL = (s == +1) ? (b.low <= SL) : (b.high >= SL)`. -/
def hitSL (cfg : Params K) (st : State K) (b : Bar K) : Bool :=
  if st.pos.toInt = 1 then decide (b.low ≤ slPrice cfg st) else decide (b.high ≥ slPrice cfg st)

/-- The flag `hitTP = (s == +1) ? (b.high >= TP) : (b.low <= TP)`. -/
def hitTP (cfg : Params K) (st : State K) (b : Bar K) : Bool :=
  if st.pos.toInt = 1 then decide (b.high ≥ tpPrice cfg st) else decide (b.low ≤ tpPrice cfg st)

/-- The flag `hitBuy = pending_buy && (b.high >= buy_level)`. -/
def hitBuy (st : State K) (b : Bar K) : Bool :=
  st.pending_buy && decide (b.high ≥ st.buy_level)

/-- The flag `hitSell = pending_sell && (b.low <= sell_level)`. -/
def hitSell (st : State K) (b : Bar K) : Bool :=
  st.pending_sell && decide (b.low ≤ st.sell_level)

/-- The pending-stop block of the session loop body (`if (pos == PosState::FLAT)`). -/
def pendingLogic (st : State K) (d t : Int) (b : Bar K) : State K :=
  if st.pos = PosState.FLAT then
    if hitBuy st b = true ∧ hitSell st b = true then
      let distBuy := |b.opn - st.buy_level|
      let distSell := |b.opn - st.sell_level|
      if distBuy ≤ distSell then open_pos st d t PosState.LONG st.buy_level
      else open_pos st d t PosState.SHORT st.sell_level
    else if hitBuy st b = true then open_pos st d t PosState.LONG st.buy_level
    else if hitSell st b = true then open_pos st d t PosState.SHORT st.sell_level
    else st
  else st

/-- Body of the session loop for the bar `bi` of the day `d`; the second component of the
loop state records that `break` was executed. -/
def barStep (cfg : Params K) (bars : List (Bar K)) (d : Int) (s : State K × Bool) (bi : Int) :
    State K × Bool :=
  if s.2 = true then s
  else
    let st := s.1
    let t := d * cfg.bars_per_day + bi
    let b := barAt bars t
    if cfg.useSLTP = true ∧ st.pos ≠ PosState.FLAT then
      if hitSL cfg st b = true then (close_pos st d t (slPrice cfg st) "SL", true)
      else if hitTP cfg st b = true then (close_pos st d t (tpPrice cfg st) "TP", true)
      else (pendingLogic st d t b, false)
    else (pendingLogic st d t b, false)

/-- The Asian range `(asiaHigh, asiaLow)` of the day `d`. -/
def asiaRange (cfg : Params K) (bars : List (Bar K)) (d : Int) : K × K :=
  let day_start := d * cfg.bars_per_day
  Pairs.forLt (fun (r : K × K) i => (max r.1 (barAt bars i).high, min r.2 (barAt bars i).low))
    (day_start + cfg.asia_start_bar) (day_start + cfg.asia_end_bar) (-1e100, 1e100)

/-- Placement of the two stop orders at the London open (`if (pos == PosState::FLAT)`). -/
def placeOrders (cfg : Params K) (bars : List (Bar K)) (st : State K) (d : Int) : State K :=
  if st.pos = PosState.FLAT then
    { st with pending_buy := true, pending_sell := true,
              buy_level := (asiaRange cfg bars d).1 + cfg.buffer,
              sell_level := (asiaRange cfg bars d).2 - cfg.buffer }
  else st

/-- Loop state at the start of the session iteration `bi` of the day `d`, when the day
starts in the state `st`. -/
def sessionBefore (cfg : Params K) (bars : List (Bar K)) (st : State K) (d bi : Int) :
    State K × Bool :=
  Pairs.forLt (barStep cfg bars d) cfg.london_open_bar bi (placeOrders cfg bars st d, false)

/-- The block after the session loop: pending orders expire and an open position is closed
at the last bar of the session. -/
def sessionClose (cfg : Params K) (bars : List (Bar K)) (st : State K) (d : Int) : State K :=
  let st3 : State K := { st with pending_buy := false, pending_sell := false }
  let end_t := d * cfg.bars_per_day + (cfg.london_close_bar - 1)
  if st3.pos ≠ PosState.FLAT then close_pos st3 d end_t (barAt bars end_t).close "SessionClose"
  else st3

/-- Body of the day loop for the day `d`. -/
def dayStep (cfg : Params K) (bars : List (Bar K)) (st : State K) (d : Int) : State K :=
  sessionClose cfg bars (sessionBefore cfg bars st d cfg.london_close_bar).1 d

/-- State of `main` before the day loop. -/
def initState : State K :=
  { pos := PosState.FLAT, entry := 0, entry_idx := -1, pending_buy := false,
    pending_sell := false, buy_level := 0, sell_level := 0, trades := [] }

/-- State after the days `0, ..., d - 1`. -/
def runDays (cfg : Params K) (bars : List (Bar K)) (d : Int) : State K :=
  Pairs.forLt (dayStep cfg bars) 0 d initState

/-- State when the day loop `for (int d = 0; d < days; ++d)` ends. -/
def run (cfg : Params K) (bars : List (Bar K)) : State K :=
  runDays cfg bars cfg.days

end Field

end London

namespace London

section Invariants

variable {K : Type} [LinearOrderedField K]

/-- Fills of the ledger are at the level: a trade closed with reason `"SL"` has
`pnl = -alphaSL * entry_px`, one closed with reason `"TP"` has `pnl = alphaTP * entry_px`. -/
def FillsAtLevel (cfg : Params K) (st : State K) : Prop :=
  ∀ tr ∈ st.trades, (tr.reason = "SL" → tr.pnl = -cfg.alphaSL * tr.entry_px) ∧
    (tr.reason = "TP" → tr.pnl = cfg.alphaTP * tr.entry_px)

/-- A trade of the day `d` whose entry and exit indices lie in the London session of that
day, before the bar `bi`. -/
def InSession (cfg : Params K) (d bi : Int) (tr : Trade K) : Prop :=
  tr.day = d ∧ d * cfg.bars_per_day + cfg.london_open_bar ≤ tr.entry_idx ∧
  tr.entry_idx ≤ tr.exit_idx ∧ tr.exit_idx < d * cfg.bars_per_day + bi

/-- Invariant of the day loop, for the state `st` reached after the days before `d`: the
strategy is flat with no pending order, at most one trade is recorded per day, and every
trade lies in the London session of its day. -/
structure DayInv (cfg : Params K) (d : Int) (st : State K) : Prop where
  flat : st.pos = PosState.FLAT
  no_buy : st.pending_buy = false
  no_sell : st.pending_sell = false
  count : (st.trades.length : Int) ≤ d
  days : st.trades.Pairwise (fun a b => a.day < b.day)
  led : ∀ tr ∈ st.trades, 0 ≤ tr.day ∧ tr.day < d ∧
    InSession cfg tr.day cfg.london_close_bar tr

/-- Invariant of the session loop of the day `d`, started with the ledger `trades0`, for the
loop state `s` at the start of the iteration `bi`: nothing opened yet, or a position opened
at an earlier bar of this session, or that position closed at an earlier bar (after which
the loop is left). -/
def SessInv (cfg : Params K) (d : Int) (trades0 : List (Trade K)) (bi : Int)
    (s : State K × Bool) : Prop :=
  (s.2 = false ∧ s.1.pos = PosState.FLAT ∧ s.1.trades = trades0) ∨
  (s.2 = false ∧ s.1.pos ≠ PosState.FLAT ∧ s.1.trades = trades0 ∧
    d * cfg.bars_per_day + cfg.london_open_bar ≤ s.1.entry_idx ∧
    s.1.entry_idx < d * cfg.bars_per_day + bi) ∨
  (s.2 = true ∧ s.1.pos = PosState.FLAT ∧
    ∃ tr, s.1.trades = trades0 ++ [tr] ∧ InSession cfg d bi tr)

end Invariants

end London

/-!
# Moving-average crossover (`Momentum - Trend Following/MA_Crossover.cpp`)
-/

namespace MACross

/-- A closed position, `struct Trade`; `side` is `+1` for long and `-1` for short. -/
structure Trade (K : Type) where
  side : Int
  entry_idx : Int
  exit_idx : Int
  entry : K
  exit : K
  pnl : K

/-- Parameters of `main`: `fastN`, `slowN`, `useSLTP`, `stopLossPct`, `takeProfitPct`. -/
structure Params (K : Type) where
  fastN : Int
  slowN : Int
  useSLTP : Bool
  stopLossPct : K
  takeProfitPct : K

/-- Strategy state of `main`: `pos` (`0` flat, `+1` long, `-1` short), `entry`, `entry_idx`
and the ledger `trades`. -/
structure State (K : Type) where
  pos : Int
  entry : K
  entry_idx : Int
  trades : List (Trade K)

section Field

variable {K : Type} [LinearOrderedField K]

/-- The function `sma`: mean of `x[end_idx - window + 1 .. end_idx]`. -/
def sma (x : List K) (end_idx window : Int) : K :=
  let s := Pairs.forLe (fun s i => s + Pairs.vget 0 x i) (end_idx - window + 1) end_idx 0
  s / (window : K)

/-- The lambda `close_pos`. -/
def close_pos (st : State K) (i : Int) (exit_price : K) : State K :=
  let t : Trade K :=
    { side := st.pos, entry_idx := st.entry_idx, exit_idx := i, entry := st.entry,
      exit := exit_price, pnl := (exit_price - st.entry) * (st.pos : K) }
  { pos := 0, entry := 0, entry_idx := -1, trades := st.trades ++ [t] }

/-- The stop level `sl = entry * (1 - stopLossPct * pos)`. -/
def slPrice (cfg : Params K) (st : State K) : K :=
  st.entry * (1 - cfg.stopLossPct * (st.pos : K))

/-- The target level `tp = entry * (1 + takeProfitPct * pos)`. -/
def tpPrice (cfg : Params K) (st : State K) : K :=
  st.entry * (1 + cfg.takeProfitPct * (st.pos : K))

/-- The flag `hitSL = (pos == +1) ? (px <= sl) : (px >= sl)`. -/
def hitSL (cfg : Params K) (st : State K) (px : K) : Bool :=
  if st.pos = 1 then decide (px ≤ slPrice cfg st) else decide (px ≥ slPrice cfg st)

/-- The flag `hitTP = (pos == +1) ? (px >= tp) : (px <= tp)`. -/
def hitTP (cfg : Params K) (st : State K) (px : K) : Bool :=
  if st.pos = 1 then decide (px ≥ tpPrice cfg st) else decide (px ≤ tpPrice cfg st)

/-- Flip logic of the loop body. -/
def flipLogic (cfg : Params K) (close : List K) (st : State K) (i : Int) : State K :=
  let a := i - 2
  let b := i - 1
  let fast_a := sma close a cfg.fastN
  let slow_a := sma close a cfg.slowN
  let fast_b := sma close b cfg.fastN
  let slow_b := sma close b cfg.slowN
  let bullishCross : Bool := decide (fast_a ≤ slow_a) && decide (fast_b > slow_b)
  let bearishCross : Bool := decide (fast_a ≥ slow_a) && decide (fast_b < slow_b)
  let px := Pairs.vget 0 close i
  if bullishCross = true then
    let st1 := if st.pos = -1 then close_pos st i px else st
    if st1.pos = 0 then { st1 with pos := 1, entry := px, entry_idx := i } else st1
  else if bearishCross = true then
    let st1 := if st.pos = 1 then close_pos st i px else st
    if st1.pos = 0 then { st1 with pos := -1, entry := px, entry_idx := i } else st1
  else st

/-- Body of the main loop for the counter value `i`. -/
def step (cfg : Params K) (close : List K) (st : State K) (i : Int) : State K :=
  if st.pos ≠ 0 ∧ cfg.useSLTP = true then
    let px := Pairs.vget 0 close i
    if hitSL cfg st px = true then close_pos st i (slPrice cfg st)
    else if hitTP cfg st px = true then close_pos st i (tpPrice cfg st)
    else flipLogic cfg close st i
  else flipLogic cfg close st i

end Field

end MACross

/-! # Concrete inputs for the sibling strategies -/

namespace BB

section Field

variable {K : Type} [LinearOrderedField K]

/-- Bollinger parameters with a window of two closes, `k = 1/2` and risk levels of 25%. -/
def cfgTwo : Params K :=
  { N_bb := 2, k := 1 / 2, useSLTP := true, alphaSL := 1 / 4, alphaTP := 1 / 4 }

/-- Four closes: the single loop step `t = 3` opens a short at index 2, which is still open
when the loop ends. -/
def closeOpen : List K := [10, 10, 12, 12]

/-- The closes `closeOpen` with another value at the index 3. -/
def closeLate : List K := [10, 10, 12, 99]

/-- Five closes: the step `t = 3` opens a short at 12, the step `t = 4` sees the close 15
at the stop level `12 * (1 + 1/4)`. -/
def closeStop : List K := [10, 10, 12, 15, 15]

/-- The short opened at index 2 by the step `t = 3`. -/
def heldShort : State K :=
  { pos := PosState.SHORT, entry := 12, entry_idx := 2, trades := [] }

/-- The trade recorded by the run over `closeOpen`. -/
def tradeEod : Trade K :=
  { entry_idx := 2, exit_idx := 3, side := PosState.SHORT, entry_px := 12, exit_px := 12,
    reason := "EOD", pnl := 0 }

/-- The trade recorded by the run over `closeStop`. -/
def tradeStop : Trade K :=
  { entry_idx := 2, exit_idx := 3, side := PosState.SHORT, entry_px := 12, exit_px := 15,
    reason := "SL", pnl := -3 }

end Field

end BB

namespace ATR

section Field

variable {K : Type} [LinearOrderedField K]

/-- Risk parameters with a stop at 1% and a target at 2%. -/
def cfgRisk : Params K :=
  { atrFast := 1, atrSlow := 2, mult := 1, useSLTP := true, alphaSL := 1 / 100,
    alphaTP := 2 / 100 }

/-- A long held from 100: stop at 99, target at 102. -/
def heldLong : State K :=
  { pos := PosState.LONG, entry := 100, entry_idx := 0, trades := [] }

/-- One wide bar whose low is under the stop and whose high is over the target. -/
def barsWide : List (Bar K) := [Bar.mk 100 103 98 100]

end Field

end ATR

namespace London

section Field

variable {K : Type} [LinearOrderedField K]

/-- One day of three bars: the Asian range is the bar 0, the London session the bars 1
and 2. -/
def cfgDay : Params K :=
  { days := 1, bars_per_day := 3, asia_start_bar := 0, asia_end_bar := 1, london_open_bar := 1,
    london_close_bar := 3, buffer := 0, useSLTP := true, alphaSL := 1 / 10, alphaTP := 1 / 10 }

/-- Bars of the day: the range bar `[5, 10]`, a bar that hits both levels and opens nearer
to the buy level, and a quiet bar. -/
def barsDay : List (Bar K) := [Bar.mk 7 10 5 8, Bar.mk 8 11 4 9, Bar.mk 9 (21 / 2) (19 / 2) 10]

/-- The trade of the day: long from the buy level at the bar 1, closed at the session end. -/
def tradeDay : Trade K :=
  { day := 0, entry_idx := 1, exit_idx := 2, side := PosState.LONG, entry_px := 10,
    exit_px := 10, reason := "SessionClose", pnl := 0 }

/-- Flat state with both stop orders pending at the levels 10 and 5. -/
def stPending : State K :=
  { pos := PosState.FLAT, entry := 0, entry_idx := -1, pending_buy := true,
    pending_sell := true, buy_level := 10, sell_level := 5, trades := [] }

end Field

end London

/-! # Inputs for the breakout flags and the true range -/

namespace ATR

section Field

variable {K : Type} [LinearOrderedField K]

/-- Two bars: the close 3 of the second one is over the high 2 of the first one. -/
def barsUp : List (Bar K) := [Bar.mk 1 2 0 1, Bar.mk 1 4 1 3]

/-- A bar with the range `[98, 103]`. -/
def barWide : Bar K := Bar.mk 100 103 98 100

end Field

end ATR

/-!
# Limit order book (`Liquidity - Microstructure/lob_simulator.cpp`)

The draws of the random generator are inputs: the sides drawn by `side(rng)` during one
time step are a list of booleans, whose length is the number `events` drawn by
`arrivals(rng)`.
-/

namespace LobSim

/-- The order book, `struct LOB`. -/
structure LOB (K : Type) where
  bid_price : K
  ask_price : K
  bid_qty : Int
  ask_qty : Int

section Field

variable {K : Type} [LinearOrderedField K]

/-- The book of `main` before the loop, `LOB book{100.0, 100.1, 100, 100}`. -/
def initBook : LOB K :=
  { bid_price := 100.0, ask_price := 100.1, bid_qty := 100, ask_qty := 100 }

/-- Body of the event loop for one order with the side `buy`. -/
def orderEvent (book : LOB K) (buy : Bool) : LOB K :=
  if buy = true then
    let book1 : LOB K := { book with ask_qty := book.ask_qty - 1 }
    if book1.ask_qty ≤ 0 then { book1 with ask_price := book1.ask_price + 0.1, ask_qty := 100 }
    else book1
  else
    let book1 : LOB K := { book with bid_qty := book.bid_qty - 1 }
    if book1.bid_qty ≤ 0 then { book1 with bid_price := book1.bid_price - 0.1, bid_qty := 100 }
    else book1

/-- The event loop `for (int i = 0; i < events; i++)` of one time step, for the sides
drawn in it. -/
def eventLoop (book : LOB K) (sides : List Bool) : LOB K :=
  sides.foldl orderEvent book

/-- The book after the time steps whose draws are `arrivals`. -/
def run (arrivals : List (List Bool)) : LOB K :=
  arrivals.foldl eventLoop initBook

end Field

end LobSim

/-!
# Order-flow imbalance strategy (`Liquidity - Microstructure/order_flow_alpha.cpp`)
-/

namespace OrderFlow

/-- Position state, `enum class PosState { FLAT, LONG, SHORT }`. -/
inductive PosState where
  | FLAT
  | LONG
  | SHORT
  deriving DecidableEq

/-- The order book, `struct LOB`. -/
structure LOB (K : Type) where
  bid_price : K
  ask_price : K
  bid_qty : Int
  ask_qty : Int

/-- Thresholds of `main`: `theta`, `theta_exit`, `max_hold`. -/
structure Params (K : Type) where
  theta : K
  theta_exit : K
  max_hold : Int

/-- State of `main`: the book, the position and the holding counter. -/
structure State (K : Type) where
  book : LOB K
  pos : PosState
  hold : Int

section Field

variable {K : Type} [LinearOrderedField K]

/-- The constants of `main`. -/
def mainParams : Params K :=
  { theta := 0.6, theta_exit := 0.2, max_hold := 50 }

/-- The book of `main` before the loop, `LOB book{100.0, 100.1, 100, 100}`. -/
def initBook : LOB K :=
  { bid_price := 100.0, ask_price := 100.1, bid_qty := 100, ask_qty := 100 }

/-- State of `main` before the loop. -/
def initState : State K :=
  { book := initBook, pos := PosState.FLAT, hold := 0 }

/-- Body of the event loop for one order with the side `buy`. -/
def orderEvent (book : LOB K) (buy : Bool) : LOB K :=
  if buy = true then
    let book1 : LOB K := { book with ask_qty := book.ask_qty - 1 }
    if book1.ask_qty ≤ 0 then { book1 with ask_price := book1.ask_price + 0.1, ask_qty := 100 }
    else book1
  else
    let book1 : LOB K := { book with bid_qty := book.bid_qty - 1 }
    if book1.bid_qty ≤ 0 then { book1 with bid_price := book1.bid_price - 0.1, bid_qty := 100 }
    else book1

/-- The event loop `for (int i = 0; i < events; i++)` of one time step, for the sides
drawn in it. -/
def eventLoop (book : LOB K) (sides : List Bool) : LOB K :=
  sides.foldl orderEvent book

/-- The imbalance `I = (bid_qty - ask_qty) / double(bid_qty + ask_qty)`. -/
def imbalance (book : LOB K) : K :=
  ((book.bid_qty - book.ask_qty : Int) : K) / ((book.bid_qty + book.ask_qty : Int) : K)

/-- Body of the time loop, for the sides drawn during the step. -/
def step (cfg : Params K) (st : State K) (sides : List Bool) : State K :=
  let book := eventLoop st.book sides
  let I := imbalance book
  if st.pos = PosState.FLAT then
    if I > cfg.theta then { book := book, pos := PosState.LONG, hold := 0 }
    else if I < -cfg.theta then { book := book, pos := PosState.SHORT, hold := 0 }
    else { st with book := book }
  else
    let hold := st.hold + 1
    if |I| < cfg.theta_exit ∨ hold > cfg.max_hold then
      { book := book, pos := PosState.FLAT, hold := hold }
    else { book := book, pos := st.pos, hold := hold }

/-- State after the time steps whose draws are `arrivals`. -/
def run (cfg : Params K) (arrivals : List (List Bool)) : State K :=
  arrivals.foldl (step cfg) initState

/-- Bounds on the quantities of a book: `1 ≤ bid_qty ≤ 100` and `1 ≤ ask_qty ≤ 100`. -/
def QtyOK (bid_qty ask_qty : Int) : Prop :=
  1 ≤ bid_qty ∧ bid_qty ≤ 100 ∧ 1 ≤ ask_qty ∧ ask_qty ≤ 100

/-- Ninety-nine buy orders: they bring the ask quantity from 100 to 1. -/
def buys99 : List Bool := List.replicate 99 true

end Field

end OrderFlow

/-!
# Online learner (`Adaptive Machine Learning Models/online_learner.cpp`)

The exponential `std::exp` is a parameter `exp`, so that the definitions stay executable.
The draws of the random generator are inputs: `draws t` is the return `N(rng)` of the
iteration `t` and `noise t` the value `U(rng)` of the noise expert. A `Signal` is represented
by its integer value (`SHORT = -1`, `FLAT = 0`, `LONG = 1`).
-/

namespace Learner

/-- State of `main`: the vectors `weights` and `returns`. -/
structure State (K : Type) where
  weights : List K
  returns : List K

section Field

variable {K : Type} [LinearOrderedField K]

/-- The function `sign`; its values `1.0`, `-1.0`, `0.0` are given as the integers they are
converted to by the callers. -/
def sign (x : K) : Int :=
  if x > 0 then 1 else if x < 0 then -1 else 0

/-- The function `trend_expert`. -/
def trend_expert (ret_prev : K) : Int :=
  sign ret_prev

/-- The function `mean_reversion_expert`. -/
def mean_reversion_expert (ret_prev : K) : Int :=
  -sign ret_prev

/-- The vector `experts = {e1, e2, e3}` of the iteration `t`. -/
def expertsAt (returns : List K) (t : Int) (e3 : Int) : List Int :=
  [trend_expert (Pairs.vget 0 returns (t - 1)),
   mean_reversion_expert (Pairs.vget 0 returns (t - 1)), e3]

/-- The aggregation loop `agg += weights[i] * static_cast<int>(experts[i])`. -/
def aggregate (weights : List K) (experts : List Int) : K :=
  Pairs.forLt (fun agg i => agg + Pairs.vget 0 weights i * ((Pairs.vget 0 experts i : Int) : K))
    0 (experts.length : Int) 0

/-- The value `decision = static_cast<Signal>(sign(agg))`. -/
def decision (weights : List K) (experts : List Int) : Int :=
  sign (aggregate weights experts)

/-- The update loop `weights[i] *= std::exp(eta * static_cast<int>(experts[i]) * r)`. -/
def reweight (exp : K → K) (eta : K) (weights : List K) (experts : List Int) (r : K) : List K :=
  Pairs.forLt
    (fun w i =>
      Pairs.vset w i (Pairs.vget 0 w i * exp (eta * ((Pairs.vget 0 experts i : Int) : K) * r)))
    0 (weights.length : Int) weights

/-- The sum `std::accumulate(weights.begin(), weights.end(), 0.0)`. -/
def accumulate (weights : List K) : K :=
  weights.foldl (fun s w => s + w) 0

/-- The loop `for (auto& w : weights) w /= norm`. -/
def normalise (weights : List K) (norm : K) : List K :=
  weights.map (fun w => w / norm)

/-- Body of the main loop for the counter value `t`, the return `r` and the noise signal
`e3` drawn in it. -/
def step (exp : K → K) (eta : K) (st : State K) (t : Int) (r : K) (e3 : Int) : State K :=
  let returns := Pairs.vset st.returns t r
  let experts := expertsAt returns t e3
  let weights1 := reweight exp eta st.weights experts r
  let norm := accumulate weights1
  { weights := normalise weights1 norm, returns := returns }

/-- State of `main` before the loop: `weights = {1.0/3, 1.0/3, 1.0/3}`, `returns(T)`. -/
def initState (T : Int) : State K :=
  { weights := [1 / 3, 1 / 3, 1 / 3], returns := List.replicate T.toNat 0 }

/-- State after the iterations `1, ..., t` of the main loop. -/
def loopThrough (exp : K → K) (eta : K) (T : Int) (draws : Int → K) (noise : Int → Int)
    (t : Int) : State K :=
  Pairs.forLe (fun st i => step exp eta st i (draws i) (noise i)) 1 t (initState T)

/-- State when the main loop `for (int t = 1; t < T; ++t)` ends. -/
def run (exp : K → K) (eta : K) (T : Int) (draws : Int → K) (noise : Int → Int) : State K :=
  Pairs.forLt (fun st i => step exp eta st i (draws i) (noise i)) 1 T (initState T)

/-- The constant `eta = 0.5` of `main`. -/
def mainEta : K := 0.5

/-- The constant `T = 3000` of `main`. -/
def mainT : Int := 3000

/-- The weights form a probability distribution over the three experts. -/
def IsDistribution (weights : List K) : Prop :=
  weights.length = 3 ∧ (∀ w ∈ weights, 0 < w) ∧ accumulate weights = 1

end Field

end Learner

/-!
# Macro news breakout (`News-driven/macro_news_breakout.cpp`)

The exponential `std::exp` is a parameter `exp`. The draws of the random generator are
inputs: for the iteration `t` of `generate_world`, `u t` is the value `U(rng)`,
`z_surprise t` the value `N(rng)` of the surprise and `z_ret t` the value `N(rng)` of the
return.
-/

namespace MacroNews

/-- Market regime, `enum class Regime { RISK_ON, RISK_OFF }`. -/
inductive Regime where
  | RISK_ON
  | RISK_OFF
  deriving DecidableEq

/-- Kind of event, `enum class EventType { NONE, MACRO, CENTRAL_BANK }`. -/
inductive EventType where
  | NONE
  | MACRO
  | CENTRAL_BANK
  deriving DecidableEq

/-- Position state, `enum class PosState { FLAT, LONG, SHORT }`. -/
inductive PosState where
  | FLAT
  | LONG
  | SHORT
  deriving DecidableEq

/-- One observation, `struct Tick`. -/
structure Tick (K : Type) where
  t : Int
  price : K
  ret : K
  regime : Regime
  event_type : EventType
  surprise : K

/-- Values drawn from the random generator by `generate_world`, by iteration. -/
structure Draws (K : Type) where
  u : Int → K
  z_surprise : Int → K
  z_ret : Int → K

/-- Loop state of `generate_world`: `price`, `regime` and the vector `out`. -/
structure World (K : Type) where
  price : K
  regime : Regime
  out : List (Tick K)

/-- Strategy parameters of `main`. -/
structure Params (K : Type) where
  k_surprise : K
  hold_horizon : Int
  stop_pct : K
  take_pct : K
  size_risk_on : K
  size_risk_off : K
  cb_size_multiplier : K
  cal_size_multiplier : K

/-- Trading state of `main`. -/
structure State (K : Type) where
  pos : PosState
  entry_t : Int
  entry_price : K
  stop : K
  take : K
  size : K
  pnl : K
  trades_closed : Int
  trades_opened : Int

/-- The calendar loop `for (int t = t0; t < T; t += stride) events.push_back(t)`, from the
counter value `t` with the vector `acc`. -/
def pushEvery (stride : Int) (hs : 0 < stride) (T : Int) (t : Int) (acc : List Int) : List Int :=
  if t < T then pushEvery stride hs T (t + stride) (acc ++ [t]) else acc
termination_by (T - t).toNat
decreasing_by omega

/-- The vector `macro_events`: `for (int t = 400; t < T; t += 400)`. -/
def macro_events (T : Int) : List Int :=
  pushEvery 400 (by decide) T 400 []

/-- The vector `cb_events`: `for (int t = 800; t < T; t += 800)`. -/
def cb_events (T : Int) : List Int :=
  pushEvery 800 (by decide) T 800 []

/-- The event type `et` of the iteration `t`: central bank first, then macro. -/
def eventAt (T : Int) (t : Int) : EventType :=
  if t ∈ cb_events T then EventType.CENTRAL_BANK
  else if t ∈ macro_events T then EventType.MACRO
  else EventType.NONE

section Field

variable {K : Type} [LinearOrderedField K]

/-- Body of the loop of `generate_world` for the counter value `t`. -/
def worldStep (exp : K → K) (T : Int) (draws : Draws K) (w : World K) (t : Int) : World K :=
  let regime :=
    if draws.u t < 0.002 then
      (if w.regime = Regime.RISK_ON then Regime.RISK_OFF else Regime.RISK_ON)
    else w.regime
  let et := eventAt T t
  let surprise : K := if et ≠ EventType.NONE then draws.z_surprise t else 0.0
  let calendar_drift : K := if Int.tmod t 1000 > 950 then 0.0005 else 0.0
  let regime_drift : K := if regime = Regime.RISK_ON then 0.0002 else -0.0002
  let sigma0 : K := 0.005
  let sigma1 : K := if et = EventType.MACRO then 0.020 else sigma0
  let sigma : K := if et = EventType.CENTRAL_BANK then 0.030 else sigma1
  let ret0 := regime_drift + calendar_drift + sigma * draws.z_ret t
  let ret :=
    if et = EventType.MACRO then ret0 + 0.040 * surprise
    else if et = EventType.CENTRAL_BANK then ret0 + 0.060 * surprise
    else ret0
  let price := w.price * exp ret
  { price := price, regime := regime,
    out := w.out ++ [Tick.mk t price ret regime et surprise] }

/-- The function `generate_world`. -/
def generate_world (exp : K → K) (T : Int) (draws : Draws K) : List (Tick K) :=
  (Pairs.forLt (worldStep exp T draws) 0 T
    { price := 100.0, regime := Regime.RISK_ON, out := [] }).out

/-- Read `data[t]`. -/
def tickAt (data : List (Tick K)) (t : Int) : Tick K :=
  Pairs.vget (Tick.mk 0 0 0 Regime.RISK_ON EventType.NONE 0) data t

/-- The constants of `main`. -/
def mainParams : Params K :=
  { k_surprise := 0.75, hold_horizon := 30, stop_pct := 0.020, take_pct := 0.030,
    size_risk_on := 1.0, size_risk_off := 0.6, cb_size_multiplier := 1.3,
    cal_size_multiplier := 1.2 }

/-- The constant `T = 5000` of `main`. -/
def mainT : Int := 5000

/-- Mark-to-market of an open position on the price change `dp`. -/
def markToMarket (data : List (Tick K)) (st : State K) (t : Int) : State K :=
  if st.pos ≠ PosState.FLAT then
    let dp := (tickAt data t).price - (tickAt data (t - 1)).price
    if st.pos = PosState.LONG then { st with pnl := st.pnl + st.size * dp }
    else { st with pnl := st.pnl + st.size * (-dp) }
  else st

/-- Risk exits (stop or take) evaluated at the current price. -/
def riskExit (cur : Tick K) (st : State K) : State K :=
  if st.pos ≠ PosState.FLAT then
    if st.pos = PosState.LONG then
      if cur.price ≤ st.stop ∨ cur.price ≥ st.take then
        { st with pos := PosState.FLAT, trades_closed := st.trades_closed + 1 }
      else st
    else
      if cur.price ≥ st.stop ∨ cur.price ≤ st.take then
        { st with pos := PosState.FLAT, trades_closed := st.trades_closed + 1 }
      else st
  else st

/-- Time exit after `hold_horizon` steps. -/
def timeExit (cfg : Params K) (st : State K) (t : Int) : State K :=
  if st.pos ≠ PosState.FLAT ∧ t - st.entry_t ≥ cfg.hold_horizon then
    { st with pos := PosState.FLAT, trades_closed := st.trades_closed + 1 }
  else st

/-- The value `base_size` of an entry. -/
def base_size (cfg : Params K) (cur : Tick K) : K :=
  if cur.regime = Regime.RISK_ON then cfg.size_risk_on else cfg.size_risk_off

/-- The flag `flow_day = ((cur.t % 1000) > 950)`. -/
def flow_day (cur : Tick K) : Bool :=
  decide (Int.tmod cur.t 1000 > 950)

/-- The value `cal_mult` of an entry. -/
def cal_mult (cfg : Params K) (cur : Tick K) : K :=
  if flow_day cur = true then cfg.cal_size_multiplier else 1.0

/-- The value `cb_mult` of an entry. -/
def cb_mult (cfg : Params K) (cur : Tick K) : K :=
  if cur.event_type = EventType.CENTRAL_BANK then cfg.cb_size_multiplier else 1.0

/-- Entry at an event timestamp when flat. -/
def entry (cfg : Params K) (cur : Tick K) (st : State K) (t : Int) : State K :=
  if st.pos = PosState.FLAT ∧ cur.event_type ≠ EventType.NONE then
    if |cur.surprise| ≥ cfg.k_surprise then
      let size := base_size cfg cur * cal_mult cfg cur * cb_mult cfg cur
      if cur.surprise > 0 then
        { st with size := size, pos := PosState.LONG, entry_t := t, entry_price := cur.price,
                  stop := cur.price * (1.0 - cfg.stop_pct),
                  take := cur.price * (1.0 + cfg.take_pct),
                  trades_opened := st.trades_opened + 1 }
      else
        { st with size := size, pos := PosState.SHORT, entry_t := t, entry_price := cur.price,
                  stop := cur.price * (1.0 + cfg.stop_pct),
                  take := cur.price * (1.0 - cfg.take_pct),
                  trades_opened := st.trades_opened + 1 }
    else st
  else st

/-- Body of the main loop for the counter value `t`. -/
def step (cfg : Params K) (data : List (Tick K)) (st : State K) (t : Int) : State K :=
  let cur := tickAt data t
  entry cfg cur (timeExit cfg (riskExit cur (markToMarket data st t)) t) t

/-- Trading state of `main` before the loop. -/
def initState : State K :=
  { pos := PosState.FLAT, entry_t := -1, entry_price := 0.0, stop := 0.0, take := 0.0,
    size := 0.0, pnl := 0.0, trades_closed := 0, trades_opened := 0 }

/-- State after the iterations `1, ..., t` of the main loop. -/
def loopThrough (cfg : Params K) (data : List (Tick K)) (t : Int) : State K :=
  Pairs.forLe (step cfg data) 1 t initState

/-- State when the main loop `for (int t = 1; t < T; ++t)` ends. -/
def run (cfg : Params K) (T : Int) (data : List (Tick K)) : State K :=
  Pairs.forLt (step cfg data) 1 T initState

/-- Counter invariant: `trades_opened - trades_closed` is 1 with a position open and 0 when
flat. -/
def Counters (st : State K) : Prop :=
  st.trades_opened - st.trades_closed = (if st.pos = PosState.FLAT then 0 else 1)

/-- The sizes an entry can take with the constants of `main`. -/
def SizeOK (size : K) : Prop :=
  size = 1.0 ∨ size = 0.6 ∨ size = 1.3 ∨ size = 0.78

/-- Parameters with a holding horizon of one step. -/
def cfgQuick : Params K :=
  { k_surprise := 0.75, hold_horizon := 1, stop_pct := 0.020, take_pct := 0.030,
    size_risk_on := 1.0, size_risk_off := 0.6, cb_size_multiplier := 1.3,
    cal_size_multiplier := 1.2 }

/-- Two ticks without event: the price falls from 100 to 97. -/
def dataDrop : List (Tick K) :=
  [Tick.mk 0 100 0 Regime.RISK_ON EventType.NONE 0,
   Tick.mk 1 97 0 Regime.RISK_ON EventType.NONE 0]

/-- A long of size 1 held since `t = 0` from 100, with the stop at 98 and the take at 103. -/
def heldLong : State K :=
  { pos := PosState.LONG, entry_t := 0, entry_price := 100, stop := 98, take := 103,
    size := 1, pnl := 0, trades_closed := 0, trades_opened := 1 }

/-- Draws without regime switch (`u = 1`), with the surprise 1 at every event and no noise
in the returns. -/
def drawsOne : Draws K :=
  { u := fun _ => 1, z_surprise := fun _ => 1, z_ret := fun _ => 0 }

end Field

end MacroNews

namespace Pairs

/-! # Theorems -/

section Theorems

variable {K : Type} [LinearOrderedField K]

/-! ## Loop lemmas -/

theorem loopFrom_succ_last {σ : Type} (body : σ → Int → σ) (n : Nat) (i : Int) (s : σ) :
    loopFrom body (n + 1) i s = body (loopFrom body n i s) (i + n) := by
  induction n generalizing i s with
  | zero => simp [loopFrom]
  | succ k ih =>
    rw [loopFrom, ih (i + 1) (body s i)]
    have h : i + 1 + (k : Int) = i + ((k + 1 : Nat) : Int) := by push_cast; ring
    rw [h]
    rfl

theorem loopFrom_congr {σ : Type} (f g : σ → Int → σ) (n : Nat) (i : Int) (s : σ)
    (h : ∀ j : Int, i ≤ j → j < i + n → ∀ s, f s j = g s j) :
    loopFrom f n i s = loopFrom g n i s := by
  induction n generalizing i s with
  | zero => rfl
  | succ k ih =>
    rw [loopFrom, loopFrom, h i le_rfl (by push_cast; omega)]
    apply ih
    intro j hj1 hj2 s
    exact h j (by omega) (by push_cast; omega) s

theorem Icc_toNat_eq (start stop : Int) :
    Finset.Ico start (start + ((stop - start + 1).toNat : Int)) = Finset.Icc start stop := by
  ext j
  simp only [Finset.mem_Ico, Finset.mem_Icc]
  omega

theorem loopFrom_sum (f : Int → K) (n : Nat) (i : Int) (s : K) :
    loopFrom (fun s j => s + f j) n i s = s + ∑ j in Finset.Ico i (i + n), f j := by
  induction n with
  | zero => simp [loopFrom]
  | succ k ih =>
    rw [loopFrom_succ_last, ih]
    have h : Finset.Ico i (i + ((k + 1 : Nat) : Int)) = insert (i + (k : Int)) (Finset.Ico i (i + k)) := by
      ext j
      simp only [Finset.mem_Ico, Finset.mem_insert]
      push_cast
      omega
    rw [h, Finset.sum_insert (by simp)]
    ring

theorem forLe_sum (f : Int → K) (start stop : Int) (s : K) :
    forLe (fun s j => s + f j) start stop s = s + ∑ j in Finset.Icc start stop, f j := by
  rw [forLe, loopFrom_sum, Icc_toNat_eq]

theorem loopFrom_sum2 (f g : Int → K) (n : Nat) (i : Int) (s : K × K) :
    loopFrom (fun (m : K × K) j => (m.1 + f j, m.2 + g j)) n i s
      = (s.1 + ∑ j in Finset.Ico i (i + n), f j, s.2 + ∑ j in Finset.Ico i (i + n), g j) := by
  induction n with
  | zero => simp [loopFrom]
  | succ k ih =>
    rw [loopFrom_succ_last, ih]
    have h : Finset.Ico i (i + ((k + 1 : Nat) : Int)) = insert (i + (k : Int)) (Finset.Ico i (i + k)) := by
      ext j
      simp only [Finset.mem_Ico, Finset.mem_insert]
      push_cast
      omega
    rw [h, Finset.sum_insert (by simp), Finset.sum_insert (by simp)]
    ext <;> simp <;> ring

theorem forLe_sum2 (f g : Int → K) (start stop : Int) (s : K × K) :
    forLe (fun (m : K × K) j => (m.1 + f j, m.2 + g j)) start stop s
      = (s.1 + ∑ j in Finset.Icc start stop, f j, s.2 + ∑ j in Finset.Icc start stop, g j) := by
  rw [forLe, loopFrom_sum2, Icc_toNat_eq]

theorem rolling_ols_beta_alpha_eq (data : List (PairPoint K)) (t_end L : Int) :
    rolling_ols_beta_alpha data t_end L =
      (windowMeanY data t_end L
          - (if centredSumSq data t_end L > 1e-12
              then centredCross data t_end L / centredSumSq data t_end L else 0)
            * windowMeanX data t_end L,
        if centredSumSq data t_end L > 1e-12
          then centredCross data t_end L / centredSumSq data t_end L else 0) := by
  simp only [rolling_ols_beta_alpha, forLe_sum2, zero_add, centredSumSq, centredCross,
    windowMeanX, windowMeanY, window, pow_two]

theorem window_card (t_end L : Int) (hL : 1 ≤ L) :
    (((window t_end L).card : Nat) : K) = (L : K) := by
  rw [window, Int.card_Icc]
  have h : (t_end + 1 - (t_end - L + 1)).toNat = L.toNat := by omega
  rw [h]
  have h2 : ((L.toNat : Int) : K) = (L : K) := by rw [Int.toNat_of_nonneg (by omega)]
  exact_mod_cast h2

/-- Least-squares optimality of the centred-sum formulas over an arbitrary finite index
set. -/
theorem ols_optimal (s : Finset Int) (x y : Int → K) (n : K) (hn : (s.card : K) = n)
    (hn0 : n ≠ 0) (hden : 0 < ∑ i in s, (x i - (∑ j in s, x j) / n) ^ 2) (a' b' : K) :
    let mx := (∑ j in s, x j) / n
    let my := (∑ j in s, y j) / n
    let b := (∑ i in s, (x i - mx) * (y i - my)) / (∑ i in s, (x i - mx) ^ 2)
    let a := my - b * mx
    ∑ i in s, (y i - a - b * x i) ^ 2 ≤ ∑ i in s, (y i - a' - b' * x i) ^ 2 := by
  intro mx my b a
  have hsx : ∑ i in s, (x i - mx) = 0 := by
    rw [Finset.sum_sub_distrib, Finset.sum_const, nsmul_eq_mul, hn]
    simp only [mx]; field_simp
  have hsy : ∑ i in s, (y i - my) = 0 := by
    rw [Finset.sum_sub_distrib, Finset.sum_const, nsmul_eq_mul, hn]
    simp only [my]; field_simp
  have hb : b * (∑ i in s, (x i - mx) ^ 2) = ∑ i in s, (x i - mx) * (y i - my) := by
    simp only [b]; field_simp
  have hr : ∑ i in s, (y i - a - b * x i) = 0 := by
    have : ∀ i ∈ s, y i - a - b * x i = (y i - my) - b * (x i - mx) := by
      intro i _; simp only [a]; ring
    rw [Finset.sum_congr rfl this, Finset.sum_sub_distrib, ← Finset.mul_sum, hsx, hsy]
    ring
  have hrx : ∑ i in s, (x i - mx) * (y i - a - b * x i) = 0 := by
    have : ∀ i ∈ s, (x i - mx) * (y i - a - b * x i)
        = (x i - mx) * (y i - my) - b * (x i - mx) ^ 2 := by
      intro i _; simp only [a]; ring
    rw [Finset.sum_congr rfl this, Finset.sum_sub_distrib, ← Finset.mul_sum, hb]
    ring
  have hsplit : ∀ i ∈ s, (y i - a' - b' * x i) ^ 2
      = (y i - a - b * x i) ^ 2 + ((a - a' + (b - b') * mx) + (b - b') * (x i - mx)) ^ 2
        + (2 * (a - a' + (b - b') * mx)) * (y i - a - b * x i)
        + (2 * (b - b')) * ((x i - mx) * (y i - a - b * x i)) := by
    intro i _; ring
  rw [Finset.sum_congr rfl hsplit, Finset.sum_add_distrib, Finset.sum_add_distrib,
    Finset.sum_add_distrib, ← Finset.mul_sum, ← Finset.mul_sum, hr, hrx]
  have hnn : 0 ≤ ∑ i in s, ((a - a' + (b - b') * mx) + (b - b') * (x i - mx)) ^ 2 :=
    Finset.sum_nonneg (fun i _ => sq_nonneg _)
  linarith

theorem eps_pos : (0 : K) < 1e-12 := by norm_num

/-- Claim C1. Whenever the centred sum of squares of `x` over the window `[t_end - L + 1,
t_end]` exceeds `1e-12`, the pair `(a, b)` returned by `rolling_ols_beta_alpha` minimises
the sum of squared residuals over that window among all pairs `(a', b')`. -/
theorem rolling_ols_minimises (data : List (PairPoint K)) (t_end L : Int) (hL : 1 ≤ L)
    (_hlo : L - 1 ≤ t_end) (_hhi : t_end < data.length)
    (hden : centredSumSq data t_end L > 1e-12) (a' b' : K) :
    sumSqResiduals data t_end L (rolling_ols_beta_alpha data t_end L).1
        (rolling_ols_beta_alpha data t_end L).2
      ≤ sumSqResiduals data t_end L a' b' := by
  rw [rolling_ols_beta_alpha_eq]
  simp only [if_pos hden]
  have hL0 : (L : K) ≠ 0 := by
    have : (0 : K) < (L : K) := by exact_mod_cast (by omega : (0 : Int) < L)
    exact ne_of_gt this
  exact ols_optimal (window t_end L) (xAt data) (yAt data) (L : K) (window_card t_end L hL) hL0
    (lt_trans eps_pos hden) a' b'

/-- Witness for claim C1: three observations `(0,0), (1,0), (2,12)` with the window of length
`3` ending at index `2`. -/
theorem rolling_ols_minimises_witness :
    centredSumSq ([⟨0, 0⟩, ⟨1, 0⟩, ⟨2, 12⟩] : List (PairPoint ℝ)) 2 3 > 1e-12 ∧
    sumSqResiduals ([⟨0, 0⟩, ⟨1, 0⟩, ⟨2, 12⟩] : List (PairPoint ℝ)) 2 3
        (rolling_ols_beta_alpha ([⟨0, 0⟩, ⟨1, 0⟩, ⟨2, 12⟩] : List (PairPoint ℝ)) 2 3).1
        (rolling_ols_beta_alpha ([⟨0, 0⟩, ⟨1, 0⟩, ⟨2, 12⟩] : List (PairPoint ℝ)) 2 3).2
      ≤ sumSqResiduals ([⟨0, 0⟩, ⟨1, 0⟩, ⟨2, 12⟩] : List (PairPoint ℝ)) 2 3 0 0 := by
  have h : centredSumSq ([⟨0, 0⟩, ⟨1, 0⟩, ⟨2, 12⟩] : List (PairPoint ℝ)) 2 3 > 1e-12 := by
    have hw : window 2 3 = {0, 1, 2} := by decide
    simp [centredSumSq, windowMeanX, hw, xAt, vget]
    norm_num
  exact ⟨h, rolling_ols_minimises _ 2 3 (by decide) (by decide) (by simp) h 0 0⟩

/-! ## Causality -/

theorem vget_congr {α : Type} (d : α) (v w : List α) (n : Int)
    (h : ∀ i : Nat, (i : Int) ≤ n → v[i]? = w[i]?) (i : Int) (hi : i ≤ n) :
    vget d v i = vget d w i := by
  unfold vget
  split_ifs with h0
  · rfl
  · have := h i.toNat (by omega)
    simp [List.getD, this]

theorem rolling_ols_congr (d1 d2 : List (PairPoint K)) (t_end L : Int)
    (h : ∀ i : Int, i ≤ t_end → vget (PairPoint.mk 0 0) d1 i = vget (PairPoint.mk 0 0) d2 i) :
    rolling_ols_beta_alpha d1 t_end L = rolling_ols_beta_alpha d2 t_end L := by
  have hx : ∀ i ∈ window t_end L, xAt d1 i = xAt d2 i := by
    intro i hi
    simp only [window, Finset.mem_Icc] at hi
    simp only [xAt, h i hi.2]
  have hy : ∀ i ∈ window t_end L, yAt d1 i = yAt d2 i := by
    intro i hi
    simp only [window, Finset.mem_Icc] at hi
    simp only [yAt, h i hi.2]
  have hmx : windowMeanX d1 t_end L = windowMeanX d2 t_end L := by
    simp only [windowMeanX, Finset.sum_congr rfl hx]
  have hmy : windowMeanY d1 t_end L = windowMeanY d2 t_end L := by
    simp only [windowMeanY, Finset.sum_congr rfl hy]
  have hden : centredSumSq d1 t_end L = centredSumSq d2 t_end L := by
    simp only [centredSumSq, hmx]
    exact Finset.sum_congr rfl (fun i hi => by rw [hx i hi])
  have hnum : centredCross d1 t_end L = centredCross d2 t_end L := by
    simp only [centredCross, hmx, hmy]
    exact Finset.sum_congr rfl (fun i hi => by rw [hx i hi, hy i hi])
  rw [rolling_ols_beta_alpha_eq, rolling_ols_beta_alpha_eq, hmx, hmy, hden, hnum]

theorem spreadAt_congr (cfg : Params K) (d1 d2 : List (PairPoint K)) (spread : List K)
    (t : Int)
    (h : ∀ i : Int, i ≤ t - 1 → vget (PairPoint.mk 0 0) d1 i = vget (PairPoint.mk 0 0) d2 i) :
    spreadAt cfg d1 spread t = spreadAt cfg d2 spread t := by
  simp only [spreadAt, rolling_ols_congr d1 d2 (t - 1) cfg.L_beta h, xAt, yAt, h (t - 1) le_rfl]

theorem step_congr (sqrt : K → K) (cfg : Params K) (d1 d2 : List (PairPoint K))
    (st : Engine K) (t : Int)
    (h : ∀ i : Int, i ≤ t → vget (PairPoint.mk 0 0) d1 i = vget (PairPoint.mk 0 0) d2 i) :
    step sqrt cfg d1 st t = step sqrt cfg d2 st t := by
  have h1 : ∀ i : Int, i ≤ t - 1 →
      vget (PairPoint.mk 0 0) d1 i = vget (PairPoint.mk 0 0) d2 i :=
    fun i hi => h i (by omega)
  simp only [step, spreadAt_congr cfg d1 d2 st.spread t h1,
    rolling_ols_congr d1 d2 (t - 1) cfg.L_beta h1, hedgedReturn, xAt, yAt, h t le_rfl,
    h (t - 1) (by omega)]

theorem step_decision (sqrt : K → K) (cfg : Params K) (d1 d2 : List (PairPoint K))
    (st : Engine K) (t : Int)
    (h : ∀ i : Int, i ≤ t - 1 → vget (PairPoint.mk 0 0) d1 i = vget (PairPoint.mk 0 0) d2 i) :
    (step sqrt cfg d1 st t).pos = (step sqrt cfg d2 st t).pos ∧
    (step sqrt cfg d1 st t).entry_t = (step sqrt cfg d2 st t).entry_t ∧
    (step sqrt cfg d1 st t).entry_sp = (step sqrt cfg d2 st t).entry_sp ∧
    (step sqrt cfg d1 st t).spread = (step sqrt cfg d2 st t).spread ∧
    (step sqrt cfg d1 st t).trades.map Trade.decision
      = (step sqrt cfg d2 st t).trades.map Trade.decision := by
  simp only [step, spreadAt_congr cfg d1 d2 st.spread t h]
  split_ifs <;> simp [Trade.decision]

theorem runThrough_succ (sqrt : K → K) (cfg : Params K) (data : List (PairPoint K)) (t : Int)
    (ht : firstStep cfg ≤ t) :
    runThrough sqrt cfg data t = step sqrt cfg data (runThrough sqrt cfg data (t - 1)) t := by
  unfold runThrough forLe
  have h1 : (t - firstStep cfg + 1).toNat = (t - 1 - firstStep cfg + 1).toNat + 1 := by omega
  rw [h1, loopFrom_succ_last]
  have h2 : firstStep cfg + (((t - 1 - firstStep cfg + 1).toNat : Nat) : Int) = t := by omega
  rw [h2]

theorem runThrough_congr (sqrt : K → K) (cfg : Params K) (d1 d2 : List (PairPoint K))
    (t : Int) (hlen : d1.length = d2.length)
    (h : ∀ i : Int, i ≤ t → vget (PairPoint.mk 0 0) d1 i = vget (PairPoint.mk 0 0) d2 i) :
    runThrough sqrt cfg d1 t = runThrough sqrt cfg d2 t := by
  unfold runThrough forLe
  rw [hlen]
  apply loopFrom_congr
  intro j _ hj2 s
  exact step_congr sqrt cfg d1 d2 s j (fun i hi => h i (by omega))

/-- Claim C2. Causality of the decision loop: two observation sequences of equal length that
agree on every index `≤ t - 1` lead, after the iterations up to and including `t`, to the
same position side, entry time and entry spread, and the iteration `t` appends the same
trades to the ledger up to their realised pnl. -/
theorem causality (sqrt : K → K) (cfg : Params K) (d1 d2 : List (PairPoint K)) (t : Int)
    (hlen : d1.length = d2.length) (ht : firstStep cfg ≤ t) (_hT : t < d1.length)
    (hagree : ∀ i : Nat, (i : Int) ≤ t - 1 → d1[i]? = d2[i]?) :
    (runThrough sqrt cfg d1 t).pos = (runThrough sqrt cfg d2 t).pos ∧
    (runThrough sqrt cfg d1 t).entry_t = (runThrough sqrt cfg d2 t).entry_t ∧
    (runThrough sqrt cfg d1 t).entry_sp = (runThrough sqrt cfg d2 t).entry_sp ∧
    (emittedAt sqrt cfg d1 t).map Trade.decision
      = (emittedAt sqrt cfg d2 t).map Trade.decision := by
  have hv := vget_congr (PairPoint.mk (0 : K) 0) d1 d2 (t - 1) hagree
  have hpre := runThrough_congr sqrt cfg d1 d2 (t - 1) hlen hv
  have hd := step_decision sqrt cfg d1 d2 (runThrough sqrt cfg d2 (t - 1)) t hv
  simp only [emittedAt, runThrough_succ sqrt cfg d1 t ht, runThrough_succ sqrt cfg d2 t ht,
    hpre, List.map_drop]
  exact ⟨hd.1, hd.2.1, hd.2.2.1, by rw [hd.2.2.2.2]⟩

/-- Witness for claim C2: `obs4` and `obs4b` agree on the indices `0..2` and differ at index
`3`; the decision at step `3` is the same. -/
theorem causality_witness :
    (runThrough Real.sqrt (cfgSmall ℝ) (obs4 ℝ) 3).pos
        = (runThrough Real.sqrt (cfgSmall ℝ) (obs4b ℝ) 3).pos ∧
    (runThrough Real.sqrt (cfgSmall ℝ) (obs4 ℝ) 3).entry_t
        = (runThrough Real.sqrt (cfgSmall ℝ) (obs4b ℝ) 3).entry_t ∧
    (runThrough Real.sqrt (cfgSmall ℝ) (obs4 ℝ) 3).entry_sp
        = (runThrough Real.sqrt (cfgSmall ℝ) (obs4b ℝ) 3).entry_sp ∧
    (emittedAt Real.sqrt (cfgSmall ℝ) (obs4 ℝ) 3).map Trade.decision
        = (emittedAt Real.sqrt (cfgSmall ℝ) (obs4b ℝ) 3).map Trade.decision :=
  causality Real.sqrt (cfgSmall ℝ) (obs4 ℝ) (obs4b ℝ) 3 (by simp [obs4, obs4b])
    (by simp [firstStep, cfgSmall]) (by simp [obs4])
    (by
      intro i hi
      have hi2 : i ≤ 2 := by omega
      interval_cases i <;> simp [obs4, obs4b])

theorem ols_obsLate_2 : rolling_ols_beta_alpha (obsLate ℝ) 2 3 = (0, 1) := by
  simp [rolling_ols_beta_alpha, forLe, loopFrom, xAt, yAt, vget, obsLate]
  norm_num

theorem ols_obsLate_3 : rolling_ols_beta_alpha (obsLate ℝ) 3 3 = (-8, 7) := by
  simp [rolling_ols_beta_alpha, forLe, loopFrom, xAt, yAt, vget, obsLate]
  norm_num

theorem spreadAt_obsLate_3 :
    spreadAt (cfgSmall ℝ) (obsLate ℝ) [0, 0, 0, 0, 0] 3 = [0, 0, 0, 0, 0] := by
  have h : (cfgSmall ℝ).L_beta = 3 := rfl
  simp only [spreadAt, h]
  norm_num [ols_obsLate_2]
  simp [vset, xAt, yAt, vget, obsLate]

theorem spreadAt_obsLate_4 :
    spreadAt (cfgSmall ℝ) (obsLate ℝ) [0, 0, 0, 0, 0] 4 = [0, 0, 0, 2, 0] := by
  have h : (cfgSmall ℝ).L_beta = 3 := rfl
  simp only [spreadAt, h]
  norm_num [ols_obsLate_3]
  simp [vset, xAt, yAt, vget, obsLate]
  norm_num

theorem zscore_obsLate_3 : zscore Real.sqrt (cfgSmall ℝ) [0, 0, 0, 0, 0] 3 = 0 := by
  simp [zscore, mean, forLe, loopFrom, vget, cfgSmall]

theorem zscore_obsLate_4 : zscore Real.sqrt (cfgSmall ℝ) [0, 0, 0, 2, 0] 4 = 1 := by
  simp [zscore, mean, stdev, forLe, loopFrom, vget, cfgSmall]
  norm_num

theorem step_obsLate_3 :
    step Real.sqrt (cfgSmall ℝ) (obsLate ℝ) (initEngine 5) 3 = initEngine 5 := by
  have hs : (initEngine 5 : Engine ℝ).spread = [0, 0, 0, 0, 0] := rfl
  simp only [step, hs, spreadAt_obsLate_3, zscore_obsLate_3]
  simp [initEngine, cfgSmall, List.replicate]
  norm_num

theorem step_obsLate_4 :
    step Real.sqrt (cfgSmall ℝ) (obsLate ℝ) (initEngine 5) 4
      = { spread := [0, 0, 0, 2, 0], pos := PosState.SHORT_SPREAD, entry_t := 4,
          entry_sp := 2, pnl := 0, trades := [] } := by
  have hs : (initEngine 5 : Engine ℝ).spread = [0, 0, 0, 0, 0] := rfl
  simp only [step, hs, spreadAt_obsLate_4, zscore_obsLate_4]
  simp [initEngine, cfgSmall, vget]
  norm_num

/-- Evaluation for claim C3: on `obsLate` with `cfgSmall` the iteration `t = 3` stays flat
(`z = 0`) and the last iteration `t = 4` opens a short position (`z = 1 > z_entry`); the
loop then ends with the position still open and an empty ledger. -/
theorem run_leaves_open_position :
    (run Real.sqrt (cfgSmall ℝ) (obsLate ℝ)).pos = PosState.SHORT_SPREAD ∧
    (run Real.sqrt (cfgSmall ℝ) (obsLate ℝ)).entry_t = 4 ∧
    (run Real.sqrt (cfgSmall ℝ) (obsLate ℝ)).trades = [] := by
  have hrun : run Real.sqrt (cfgSmall ℝ) (obsLate ℝ)
      = step Real.sqrt (cfgSmall ℝ) (obsLate ℝ)
          (step Real.sqrt (cfgSmall ℝ) (obsLate ℝ) (initEngine 5) 3) 4 := by
    simp [run, forLt, firstStep, cfgSmall, obsLate, loopFrom]
  rw [hrun, step_obsLate_3, step_obsLate_4]
  exact ⟨rfl, rfl, rfl⟩

/-! ## Single iterations of the decision loop -/

/-- Claim C4. Exit rule: in an iteration that starts with an open position, the position is
closed (one trade is appended and the state becomes `FLAT`) if and only if `|z| < z_exit`
or `t - entry_t ≥ max_hold`; otherwise side, entry time, entry spread and ledger are
unchanged. -/
theorem exit_rule (sqrt : K → K) (cfg : Params K) (data : List (PairPoint K))
    (st : Engine K) (t : Int) (hpos : st.pos ≠ PosState.FLAT) :
    ((|zStep sqrt cfg data st t| < cfg.z_exit ∨ t - st.entry_t ≥ cfg.max_hold) ↔
      ((step sqrt cfg data st t).pos = PosState.FLAT ∧
        ∃ tr, (step sqrt cfg data st t).trades = st.trades ++ [tr])) ∧
    (¬ (|zStep sqrt cfg data st t| < cfg.z_exit ∨ t - st.entry_t ≥ cfg.max_hold) →
      (step sqrt cfg data st t).pos = st.pos ∧
      (step sqrt cfg data st t).entry_t = st.entry_t ∧
      (step sqrt cfg data st t).entry_sp = st.entry_sp ∧
      (step sqrt cfg data st t).trades = st.trades) := by
  by_cases hc : |zStep sqrt cfg data st t| < cfg.z_exit ∨ t - st.entry_t ≥ cfg.max_hold
  · have hc2 := hc
    simp only [zStep] at hc2
    simp [step, hpos, hc, hc2]
  · have hc2 := hc
    simp only [zStep] at hc2
    simp [step, hpos, hc, hc2]

/-! ## Invariant of the decision loop -/

theorem runThrough_before (sqrt : K → K) (cfg : Params K) (data : List (PairPoint K))
    (t : Int) (ht : t < firstStep cfg) :
    runThrough sqrt cfg data t = initEngine data.length := by
  unfold runThrough forLe
  have h : (t - firstStep cfg + 1).toNat = 0 := by omega
  rw [h]
  rfl

theorem run_eq_runThrough (sqrt : K → K) (cfg : Params K) (data : List (PairPoint K)) :
    run sqrt cfg data = runThrough sqrt cfg data ((data.length : Int) - 1) := by
  unfold run runThrough forLe forLt
  have h : ((data.length : Int) - firstStep cfg).toNat
      = ((data.length : Int) - 1 - firstStep cfg + 1).toNat := by omega
  rw [h]

theorem hedgedPnl_self (cfg : Params K) (data : List (PairPoint K)) (side : PosState)
    (e : Int) : hedgedPnl cfg data side e e = 0 := by
  simp [hedgedPnl]

theorem hedgedPnl_succ (cfg : Params K) (data : List (PairPoint K)) (side : PosState)
    (e t : Int) (h : e ≤ t - 1) :
    hedgedPnl cfg data side e t = hedgedPnl cfg data side e (t - 1)
      + hedgedReturn data side (rolling_ols_beta_alpha data (t - 1) cfg.L_beta).2 t := by
  have hI : Finset.Ioc e t = insert t (Finset.Ioc e (t - 1)) := by
    ext j
    simp only [Finset.mem_Ioc, Finset.mem_insert]
    omega
  unfold hedgedPnl hedgedReturn
  rw [hI, Finset.sum_insert (by simp)]
  ring

theorem runInv_init (sqrt : K → K) (cfg : Params K) (data : List (PairPoint K)) (t : Int) :
    RunInv sqrt cfg data t (initEngine data.length) := by
  constructor <;> simp [initEngine]

theorem runInv_step (sqrt : K → K) (cfg : Params K) (data : List (PairPoint K)) (t : Int)
    (ht : firstStep cfg ≤ t)
    (h : RunInv sqrt cfg data (t - 1) (runThrough sqrt cfg data (t - 1))) :
    RunInv sqrt cfg data t (step sqrt cfg data (runThrough sqrt cfg data (t - 1)) t) := by
  have hz : zscore sqrt cfg (spreadAt cfg data (runThrough sqrt cfg data (t - 1)).spread t) t
      = zAt sqrt cfg data t := rfl
  generalize hst : runThrough sqrt cfg data (t - 1) = st at h hz
  obtain ⟨h1, h2, h3, h4, h5, h6, h7⟩ := h
  simp only [step, hz]
  by_cases hpos : st.pos = PosState.FLAT
  · -- entry logic
    simp only [hpos, ne_eq, not_true_eq_false, if_false]
    by_cases hs : zAt sqrt cfg data t > cfg.z_entry
    · simp only [hs, if_true]
      refine ⟨fun _ => ⟨ht, le_rfl⟩, fun _ => Or.inl ⟨rfl, hs⟩,
        fun _ => (hedgedPnl_self cfg data _ t).symm, fun hm _ => by simpa using hm,
        h5, h6, h7⟩
    · simp only [hs, if_false]
      by_cases hl : zAt sqrt cfg data t < -cfg.z_entry
      · simp only [hl, if_true]
        refine ⟨fun _ => ⟨ht, le_rfl⟩, fun _ => Or.inr ⟨rfl, hl⟩,
          fun _ => (hedgedPnl_self cfg data _ t).symm, fun hm _ => by simpa using hm,
          h5, h6, h7⟩
      · simp only [hl, if_false]
        refine ⟨fun hc => absurd rfl hc, fun hc => absurd rfl hc, fun hc => absurd rfl hc,
          fun _ hc => absurd rfl hc, h5, h6, h7⟩
  · -- accrual and exit logic
    have he := h1 hpos
    have hp : st.pnl + hedgedReturn data st.pos
        (rolling_ols_beta_alpha data (t - 1) cfg.L_beta).2 t
        = hedgedPnl cfg data st.pos st.entry_t t := by
      rw [hedgedPnl_succ cfg data st.pos st.entry_t t he.2, ← h3 hpos]
    simp only [ne_eq, hpos, not_false_eq_true, if_true, hp]
    by_cases hc : |zAt sqrt cfg data t| < cfg.z_exit ∨ t - st.entry_t ≥ cfg.max_hold
    · simp only [hc, if_true]
      refine ⟨fun hc => absurd rfl hc, fun hc => absurd rfl hc, fun hc => absurd rfl hc,
        fun _ hc => absurd rfl hc, ?_, ?_, ?_⟩
      · intro tr htr
        rcases List.mem_append.1 htr with htr | htr
        · exact h5 tr htr
        · rw [List.mem_singleton.1 htr]; exact h2 hpos
      · intro tr htr
        rcases List.mem_append.1 htr with htr | htr
        · exact h6 tr htr
        · rw [List.mem_singleton.1 htr]
      · intro hm tr htr
        rcases List.mem_append.1 htr with htr | htr
        · exact h7 hm tr htr
        · rw [List.mem_singleton.1 htr]
          have := h4 hm hpos
          simp only
          omega
    · simp only [hc, if_false]
      have hc2 : ¬ (t - st.entry_t ≥ cfg.max_hold) := fun hh => hc (Or.inr hh)
      refine ⟨fun _ => ⟨he.1, by dsimp only; omega⟩, fun _ => h2 hpos, fun _ => rfl,
        fun _ _ => by dsimp only; omega, h5, h6, h7⟩

theorem runInv_runThrough (sqrt : K → K) (cfg : Params K) (data : List (PairPoint K))
    (t : Int) : RunInv sqrt cfg data t (runThrough sqrt cfg data t) := by
  by_cases ht : firstStep cfg - 1 ≤ t
  · refine @Int.le_induction (fun t => RunInv sqrt cfg data t (runThrough sqrt cfg data t))
      (firstStep cfg - 1) ?_ ?_ t ht
    · show RunInv sqrt cfg data (firstStep cfg - 1)
        (runThrough sqrt cfg data (firstStep cfg - 1))
      rw [runThrough_before sqrt cfg data _ (by omega)]
      exact runInv_init sqrt cfg data _
    · intro n hn ih
      show RunInv sqrt cfg data (n + 1) (runThrough sqrt cfg data (n + 1))
      rw [runThrough_succ sqrt cfg data (n + 1) (by omega)]
      have h := runInv_step sqrt cfg data (n + 1) (by omega)
      simp only [add_sub_cancel_right] at h ⊢
      exact h ih
  · rw [runThrough_before sqrt cfg data _ (by omega)]
    exact runInv_init sqrt cfg data _

theorem runInv_run (sqrt : K → K) (cfg : Params K) (data : List (PairPoint K)) :
    RunInv sqrt cfg data ((data.length : Int) - 1) (run sqrt cfg data) := by
  rw [run_eq_runThrough]
  exact runInv_runThrough sqrt cfg data _

/-! ## Evaluation of a run with one closed trade -/

theorem ols_obs5_2 : rolling_ols_beta_alpha (obs5 ℝ) 2 3 = (-2, 6) := by
  simp [rolling_ols_beta_alpha, forLe, loopFrom, xAt, yAt, vget, obs5]
  norm_num

theorem ols_obs5_3 : rolling_ols_beta_alpha (obs5 ℝ) 3 3 = (-12, 12) := by
  simp [rolling_ols_beta_alpha, forLe, loopFrom, xAt, yAt, vget, obs5]
  norm_num

theorem spreadAt_obs5_3 :
    spreadAt (cfgHold1 ℝ) (obs5 ℝ) [0, 0, 0, 0, 0] 3 = [0, 0, 2, 0, 0] := by
  have h : (cfgHold1 ℝ).L_beta = 3 := rfl
  simp only [spreadAt, h]
  norm_num [ols_obs5_2]
  simp [vset, xAt, yAt, vget, obs5]
  norm_num

theorem spreadAt_obs5_4 :
    spreadAt (cfgHold1 ℝ) (obs5 ℝ) [0, 0, 2, 0, 0] 4 = [0, 0, 2, 0, 0] := by
  have h : (cfgHold1 ℝ).L_beta = 3 := rfl
  simp only [spreadAt, h]
  norm_num [ols_obs5_3]
  simp [vset, xAt, yAt, vget, obs5]
  norm_num

theorem zscore_obs5_3 : zscore Real.sqrt (cfgHold1 ℝ) [0, 0, 2, 0, 0] 3 = 1 := by
  simp [zscore, mean, stdev, forLe, loopFrom, vget, cfgHold1]
  norm_num

theorem zscore_obs5_4 : zscore Real.sqrt (cfgHold1 ℝ) [0, 0, 2, 0, 0] 4 = -1 := by
  simp [zscore, mean, stdev, forLe, loopFrom, vget, cfgHold1]
  norm_num

theorem step_obs5_3 :
    step Real.sqrt (cfgHold1 ℝ) (obs5 ℝ) (initEngine 5) 3
      = heldShort ℝ := by
  have hs : (initEngine 5 : Engine ℝ).spread = [0, 0, 0, 0, 0] := rfl
  simp only [step, hs, spreadAt_obs5_3, zscore_obs5_3]
  simp [initEngine, cfgHold1, vget, heldShort]
  norm_num

theorem step_obs5_4 :
    step Real.sqrt (cfgHold1 ℝ) (obs5 ℝ) (heldShort ℝ) 4
      = { spread := [0, 0, 2, 0, 0], pos := PosState.FLAT, entry_t := -1,
          entry_sp := 0, pnl := 0, trades := [trade5 ℝ] } := by
  have h : (cfgHold1 ℝ).L_beta = 3 := rfl
  have h41 : (4 : Int) - 1 = 3 := rfl
  have hs : (heldShort ℝ).spread = [0, 0, 2, 0, 0] := rfl
  simp only [step, hs, spreadAt_obs5_4, zscore_obs5_4, h, h41, ols_obs5_3]
  simp [cfgHold1, vget, trade5, hedgedReturn, sideSign, xAt, yAt, obs5, heldShort]
  norm_num

theorem run_obs5 :
    run Real.sqrt (cfgHold1 ℝ) (obs5 ℝ)
      = { spread := [0, 0, 2, 0, 0], pos := PosState.FLAT, entry_t := -1,
          entry_sp := 0, pnl := 0, trades := [trade5 ℝ] } := by
  have hrun : run Real.sqrt (cfgHold1 ℝ) (obs5 ℝ)
      = step Real.sqrt (cfgHold1 ℝ) (obs5 ℝ)
          (step Real.sqrt (cfgHold1 ℝ) (obs5 ℝ) (initEngine 5) 3) 4 := by
    simp [run, forLt, firstStep, cfgHold1, obs5, loopFrom]
  rw [hrun, step_obs5_3, step_obs5_4]

/-! ## Claims on single iterations and on the ledger -/

/-- Claim C5. Exit-reason tie-break: a trade appended by an iteration has reason `"Z_EXIT"`
whenever `|z| < z_exit` (also when the time stop holds as well), and has reason
`"TIME_STOP"` exactly when `t - entry_t ≥ max_hold` and `|z| ≥ z_exit`. -/
theorem exit_reason (sqrt : K → K) (cfg : Params K) (data : List (PairPoint K))
    (st : Engine K) (t : Int) (tr : Trade K)
    (hem : (step sqrt cfg data st t).trades = st.trades ++ [tr]) :
    (|zStep sqrt cfg data st t| < cfg.z_exit → tr.reason = "Z_EXIT") ∧
    (tr.reason = "TIME_STOP" ↔
      (t - st.entry_t ≥ cfg.max_hold ∧ cfg.z_exit ≤ |zStep sqrt cfg data st t|)) := by
  have hne : st.trades ≠ st.trades ++ [tr] := by
    intro h
    have := congrArg List.length h
    simp at this
  by_cases hpos : st.pos = PosState.FLAT
  · exfalso
    apply hne
    rw [← hem]
    simp only [step, hpos, ne_eq, not_true_eq_false, if_false]
    split_ifs <;> rfl
  · by_cases hc : |zStep sqrt cfg data st t| < cfg.z_exit ∨ t - st.entry_t ≥ cfg.max_hold
    · have hc2 := hc
      simp only [zStep] at hc2
      simp only [step, ne_eq, hpos, not_false_eq_true, if_true, hc2,
        List.append_cancel_left_eq, List.cons.injEq, and_true] at hem
      subst hem
      by_cases hz : |zStep sqrt cfg data st t| < cfg.z_exit
      · have hz2 := hz
        simp only [zStep] at hz2
        simp [hz2, hz, not_le.2 hz]
      · have hz2 := hz
        simp only [zStep] at hz2
        have ht : t - st.entry_t ≥ cfg.max_hold := hc.resolve_left hz
        simp [hz2, hz, not_lt.1 hz, ht]
    · exfalso
      apply hne
      rw [← hem]
      have hc2 := hc
      simp only [zStep] at hc2
      simp only [step, ne_eq, hpos, not_false_eq_true, if_true, hc2, if_false]

/-- Claim C6. Entry rule, for `z_entry ≥ 0`: an iteration that starts `FLAT` opens
`SHORT_SPREAD` if `z > z_entry`, opens `LONG_SPREAD` if `z < -z_entry` and stays `FLAT` if
`-z_entry ≤ z ≤ z_entry`; on open it sets `entry_t = t`, `entry_sp = spread[t-1]` and
`pnl = 0`. Consequently every trade of the ledger was opened at an iteration whose z-score
satisfies `|z| ≥ z_entry`, with a short side for a positive `z` and a long side for a
negative `z`. -/
theorem entry_rule (sqrt : K → K) (cfg : Params K) (data : List (PairPoint K))
    (st : Engine K) (t : Int) (hz : 0 ≤ cfg.z_entry) (hflat : st.pos = PosState.FLAT) :
    (zStep sqrt cfg data st t > cfg.z_entry →
      (step sqrt cfg data st t).pos = PosState.SHORT_SPREAD ∧
      (step sqrt cfg data st t).entry_t = t ∧
      (step sqrt cfg data st t).entry_sp = vget 0 (spreadAt cfg data st.spread t) (t - 1) ∧
      (step sqrt cfg data st t).pnl = 0) ∧
    (zStep sqrt cfg data st t < -cfg.z_entry →
      (step sqrt cfg data st t).pos = PosState.LONG_SPREAD ∧
      (step sqrt cfg data st t).entry_t = t ∧
      (step sqrt cfg data st t).entry_sp = vget 0 (spreadAt cfg data st.spread t) (t - 1) ∧
      (step sqrt cfg data st t).pnl = 0) ∧
    (-cfg.z_entry ≤ zStep sqrt cfg data st t ∧ zStep sqrt cfg data st t ≤ cfg.z_entry →
      (step sqrt cfg data st t).pos = PosState.FLAT) ∧
    (∀ tr ∈ (run sqrt cfg data).trades,
      cfg.z_entry ≤ |zAt sqrt cfg data tr.entry| ∧
      ((tr.side = PosState.SHORT_SPREAD ∧ 0 < zAt sqrt cfg data tr.entry) ∨
       (tr.side = PosState.LONG_SPREAD ∧ zAt sqrt cfg data tr.entry < 0))) := by
  refine ⟨?_, ?_, ?_, ?_⟩
  · intro h
    have h2 := h
    simp only [zStep] at h2
    simp [step, hflat, h2]
  · intro h
    have h1 : ¬ (zStep sqrt cfg data st t > cfg.z_entry) := by
      intro h'
      have : zStep sqrt cfg data st t < zStep sqrt cfg data st t := by linarith
      exact lt_irrefl _ this
    have h2 := h
    simp only [zStep] at h1 h2
    simp [step, hflat, h1, h2]
  · intro h
    have h1 : ¬ (zStep sqrt cfg data st t > cfg.z_entry) := not_lt.2 h.2
    have h2 : ¬ (zStep sqrt cfg data st t < -cfg.z_entry) := not_lt.2 h.1
    simp only [zStep] at h1 h2
    simp [step, hflat, h1, h2]
  · intro tr htr
    rcases (runInv_run sqrt cfg data).led_signal tr htr with ⟨hs, hgt⟩ | ⟨hs, hlt⟩
    · exact ⟨le_trans hgt.le (le_abs_self _), Or.inl ⟨hs, lt_of_le_of_lt hz hgt⟩⟩
    · refine ⟨?_, Or.inr ⟨hs, by linarith⟩⟩
      have := neg_le_abs (zAt sqrt cfg data tr.entry)
      linarith

/-- Claim C7. Hedged pnl: the realised pnl of every trade of the ledger is the sum, over
`u = entry + 1, ..., exit`, of `s * ((y[u] - y[u-1]) - b_u * (x[u] - x[u-1]))`, with `b_u`
the slope fitted over `[u - L_beta, u - 1]`; the entry step itself accrues nothing. -/
theorem hedged_pnl (sqrt : K → K) (cfg : Params K) (data : List (PairPoint K))
    (tr : Trade K) (htr : tr ∈ (run sqrt cfg data).trades) :
    tr.pnl = hedgedPnl cfg data tr.side tr.entry tr.exit :=
  (runInv_run sqrt cfg data).led_pnl tr htr

/-- Claim C8. Holding-duration bound: with `max_hold ≥ 1`, every trade of the ledger
satisfies `1 ≤ exit - entry ≤ max_hold`. -/
theorem hold_bound (sqrt : K → K) (cfg : Params K) (data : List (PairPoint K))
    (hm : 1 ≤ cfg.max_hold) (tr : Trade K) (htr : tr ∈ (run sqrt cfg data).trades) :
    1 ≤ tr.exit - tr.entry ∧ tr.exit - tr.entry ≤ cfg.max_hold :=
  (runInv_run sqrt cfg data).led_hold hm tr htr

/-! ## Instances of the claims on concrete runs -/

/-- Witness for claim C4: an open short position entered at `2` is closed at `t = 3` under
`max_hold = 1`. -/
theorem exit_rule_witness :
    (openShort ℝ).pos ≠ PosState.FLAT ∧
    (step Real.sqrt (cfgHold1 ℝ) (obs4 ℝ) (openShort ℝ) 3).pos = PosState.FLAT ∧
    ∃ tr, (step Real.sqrt (cfgHold1 ℝ) (obs4 ℝ) (openShort ℝ) 3).trades
      = (openShort ℝ).trades ++ [tr] :=
  ⟨by simp [openShort],
    (exit_rule Real.sqrt (cfgHold1 ℝ) (obs4 ℝ) (openShort ℝ) 3 (by simp [openShort])).1.1
      (Or.inr (by simp [openShort, cfgHold1]))⟩

/-- Witness for claim C5: the trade closed at `t = 4` on `obs5` is a time stop. -/
theorem exit_reason_witness :
    (step Real.sqrt (cfgHold1 ℝ) (obs5 ℝ) (heldShort ℝ) 4).trades
        = (heldShort ℝ).trades ++ [trade5 ℝ] ∧
    (|zStep Real.sqrt (cfgHold1 ℝ) (obs5 ℝ) (heldShort ℝ) 4| < (cfgHold1 ℝ).z_exit →
      (trade5 ℝ).reason = "Z_EXIT") ∧
    ((trade5 ℝ).reason = "TIME_STOP" ↔
      (4 - (heldShort ℝ).entry_t ≥ (cfgHold1 ℝ).max_hold ∧
        (cfgHold1 ℝ).z_exit ≤ |zStep Real.sqrt (cfgHold1 ℝ) (obs5 ℝ) (heldShort ℝ) 4|)) :=
  have hem : (step Real.sqrt (cfgHold1 ℝ) (obs5 ℝ) (heldShort ℝ) 4).trades
      = (heldShort ℝ).trades ++ [trade5 ℝ] := by
    rw [step_obs5_4]; rfl
  ⟨hem, exit_reason Real.sqrt (cfgHold1 ℝ) (obs5 ℝ) (heldShort ℝ) 4 (trade5 ℝ) hem⟩

/-- Witness for claim C6: the trade of the run on `obs5` was opened short at `t = 3` on a
positive z-score of size at least `z_entry = 1/2`. -/
theorem entry_rule_witness :
    (0 : ℝ) ≤ (cfgHold1 ℝ).z_entry ∧
    (initEngine 5 : Engine ℝ).pos = PosState.FLAT ∧
    (cfgHold1 ℝ).z_entry ≤ |zAt Real.sqrt (cfgHold1 ℝ) (obs5 ℝ) (trade5 ℝ).entry| ∧
    (((trade5 ℝ).side = PosState.SHORT_SPREAD ∧
        0 < zAt Real.sqrt (cfgHold1 ℝ) (obs5 ℝ) (trade5 ℝ).entry) ∨
      ((trade5 ℝ).side = PosState.LONG_SPREAD ∧
        zAt Real.sqrt (cfgHold1 ℝ) (obs5 ℝ) (trade5 ℝ).entry < 0)) :=
  have hz : (0 : ℝ) ≤ (cfgHold1 ℝ).z_entry := by simp [cfgHold1]
  ⟨hz, rfl,
    (entry_rule Real.sqrt (cfgHold1 ℝ) (obs5 ℝ) (initEngine 5) 3 hz rfl).2.2.2 (trade5 ℝ)
      (by rw [run_obs5]; simp)⟩

/-- Witness for claim C7: the pnl `11` of the trade of the run on `obs5` is the hedged sum
over the single step `u = 4`. -/
theorem hedged_pnl_witness :
    trade5 ℝ ∈ (run Real.sqrt (cfgHold1 ℝ) (obs5 ℝ)).trades ∧
    (trade5 ℝ).pnl
      = hedgedPnl (cfgHold1 ℝ) (obs5 ℝ) (trade5 ℝ).side (trade5 ℝ).entry (trade5 ℝ).exit :=
  have hmem : trade5 ℝ ∈ (run Real.sqrt (cfgHold1 ℝ) (obs5 ℝ)).trades := by
    rw [run_obs5]; simp
  ⟨hmem, hedged_pnl Real.sqrt (cfgHold1 ℝ) (obs5 ℝ) (trade5 ℝ) hmem⟩

/-- Witness for claim C8: the trade of the run on `obs5` is held for exactly one step, with
`max_hold = 1`. -/
theorem hold_bound_witness :
    1 ≤ (cfgHold1 ℝ).max_hold ∧
    trade5 ℝ ∈ (run Real.sqrt (cfgHold1 ℝ) (obs5 ℝ)).trades ∧
    1 ≤ (trade5 ℝ).exit - (trade5 ℝ).entry ∧
    (trade5 ℝ).exit - (trade5 ℝ).entry ≤ (cfgHold1 ℝ).max_hold :=
  have hm : 1 ≤ (cfgHold1 ℝ).max_hold := by simp [cfgHold1]
  have hmem : trade5 ℝ ∈ (run Real.sqrt (cfgHold1 ℝ) (obs5 ℝ)).trades := by
    rw [run_obs5]; simp
  ⟨hm, hmem, hold_bound Real.sqrt (cfgHold1 ℝ) (obs5 ℝ) hm (trade5 ℝ) hmem⟩

/-! ## The z-window of the first iterations, and the stdev floor -/

theorem ols_obs5z_2 : rolling_ols_beta_alpha (obs5z ℝ) 2 3 = (-2, 6) := by
  simp [rolling_ols_beta_alpha, forLe, loopFrom, xAt, yAt, vget, obs5z]
  norm_num

theorem ols_obs5z_3 : rolling_ols_beta_alpha (obs5z ℝ) 3 3 = (4, 0) := by
  simp [rolling_ols_beta_alpha, forLe, loopFrom, xAt, yAt, vget, obs5z]
  norm_num

/-- Evaluation for claim C9: with `L_beta = 3` and `L_z = 4` the first iteration is `t = 4`
and its z-window is `[0, 3]`. Only `spread[3]` has been computed; the window entry at
index `2` is still the initial `0`, although the fit over `[0, 2]` has residual `2` there,
and the mean used for the z-score is `-1`. -/
theorem zscore_window_holds_initial_zero :
    firstStep (cfgLongZ ℝ) = 4 ∧
    runThrough Real.sqrt (cfgLongZ ℝ) (obs5z ℝ) 3 = initEngine 5 ∧
    spreadAt (cfgLongZ ℝ) (obs5z ℝ) (initEngine 5 : Engine ℝ).spread 4 = [0, 0, 0, -4, 0] ∧
    yAt (obs5z ℝ) 2 - ((rolling_ols_beta_alpha (obs5z ℝ) 2 (cfgLongZ ℝ).L_beta).1
      + (rolling_ols_beta_alpha (obs5z ℝ) 2 (cfgLongZ ℝ).L_beta).2 * xAt (obs5z ℝ) 2) = 2 ∧
    mean ([0, 0, 0, -4, 0] : List ℝ) (4 - 1 - (cfgLongZ ℝ).L_z + 1) (4 - 1) = -1 := by
  have hL : (cfgLongZ ℝ).L_beta = 3 := rfl
  have hZ : (cfgLongZ ℝ).L_z = 4 := rfl
  have hf : firstStep (cfgLongZ ℝ) = 4 := by simp [firstStep, cfgLongZ]
  refine ⟨hf, ?_, ?_, ?_, ?_⟩
  · rw [runThrough_before _ _ _ _ (by rw [hf]; decide)]
    rfl
  · simp only [spreadAt, hL]
    norm_num [ols_obs5z_3]
    simp [vset, initEngine, xAt, yAt, vget, obs5z, List.replicate]
  · rw [hL, ols_obs5z_2]
    simp [xAt, yAt, vget, obs5z]
    norm_num
  · rw [hZ]
    simp [mean, forLe, loopFrom, vget]

theorem mean_eq_windowMean {K : Type} [LinearOrderedField K] (v : List K) (start stop : Int) :
    mean v start stop = windowMean v start stop := by
  simp only [mean, windowMean, forLe_sum, zero_add]

theorem stdev_eq {K : Type} [LinearOrderedField K] (sqrt : K → K) (v : List K)
    (start stop : Int) (mu : K) :
    stdev sqrt v start stop mu
      = sqrt (max ((∑ i in Finset.Icc start stop, (vget 0 v i - mu) ^ 2)
          / ((stop - start + 1 : Int) : K)) 1e-12) := by
  simp only [stdev, forLe_sum, zero_add, pow_two]

theorem windowMean_const {K : Type} [LinearOrderedField K] (v : List K) (start stop : Int)
    (h : start ≤ stop) (c : K) (hc : ∀ i ∈ Finset.Icc start stop, vget 0 v i = c) :
    windowMean v start stop = c := by
  have hn : (((stop - start + 1 : Int) : K)) ≠ 0 := by
    have : (0 : K) < ((stop - start + 1 : Int) : K) := by
      exact_mod_cast (by omega : (0 : Int) < stop - start + 1)
    exact ne_of_gt this
  have hcard : ((Finset.Icc start stop).card : K) = ((stop - start + 1 : Int) : K) := by
    rw [Int.card_Icc]
    have h1 : (stop + 1 - start).toNat = (stop - start + 1).toNat := by omega
    rw [h1]
    have h2 : (((stop - start + 1).toNat : Int) : K) = ((stop - start + 1 : Int) : K) := by
      rw [Int.toNat_of_nonneg (by omega)]
    exact_mod_cast h2
  rw [windowMean, Finset.sum_congr rfl hc, Finset.sum_const, nsmul_eq_mul, hcard]
  exact mul_div_cancel_left₀ c hn

/-- Claim C10. The z-score is always well defined over the reals: on every non-empty window
`stdev` returns the square root of the population variance floored at `1e-12`, which is at
least `1e-6` and hence positive, so the quotient defining `z` has a non-zero denominator;
and on a window whose spread values are all equal, `z = 0`. -/
theorem stdev_floor (v : List ℝ) (start stop : Int) (h : start ≤ stop) :
    stdev Real.sqrt v start stop (mean v start stop)
      = Real.sqrt (max (popVar v start stop) 1e-12) ∧
    (∀ mu : ℝ, 1e-6 ≤ stdev Real.sqrt v start stop mu ∧ 0 < stdev Real.sqrt v start stop mu) ∧
    (∀ cfg : Params ℝ, cfg.L_z = stop - start + 1 →
      zscore Real.sqrt cfg v (stop + 1)
        = (vget 0 v stop - mean v start stop)
            / stdev Real.sqrt v start stop (mean v start stop) ∧
      ((∃ c, ∀ i ∈ Finset.Icc start stop, vget 0 v i = c) →
        zscore Real.sqrt cfg v (stop + 1) = 0)) := by
  have hbound : ∀ mu : ℝ, (1e-6 : ℝ) ≤ stdev Real.sqrt v start stop mu := by
    intro mu
    rw [stdev_eq]
    apply Real.le_sqrt_of_sq_le
    refine le_trans ?_ (le_max_right _ _)
    norm_num
  have hz : ∀ cfg : Params ℝ, cfg.L_z = stop - start + 1 →
      zscore Real.sqrt cfg v (stop + 1)
        = (vget 0 v stop - mean v start stop)
            / stdev Real.sqrt v start stop (mean v start stop) := by
    intro cfg hL
    have h1 : stop + 1 - 1 = stop := by omega
    have h2 : stop - cfg.L_z + 1 = start := by omega
    simp only [zscore, h1, h2]
  refine ⟨?_, ?_, ?_⟩
  · rw [stdev_eq, mean_eq_windowMean, popVar]
  · intro mu
    have := hbound mu
    exact ⟨this, lt_of_lt_of_le (by norm_num) this⟩
  · intro cfg hL
    refine ⟨hz cfg hL, ?_⟩
    rintro ⟨c, hc⟩
    rw [hz cfg hL, mean_eq_windowMean, windowMean_const v start stop h c hc,
      hc stop (Finset.mem_Icc.2 ⟨h, le_rfl⟩), sub_self, zero_div]

/-- Witness for claim C10: the window `[0, 1]` of the constant vector `[3, 3]`. -/
theorem stdev_floor_witness :
    (1e-6 : ℝ) ≤ stdev Real.sqrt [3, 3] 0 1 (mean [3, 3] 0 1) ∧
    zscore Real.sqrt (cfgSmall ℝ) [3, 3] (1 + 1) = 0 :=
  have h := stdev_floor ([3, 3] : List ℝ) 0 1 (by decide)
  ⟨(h.2.1 _).1, (h.2.2 (cfgSmall ℝ) rfl).2 ⟨3, by
    intro i hi
    have hi2 : i = 0 ∨ i = 1 := by
      simp only [Finset.mem_Icc] at hi
      omega
    rcases hi2 with rfl | rfl <;> simp [vget]⟩⟩

/-! ## Degenerate-denominator policy of the rolling OLS -/

/-- Counterexample for claim C11: on `obsTiny` the centred sum of squares is exactly
`1e-12`, so it is not below `1e-12`, yet the flat-line fallback `b = 0`, `a = mean(y) = 1/2`
is returned, while `num / den = 1e6`. -/
theorem ols_boundary_takes_fallback :
    centredSumSq (obsTiny ℝ) 3 4 = 1e-12 ∧
    ¬ (centredSumSq (obsTiny ℝ) 3 4 < 1e-12) ∧
    rolling_ols_beta_alpha (obsTiny ℝ) 3 4 = (1 / 2, 0) ∧
    centredCross (obsTiny ℝ) 3 4 / centredSumSq (obsTiny ℝ) 3 4 = 1e6 ∧
    (rolling_ols_beta_alpha (obsTiny ℝ) 3 4).2
      ≠ centredCross (obsTiny ℝ) 3 4 / centredSumSq (obsTiny ℝ) 3 4 := by
  have hw : window 3 4 = {0, 1, 2, 3} := by decide
  have hden : centredSumSq (obsTiny ℝ) 3 4 = 1e-12 := by
    simp [centredSumSq, windowMeanX, hw, xAt, vget, obsTiny]
    norm_num
  have hnum : centredCross (obsTiny ℝ) 3 4 = 1e-6 := by
    simp [centredCross, windowMeanX, windowMeanY, hw, xAt, yAt, vget, obsTiny]
    norm_num
  have hmy : windowMeanY (obsTiny ℝ) 3 4 = 1 / 2 := by
    simp [windowMeanY, hw, yAt, vget, obsTiny]
    norm_num
  have hols : rolling_ols_beta_alpha (obsTiny ℝ) 3 4 = (1 / 2, 0) := by
    rw [rolling_ols_beta_alpha_eq, hden, hmy]
    simp
  refine ⟨hden, by rw [hden]; exact lt_irrefl _, hols, by rw [hden, hnum]; norm_num, ?_⟩
  rw [hols, hden, hnum]
  norm_num

/-- Claim C11, amended. With `den` the centred sum of squares of `x` over a window of length
`L ≥ 1` and `num` the centred cross sum: for `den ≤ 1e-12` (the value `1e-12` included)
`rolling_ols_beta_alpha` returns the flat-line fallback `b = 0`, `a = mean(y)`, and for
`den > 1e-12` it returns `b = num / den`, `a = mean(y) - b * mean(x)`. -/
theorem ols_branch_policy (data : List (PairPoint K)) (t_end L : Int) (_hL : 1 ≤ L) :
    (centredSumSq data t_end L ≤ 1e-12 →
      rolling_ols_beta_alpha data t_end L = (windowMeanY data t_end L, 0)) ∧
    (1e-12 < centredSumSq data t_end L →
      rolling_ols_beta_alpha data t_end L
        = (windowMeanY data t_end L
            - centredCross data t_end L / centredSumSq data t_end L * windowMeanX data t_end L,
           centredCross data t_end L / centredSumSq data t_end L)) := by
  constructor
  · intro h
    rw [rolling_ols_beta_alpha_eq, if_neg (not_lt.2 h)]
    simp
  · intro h
    rw [rolling_ols_beta_alpha_eq, if_pos h]

/-- Witness for claim C11: the window of `obsTiny` is in the fallback branch. -/
theorem ols_branch_policy_witness :
    rolling_ols_beta_alpha (obsTiny ℝ) 3 4 = (windowMeanY (obsTiny ℝ) 3 4, 0) :=
  (ols_branch_policy (obsTiny ℝ) 3 4 (by decide)).1 (by
    have hw : window 3 4 = {0, 1, 2, 3} := by decide
    simp [centredSumSq, windowMeanX, hw, xAt, vget, obsTiny]
    norm_num)

theorem windowMeanX_const (data : List (PairPoint K)) (t_end L : Int) (hL : 1 ≤ L) (c : K)
    (hx : ∀ i ∈ window t_end L, xAt data i = c) : windowMeanX data t_end L = c := by
  have hL0 : (L : K) ≠ 0 := by
    have : (0 : K) < (L : K) := by exact_mod_cast (by omega : (0 : Int) < L)
    exact ne_of_gt this
  rw [windowMeanX, Finset.sum_congr rfl hx, Finset.sum_const, nsmul_eq_mul,
    window_card t_end L hL]
  exact mul_div_cancel_left₀ c hL0

/-- Claim C12. On a window of length `L ≥ 1` in which all `x` values are identical the
centred sum of squares is `0`, so the quotient `num / den` is not evaluated, and
`rolling_ols_beta_alpha` returns `b = 0` and `a` = the arithmetic mean of the `y` values of
the window (a quotient by `L ≠ 0`). -/
theorem ols_constant_x (data : List (PairPoint K)) (t_end L : Int) (c : K) (hL : 1 ≤ L)
    (hx : ∀ i ∈ window t_end L, xAt data i = c) :
    centredSumSq data t_end L = 0 ∧
    ¬ (centredSumSq data t_end L > 1e-12) ∧
    (L : K) ≠ 0 ∧
    rolling_ols_beta_alpha data t_end L
      = ((∑ i in window t_end L, yAt data i) / (L : K), 0) := by
  have hden : centredSumSq data t_end L = 0 := by
    rw [centredSumSq, windowMeanX_const data t_end L hL c hx]
    apply Finset.sum_eq_zero
    intro i hi
    rw [hx i hi, sub_self]
    simp
  have hL0 : (L : K) ≠ 0 := by
    have : (0 : K) < (L : K) := by exact_mod_cast (by omega : (0 : Int) < L)
    exact ne_of_gt this
  have hn : ¬ (centredSumSq data t_end L > 1e-12) := by
    rw [hden]
    exact not_lt.2 (le_of_lt eps_pos)
  refine ⟨hden, hn, hL0, ?_⟩
  rw [rolling_ols_beta_alpha_eq, if_neg hn]
  simp [windowMeanY]

/-- Witness for claim C12: the two observations of `obsFlatX` share `x = 5`; the fit is
`b = 0`, `a = (1 + 3) / 2`. -/
theorem ols_constant_x_witness :
    rolling_ols_beta_alpha (obsFlatX ℝ) 1 2
      = ((∑ i in window 1 2, yAt (obsFlatX ℝ) i) / ((2 : Int) : ℝ), 0) :=
  (ols_constant_x (obsFlatX ℝ) 1 2 5 (by decide) (by
    intro i hi
    have hi2 : i = 0 ∨ i = 1 := by
      simp only [window, Finset.mem_Icc] at hi
      omega
    rcases hi2 with rfl | rfl <;> simp [xAt, vget, obsFlatX])).2.2.2

/-! ## State machine, ledger shape and report -/

/-- Claim C13. Valid walk of the position state machine: the run starts `FLAT`; a single
iteration never turns a long position into a short one or a short one into a long one; from
an open position the next state is the same position or `FLAT`; and an iteration in which
the exit condition holds ends `FLAT` whatever the z-score is. -/
theorem valid_walk (sqrt : K → K) (cfg : Params K) (data : List (PairPoint K))
    (st : Engine K) (t : Int) :
    (initEngine data.length : Engine K).pos = PosState.FLAT ∧
    (st.pos = PosState.LONG_SPREAD →
      (step sqrt cfg data st t).pos ≠ PosState.SHORT_SPREAD) ∧
    (st.pos = PosState.SHORT_SPREAD →
      (step sqrt cfg data st t).pos ≠ PosState.LONG_SPREAD) ∧
    (st.pos ≠ PosState.FLAT →
      (step sqrt cfg data st t).pos = st.pos ∨
      (step sqrt cfg data st t).pos = PosState.FLAT) ∧
    (st.pos ≠ PosState.FLAT →
      (|zStep sqrt cfg data st t| < cfg.z_exit ∨ t - st.entry_t ≥ cfg.max_hold) →
      (step sqrt cfg data st t).pos = PosState.FLAT) := by
  have hwalk : st.pos ≠ PosState.FLAT →
      (step sqrt cfg data st t).pos = st.pos ∨
      (step sqrt cfg data st t).pos = PosState.FLAT := by
    intro hpos
    simp only [step, ne_eq, hpos, not_false_eq_true, if_true]
    split_ifs <;> simp
  refine ⟨rfl, ?_, ?_, hwalk, ?_⟩
  · intro h hs
    rcases hwalk (by rw [h]; decide) with h1 | h1 <;> rw [h1] at hs
    · rw [h] at hs; exact absurd hs (by decide)
    · exact absurd hs (by decide)
  · intro h hs
    rcases hwalk (by rw [h]; decide) with h1 | h1 <;> rw [h1] at hs
    · rw [h] at hs; exact absurd hs (by decide)
    · exact absurd hs (by decide)
  · intro hpos hc
    simp only [zStep] at hc
    simp [step, hpos, hc]

theorem step_trades (sqrt : K → K) (cfg : Params K) (data : List (PairPoint K))
    (st : Engine K) (t : Int) :
    (step sqrt cfg data st t).trades = st.trades ∨
    ∃ tr, (step sqrt cfg data st t).trades = st.trades ++ [tr] := by
  simp only [step]
  split_ifs <;> simp

theorem runThrough_trades_prefix (sqrt : K → K) (cfg : Params K) (data : List (PairPoint K))
    (t1 t2 : Int) (h : t1 ≤ t2) :
    List.IsPrefix (runThrough sqrt cfg data t1).trades (runThrough sqrt cfg data t2).trades := by
  refine @Int.le_induction (fun t => List.IsPrefix (runThrough sqrt cfg data t1).trades
    (runThrough sqrt cfg data t).trades) t1 (List.prefix_refl _) ?_ t2 h
  intro n _ ih
  show List.IsPrefix _ (runThrough sqrt cfg data (n + 1)).trades
  by_cases hn : firstStep cfg ≤ n + 1
  · rw [runThrough_succ sqrt cfg data (n + 1) hn]
    simp only [add_sub_cancel_right]
    rcases step_trades sqrt cfg data (runThrough sqrt cfg data n) (n + 1) with h1 | ⟨tr, h1⟩
    · rw [h1]; exact ih
    · rw [h1]; exact ih.trans (List.prefix_append _ _)
  · rw [runThrough_before sqrt cfg data (n + 1) (by omega)]
    rw [runThrough_before sqrt cfg data n (by omega)] at ih
    exact ih

/-- Claim C18. Append-only ledger: an iteration leaves the ledger unchanged or appends
exactly one trade at its end; hence the ledger after the iterations up to `t1` is a prefix
of the ledger after the iterations up to any later `t2`, and of the final ledger. -/
theorem ledger_append_only (sqrt : K → K) (cfg : Params K) (data : List (PairPoint K))
    (st : Engine K) (t t1 t2 : Int) (h : t1 ≤ t2) :
    ((step sqrt cfg data st t).trades = st.trades ∨
      ∃ tr, (step sqrt cfg data st t).trades = st.trades ++ [tr]) ∧
    List.IsPrefix (runThrough sqrt cfg data t1).trades (runThrough sqrt cfg data t2).trades ∧
    (t2 ≤ (data.length : Int) - 1 →
      List.IsPrefix (runThrough sqrt cfg data t2).trades (run sqrt cfg data).trades) := by
  refine ⟨step_trades sqrt cfg data st t, runThrough_trades_prefix sqrt cfg data t1 t2 h, ?_⟩
  intro h2
  rw [run_eq_runThrough]
  exact runThrough_trades_prefix sqrt cfg data _ _ h2

theorem report_foldl (l : List (Trade K)) (acc : K × Int × Int) :
    l.foldl (fun (acc : K × Int × Int) tr =>
      (acc.1 + tr.pnl,
       if tr.pnl ≥ 0 then acc.2.1 + 1 else acc.2.1,
       if tr.pnl ≥ 0 then acc.2.2 else acc.2.2 + 1)) acc
      = (acc.1 + (l.map Trade.pnl).sum,
         acc.2.1 + ((l.countP (fun tr => decide (tr.pnl ≥ 0)) : Nat) : Int),
         acc.2.2 + ((l.countP (fun tr => decide (tr.pnl < 0)) : Nat) : Int)) := by
  induction l generalizing acc with
  | nil => simp
  | cons tr l ih =>
    rw [List.foldl_cons, ih]
    by_cases h : tr.pnl ≥ 0
    · have h2 : ¬ tr.pnl < 0 := not_lt.2 h
      simp [h, h2, List.countP_cons, add_assoc]
      ring
    · have h2 : tr.pnl < 0 := not_le.1 h
      simp [h, h2, List.countP_cons, add_assoc]
      ring

/-- Claim C17. Run summary: for every ledger the reported total is the sum of the realised
pnl of its trades, the win count is the number of trades with `pnl ≥ 0`, the loss count is
the number of trades with `pnl < 0`, and wins plus losses is the number of trades. -/
theorem report_summary (l : List (Trade K)) :
    (report l).1 = (l.map Trade.pnl).sum ∧
    (report l).2.1 = ((l.countP (fun tr => decide (tr.pnl ≥ 0)) : Nat) : Int) ∧
    (report l).2.2 = ((l.countP (fun tr => decide (tr.pnl < 0)) : Nat) : Int) ∧
    (report l).2.1 + (report l).2.2 = (l.length : Int) := by
  have hcount : l.countP (fun tr => decide (tr.pnl ≥ 0))
      + l.countP (fun tr => decide (tr.pnl < 0)) = l.length := by
    induction l with
    | nil => rfl
    | cons tr l ih =>
      by_cases h : tr.pnl ≥ 0
      · have h2 : ¬ tr.pnl < 0 := not_lt.2 h
        simp only [ge_iff_le] at ih h ⊢
        simp [List.countP_cons, h, h2]
        omega
      · have h2 : tr.pnl < 0 := not_le.1 h
        simp only [ge_iff_le] at ih h ⊢
        simp [List.countP_cons, h, h2]
        omega
  have h := report_foldl l (0, 0, 0)
  simp only [report, h, zero_add]
  refine ⟨trivial, trivial, trivial, ?_⟩
  exact_mod_cast hcount

/-! ## Shape invariant of the ledger -/

theorem ledgerInv_init (cfg : Params K) (T : Nat) (t : Int) :
    LedgerInv cfg t (initEngine T : Engine K) := by
  constructor <;> simp [initEngine]

theorem ledgerInv_step (sqrt : K → K) (cfg : Params K) (data : List (PairPoint K))
    (st : Engine K) (t : Int) (ht : firstStep cfg ≤ t) (h : LedgerInv cfg (t - 1) st) :
    LedgerInv cfg t (step sqrt cfg data st t) := by
  obtain ⟨h1, h2, h3, h4, h5, h6⟩ := h
  have h5' : ∀ tr ∈ st.trades, firstStep cfg ≤ tr.entry ∧ tr.entry < tr.exit ∧ tr.exit ≤ t := by
    intro tr htr
    have := h5 tr htr
    omega
  simp only [step]
  by_cases hpos : st.pos = PosState.FLAT
  · simp only [hpos, ne_eq, not_true_eq_false, if_false]
    have hafter : ∀ tr ∈ st.trades, tr.exit < t := by
      intro tr htr
      have := h5 tr htr
      omega
    split_ifs
    · exact ⟨fun _ => ⟨ht, le_rfl⟩, fun _ => hafter, h3, h4, h5', h6⟩
    · exact ⟨fun _ => ⟨ht, le_rfl⟩, fun _ => hafter, h3, h4, h5', h6⟩
    · exact ⟨fun hc => absurd rfl hc, fun hc => absurd rfl hc, h3, h4, h5', h6⟩
  · have he := h1 hpos
    have hside : st.pos = PosState.LONG_SPREAD ∨ st.pos = PosState.SHORT_SPREAD := by
      cases hp : st.pos with
      | FLAT => exact absurd hp hpos
      | LONG_SPREAD => exact Or.inl rfl
      | SHORT_SPREAD => exact Or.inr rfl
    simp only [ne_eq, hpos, not_false_eq_true, if_true]
    by_cases hc : |zscore sqrt cfg (spreadAt cfg data st.spread t) t| < cfg.z_exit
        ∨ t - st.entry_t ≥ cfg.max_hold
    · simp only [hc, if_true]
      refine ⟨fun hc => absurd rfl hc, fun hc => absurd rfl hc, ?_, ?_, ?_, ?_⟩
      · intro tr htr
        rcases List.mem_append.1 htr with htr | htr
        · exact h3 tr htr
        · rw [List.mem_singleton.1 htr]; exact hside
      · intro tr htr
        rcases List.mem_append.1 htr with htr | htr
        · exact h4 tr htr
        · rw [List.mem_singleton.1 htr]
          dsimp only
          split_ifs
          · exact Or.inl rfl
          · exact Or.inr rfl
      · intro tr htr
        rcases List.mem_append.1 htr with htr | htr
        · exact h5' tr htr
        · rw [List.mem_singleton.1 htr]
          dsimp only
          omega
      · rw [List.pairwise_append]
        refine ⟨h6, List.pairwise_singleton _ _, ?_⟩
        intro a ha b hb
        rw [List.mem_singleton.1 hb]
        exact h2 hpos a ha
    · simp only [hc, if_false]
      exact ⟨fun _ => ⟨he.1, by dsimp only; omega⟩, fun _ => h2 hpos, h3, h4, h5', h6⟩

theorem ledgerInv_runThrough (sqrt : K → K) (cfg : Params K) (data : List (PairPoint K))
    (t : Int) : LedgerInv cfg t (runThrough sqrt cfg data t) := by
  by_cases ht : firstStep cfg - 1 ≤ t
  · refine @Int.le_induction (fun t => LedgerInv cfg t (runThrough sqrt cfg data t))
      (firstStep cfg - 1) ?_ ?_ t ht
    · show LedgerInv cfg (firstStep cfg - 1) (runThrough sqrt cfg data (firstStep cfg - 1))
      rw [runThrough_before sqrt cfg data _ (by omega)]
      exact ledgerInv_init cfg _ _
    · intro n hn ih
      show LedgerInv cfg (n + 1) (runThrough sqrt cfg data (n + 1))
      rw [runThrough_succ sqrt cfg data (n + 1) (by omega)]
      have h := ledgerInv_step sqrt cfg data (runThrough sqrt cfg data (n + 1 - 1)) (n + 1)
        (by omega)
      simp only [add_sub_cancel_right] at h ⊢
      exact h ih
  · rw [runThrough_before sqrt cfg data _ (by omega)]
    exact ledgerInv_init cfg _ _

theorem ledgerInv_run (sqrt : K → K) (cfg : Params K) (data : List (PairPoint K)) :
    LedgerInv cfg ((data.length : Int) - 1) (run sqrt cfg data) := by
  rw [run_eq_runThrough]
  exact ledgerInv_runThrough sqrt cfg data _

/-- Claim C16. Engine idle before the windows are filled: no iteration is run for a counter
value `t < max(L_beta, L_z)`, so up to the first decision step the state is the initial one,
`FLAT` with an empty ledger; and every trade of the final ledger has
`entry ≥ max(L_beta, L_z)` and `exit ≤ T - 1`. -/
theorem engine_idle (sqrt : K → K) (cfg : Params K) (data : List (PairPoint K)) :
    (∀ t : Int, t < max cfg.L_beta cfg.L_z →
      runThrough sqrt cfg data t = initEngine data.length ∧
      (runThrough sqrt cfg data t).pos = PosState.FLAT ∧
      (runThrough sqrt cfg data t).trades = []) ∧
    (∀ tr ∈ (run sqrt cfg data).trades,
      max cfg.L_beta cfg.L_z ≤ tr.entry ∧ tr.exit ≤ (data.length : Int) - 1) := by
  constructor
  · intro t ht
    have h := runThrough_before sqrt cfg data t ht
    rw [h]
    exact ⟨rfl, rfl, rfl⟩
  · intro tr htr
    have h := (ledgerInv_run sqrt cfg data).led_times tr htr
    exact ⟨h.1, h.2.2⟩

/-- Witness for claim C16: the trade of the run on `obs5` is entered at `3 = max(3, 2)` and
closed at `4 = T - 1`. -/
theorem engine_idle_witness :
    runThrough Real.sqrt (cfgHold1 ℝ) (obs5 ℝ) 2 = initEngine (obs5 ℝ).length ∧
    max (cfgHold1 ℝ).L_beta (cfgHold1 ℝ).L_z ≤ (trade5 ℝ).entry ∧
    (trade5 ℝ).exit ≤ ((obs5 ℝ).length : Int) - 1 :=
  have h := engine_idle Real.sqrt (cfgHold1 ℝ) (obs5 ℝ)
  ⟨(h.1 2 (by simp [cfgHold1])).1, h.2 (trade5 ℝ) (by rw [run_obs5]; simp)⟩

/-- Claim C19. Well-formed trades: every trade of the ledger has side `LONG_SPREAD` or
`SHORT_SPREAD`, reason `"Z_EXIT"` or `"TIME_STOP"`, and `entry < exit`. -/
theorem trades_well_formed (sqrt : K → K) (cfg : Params K) (data : List (PairPoint K))
    (tr : Trade K) (htr : tr ∈ (run sqrt cfg data).trades) :
    (tr.side = PosState.LONG_SPREAD ∨ tr.side = PosState.SHORT_SPREAD) ∧
    tr.side ≠ PosState.FLAT ∧
    (tr.reason = "Z_EXIT" ∨ tr.reason = "TIME_STOP") ∧
    tr.entry < tr.exit := by
  have h := ledgerInv_run sqrt cfg data
  refine ⟨h.led_side tr htr, ?_, h.led_reason tr htr, (h.led_times tr htr).2.1⟩
  rcases h.led_side tr htr with hs | hs <;> rw [hs] <;> decide

/-- Witness for claim C19: the trade of the run on `obs5`. -/
theorem trades_well_formed_witness :
    trade5 ℝ ∈ (run Real.sqrt (cfgHold1 ℝ) (obs5 ℝ)).trades ∧
    (trade5 ℝ).side ≠ PosState.FLAT ∧
    ((trade5 ℝ).reason = "Z_EXIT" ∨ (trade5 ℝ).reason = "TIME_STOP") ∧
    (trade5 ℝ).entry < (trade5 ℝ).exit :=
  have hmem : trade5 ℝ ∈ (run Real.sqrt (cfgHold1 ℝ) (obs5 ℝ)).trades := by
    rw [run_obs5]; simp
  ⟨hmem, (trades_well_formed Real.sqrt (cfgHold1 ℝ) (obs5 ℝ) (trade5 ℝ) hmem).2⟩

/-- Claim C20. Trades are chronological and do not overlap: for every two consecutive
trades `a`, `b` of the ledger (positions `k` and `k + 1`), `a.exit < b.entry`; the same
holds for every earlier and later pair of trades. -/
theorem trades_chronological (sqrt : K → K) (cfg : Params K) (data : List (PairPoint K)) :
    (∀ (k : Nat) (a b : Trade K), (run sqrt cfg data).trades[k]? = some a →
      (run sqrt cfg data).trades[k + 1]? = some b → a.exit < b.entry) ∧
    List.Chain' (fun a b => a.exit < b.entry) (run sqrt cfg data).trades ∧
    List.Pairwise (fun a b => a.exit < b.entry) (run sqrt cfg data).trades := by
  have h := (ledgerInv_run sqrt cfg data).led_chain
  refine ⟨?_, h.chain', h⟩
  intro k a b ha hb
  rw [List.getElem?_eq_some] at ha hb
  obtain ⟨hk, rfl⟩ := ha
  obtain ⟨hk1, rfl⟩ := hb
  exact List.pairwise_iff_getElem.1 h k (k + 1) hk hk1 (Nat.lt_succ_self k)

/-! ## Index safety -/

theorem vgetC_eq {α : Type} (d : α) (v : List α) (i : Int) (h0 : 0 ≤ i)
    (h1 : i < (v.length : Int)) : vgetC v i = some (vget d v i) := by
  have hlt : i.toNat < v.length := by omega
  simp [vgetC, vget, not_lt.2 h0, List.getD, List.getElem?_eq_getElem hlt]

theorem vsetC_eq {α : Type} (v : List α) (i : Int) (a : α) (h0 : 0 ≤ i)
    (h1 : i < (v.length : Int)) : vsetC v i a = some (vset v i a) := by
  have hlt : i.toNat < v.length := by omega
  simp [vsetC, vset, not_lt.2 h0, h0, hlt]

theorem vset_length {α : Type} (v : List α) (i : Int) (a : α) :
    (vset v i a).length = v.length := by
  unfold vset
  split_ifs <;> simp

theorem loopFromC_eq {σ : Type} (bodyC : σ → Int → Option σ) (body : σ → Int → σ)
    (Inv : σ → Prop) (n : Nat) (i : Int) (s : σ) (hs : Inv s)
    (h : ∀ j : Int, i ≤ j → j < i + n → ∀ s, Inv s →
      bodyC s j = some (body s j) ∧ Inv (body s j)) :
    loopFromC bodyC n i s = some (loopFrom body n i s) ∧ Inv (loopFrom body n i s) := by
  induction n generalizing i s with
  | zero => exact ⟨rfl, hs⟩
  | succ k ih =>
    have h0 := h i le_rfl (by push_cast; omega) s hs
    rw [loopFromC, loopFrom, h0.1]
    exact ih (i + 1) (body s i) h0.2 (fun j hj1 hj2 s1 hs1 =>
      h j (by omega) (by push_cast; omega) s1 hs1)

theorem meanC_eq (v : List K) (start stop : Int) (h0 : 0 ≤ start)
    (h1 : stop < (v.length : Int)) : meanC v start stop = some (mean v start stop) := by
  have h := loopFromC_eq (fun s i => (vgetC v i).map (fun vi => s + vi))
    (fun s i => s + vget 0 v i) (fun _ => True) (stop - start + 1).toNat start 0 trivial
    (fun j hj1 hj2 s _ => ⟨by dsimp only; rw [vgetC_eq 0 v j (by omega) (by omega)]; rfl, trivial⟩)
  simp only [meanC, mean, forLeC, forLe, h.1, Option.map_some']

theorem stdevC_eq (sqrt : K → K) (v : List K) (start stop : Int) (mu : K) (h0 : 0 ≤ start)
    (h1 : stop < (v.length : Int)) :
    stdevC sqrt v start stop mu = some (stdev sqrt v start stop mu) := by
  have h := loopFromC_eq (fun s2 i => (vgetC v i).map (fun vi => let d := vi - mu; s2 + d * d))
    (fun s2 i => let d := vget 0 v i - mu; s2 + d * d) (fun _ => True)
    (stop - start + 1).toNat start 0 trivial
    (fun j hj1 hj2 s _ => ⟨by dsimp only; rw [vgetC_eq 0 v j (by omega) (by omega)]; rfl, trivial⟩)
  simp only [stdevC, stdev, forLeC, forLe, h.1, Option.map_some']

theorem rolling_ols_beta_alphaC_eq (data : List (PairPoint K)) (t_end L : Int)
    (h0 : 0 ≤ t_end - L + 1) (h1 : t_end < (data.length : Int)) :
    rolling_ols_beta_alphaC data t_end L = some (rolling_ols_beta_alpha data t_end L) := by
  have hm := loopFromC_eq
    (fun (m : K × K) i => (vgetC data i).map (fun p => (m.1 + p.x, m.2 + p.y)))
    (fun (m : K × K) i => (m.1 + xAt data i, m.2 + yAt data i)) (fun _ => True)
    (t_end - (t_end - L + 1) + 1).toNat (t_end - L + 1) (0, 0) trivial
    (fun j hj1 hj2 s _ =>
      ⟨by dsimp only; rw [vgetC_eq (PairPoint.mk 0 0) data j (by omega) (by omega)]; rfl, trivial⟩)
  have hnd := fun (mx my : K) => loopFromC_eq
    (fun (nd : K × K) i => (vgetC data i).map (fun p =>
      let dx := p.x - mx
      let dy := p.y - my
      (nd.1 + dx * dy, nd.2 + dx * dx)))
    (fun (nd : K × K) i =>
      let dx := xAt data i - mx
      let dy := yAt data i - my
      (nd.1 + dx * dy, nd.2 + dx * dx)) (fun _ => True)
    (t_end - (t_end - L + 1) + 1).toNat (t_end - L + 1) (0, 0) trivial
    (fun j hj1 hj2 s _ =>
      ⟨by dsimp only; rw [vgetC_eq (PairPoint.mk 0 0) data j (by omega) (by omega)]; rfl, trivial⟩)
  simp only [rolling_ols_beta_alphaC, rolling_ols_beta_alpha, forLeC, forLe, hm.1,
    Option.some_bind, (hnd _ _).1, Option.map_some']

theorem stepC_eq (sqrt : K → K) (cfg : Params K) (data : List (PairPoint K)) (st : Engine K)
    (t : Int) (hb : 1 ≤ cfg.L_beta) (_hz : 1 ≤ cfg.L_z) (ht0 : firstStep cfg ≤ t)
    (htT : t < (data.length : Int)) (hsp : st.spread.length = data.length) :
    stepC sqrt cfg data st t = some (step sqrt cfg data st t) := by
  have hf : firstStep cfg = max cfg.L_beta cfg.L_z := rfl
  have hLb : cfg.L_beta ≤ t := by rw [hf] at ht0; exact le_trans (le_max_left _ _) ht0
  have hLz : cfg.L_z ≤ t := by rw [hf] at ht0; exact le_trans (le_max_right _ _) ht0
  have hols := rolling_ols_beta_alphaC_eq data (t - 1) cfg.L_beta (by omega) (by omega)
  have hsig := vgetC_eq (PairPoint.mk (0 : K) 0) data (t - 1) (by omega) (by omega)
  have ht := vgetC_eq (PairPoint.mk (0 : K) 0) data t (by omega) (by omega)
  have hlen : ((spreadAt cfg data st.spread t).length : Int) = data.length := by
    rw [spreadAt, vset_length, hsp]
  have hset : ∀ a : K, vsetC st.spread (t - 1) a = some (vset st.spread (t - 1) a) :=
    fun a => vsetC_eq st.spread (t - 1) a (by omega) (by rw [hsp]; omega)
  have hmean := meanC_eq (spreadAt cfg data st.spread t) (t - 1 - cfg.L_z + 1) (t - 1)
    (by omega) (by rw [hlen]; omega)
  have hsd := fun mu => stdevC_eq sqrt (spreadAt cfg data st.spread t) (t - 1 - cfg.L_z + 1)
    (t - 1) mu (by omega) (by rw [hlen]; omega)
  have hss := vgetC_eq (0 : K) (spreadAt cfg data st.spread t) (t - 1) (by omega)
    (by rw [hlen]; omega)
  simp only [spreadAt, xAt, yAt] at hmean hsd hss
  simp only [stepC, step, spreadAt, zscore, hedgedReturn, xAt, yAt, hols, hsig, ht, hset,
    hmean, hsd, hss, Option.some_bind, Option.map_some']
  split_ifs <;> rfl

theorem step_spread_length (sqrt : K → K) (cfg : Params K) (data : List (PairPoint K))
    (st : Engine K) (t : Int) :
    (step sqrt cfg data st t).spread.length = st.spread.length := by
  simp only [step]
  split_ifs <;> simp [spreadAt, vset_length]

/-- Claim C15. Index safety: with `L_beta ≥ 1` and `L_z ≥ 1`, every iteration `t` of the
loop (`max(L_beta, L_z) ≤ t < T`) calls the estimator with `t_end = t - 1 ≥ L_beta - 1`, the
windows `[t - L_beta, t - 1]` and `[t - L_z, t - 1]` and the indices `t - 1`, `t` lie in
`[0, T - 1]`, and the iteration with every access to `data` and `spread` bounds-checked
succeeds with the result of the unchecked iteration; so does the whole run. -/
theorem index_safety (sqrt : K → K) (cfg : Params K) (data : List (PairPoint K))
    (hb : 1 ≤ cfg.L_beta) (hz : 1 ≤ cfg.L_z) :
    (∀ t : Int, max cfg.L_beta cfg.L_z ≤ t → t < (data.length : Int) →
      cfg.L_beta - 1 ≤ t - 1 ∧
      (∀ i ∈ window (t - 1) cfg.L_beta, 0 ≤ i ∧ i ≤ (data.length : Int) - 1) ∧
      (∀ i ∈ Finset.Icc (t - 1 - cfg.L_z + 1) (t - 1), 0 ≤ i ∧ i ≤ (data.length : Int) - 1) ∧
      0 ≤ t - 1 ∧ t ≤ (data.length : Int) - 1 ∧
      (∀ st : Engine K, st.spread.length = data.length →
        stepC sqrt cfg data st t = some (step sqrt cfg data st t))) ∧
    runC sqrt cfg data = some (run sqrt cfg data) := by
  constructor
  · intro t ht0 htT
    have hLb : cfg.L_beta ≤ t := le_trans (le_max_left _ _) ht0
    have hLz : cfg.L_z ≤ t := le_trans (le_max_right _ _) ht0
    refine ⟨by omega, ?_, ?_, by omega, by omega,
      fun st hsp => stepC_eq sqrt cfg data st t hb hz ht0 htT hsp⟩
    · intro i hi
      simp only [window, Finset.mem_Icc] at hi
      omega
    · intro i hi
      simp only [Finset.mem_Icc] at hi
      omega
  · have h := loopFromC_eq (stepC sqrt cfg data) (step sqrt cfg data)
      (fun st => st.spread.length = data.length)
      ((data.length : Int) - firstStep cfg).toNat (firstStep cfg) (initEngine data.length)
      (by simp [initEngine])
      (fun j hj1 hj2 s hs =>
        ⟨stepC_eq sqrt cfg data s j hb hz hj1 (by omega) hs,
          by
            show (step sqrt cfg data s j).spread.length = data.length
            rw [step_spread_length]
            exact hs⟩)
    exact h.1

/-! ## Configuration handling -/

theorem step_badExit_3 :
    step Real.sqrt (cfgBadExit ℝ) (obs5 ℝ) (initEngine 5) 3 = heldShort ℝ := by
  have hs : (initEngine 5 : Engine ℝ).spread = [0, 0, 0, 0, 0] := rfl
  have h1 : spreadAt (cfgBadExit ℝ) (obs5 ℝ) [0, 0, 0, 0, 0] 3 = [0, 0, 2, 0, 0] :=
    spreadAt_obs5_3
  have h2 : zscore Real.sqrt (cfgBadExit ℝ) [0, 0, 2, 0, 0] 3 = 1 := zscore_obs5_3
  simp only [step, hs, h1, h2]
  simp [initEngine, cfgBadExit, vget, heldShort]
  norm_num

theorem step_badExit_4 :
    step Real.sqrt (cfgBadExit ℝ) (obs5 ℝ) (heldShort ℝ) 4
      = { spread := [0, 0, 2, 0, 0], pos := PosState.FLAT, entry_t := -1,
          entry_sp := 0, pnl := 0, trades := [trade5 ℝ] } := by
  have h : (cfgBadExit ℝ).L_beta = 3 := rfl
  have h41 : (4 : Int) - 1 = 3 := rfl
  have hs : (heldShort ℝ).spread = [0, 0, 2, 0, 0] := rfl
  have h1 : spreadAt (cfgBadExit ℝ) (obs5 ℝ) [0, 0, 2, 0, 0] 4 = [0, 0, 2, 0, 0] :=
    spreadAt_obs5_4
  have h2 : zscore Real.sqrt (cfgBadExit ℝ) [0, 0, 2, 0, 0] 4 = -1 := zscore_obs5_4
  simp only [step, hs, h1, h2, h, h41, ols_obs5_3]
  simp [cfgBadExit, vget, trade5, hedgedReturn, sideSign, xAt, yAt, obs5, heldShort]
  norm_num

/-- Counterexample for claim C14: with `z_exit = 1 ≥ z_entry = 1/2` the run on `obs5` is not
aborted; it records the trade `trade5` and reports one win with total `11`. -/
theorem run_with_invalid_thresholds :
    (cfgBadExit ℝ).z_exit ≥ (cfgBadExit ℝ).z_entry ∧
    (run Real.sqrt (cfgBadExit ℝ) (obs5 ℝ)).trades = [trade5 ℝ] ∧
    report (run Real.sqrt (cfgBadExit ℝ) (obs5 ℝ)).trades = (11, 1, 0) := by
  have hrun : run Real.sqrt (cfgBadExit ℝ) (obs5 ℝ)
      = step Real.sqrt (cfgBadExit ℝ) (obs5 ℝ)
          (step Real.sqrt (cfgBadExit ℝ) (obs5 ℝ) (initEngine 5) 3) 4 := by
    simp [run, forLt, firstStep, cfgBadExit, obs5, loopFrom]
  rw [hrun, step_badExit_3, step_badExit_4]
  refine ⟨by norm_num [cfgBadExit], rfl, ?_⟩
  simp [report, trade5]

/-- Claim C14, amended. The engine validates nothing: the parameters of `main` are constants
that satisfy `L_beta > 0`, `L_z > 0`, `max(L_beta, L_z) < T` and `0 ≤ z_exit < z_entry`; and
for every configuration whose window `max(L_beta, L_z)` is at least the number `T` of
observations the loop body is never run, so the state stays the initial one, `FLAT` with an
empty ledger, and the report is `(0, 0, 0)`. -/
theorem no_iteration_when_window_exceeds_history (sqrt : K → K) (cfg : Params K)
    (data : List (PairPoint K)) (h : (data.length : Int) ≤ max cfg.L_beta cfg.L_z) :
    (0 < (mainParams K).L_beta ∧ 0 < (mainParams K).L_z ∧
      max (mainParams K).L_beta (mainParams K).L_z < (mainT : Int) ∧
      0 ≤ (mainParams K).z_exit ∧ (mainParams K).z_exit < (mainParams K).z_entry ∧
      0 < (mainParams K).max_hold) ∧
    run sqrt cfg data = initEngine data.length ∧
    (run sqrt cfg data).pos = PosState.FLAT ∧
    (run sqrt cfg data).trades = [] ∧
    report (run sqrt cfg data).trades = (0, 0, 0) := by
  have hrun : run sqrt cfg data = initEngine data.length := by
    rw [run_eq_runThrough]
    exact runThrough_before sqrt cfg data _ (by
      have : firstStep cfg = max cfg.L_beta cfg.L_z := rfl
      omega)
  refine ⟨⟨by simp [mainParams], by simp [mainParams], by simp [mainParams, mainT], ?_, ?_,
    by simp [mainParams]⟩, hrun, ?_, ?_, ?_⟩
  · norm_num [mainParams]
  · norm_num [mainParams]
  · rw [hrun]; rfl
  · rw [hrun]; rfl
  · rw [hrun]; rfl

/-- Witness for claim C14: two observations with windows `L_beta = 3`, `L_z = 2`. -/
theorem no_iteration_when_window_exceeds_history_witness :
    ((obsFlatX ℝ).length : Int) ≤ max (cfgSmall ℝ).L_beta (cfgSmall ℝ).L_z ∧
    (run Real.sqrt (cfgSmall ℝ) (obsFlatX ℝ)).trades = [] :=
  have h : ((obsFlatX ℝ).length : Int) ≤ max (cfgSmall ℝ).L_beta (cfgSmall ℝ).L_z := by
    simp [obsFlatX, cfgSmall]
  ⟨h, (no_iteration_when_window_exceeds_history Real.sqrt (cfgSmall ℝ) (obsFlatX ℝ)
    h).2.2.2.1⟩

/-- Witness for claim C15: the run on `obs5` with `L_beta = 3`, `L_z = 2` passes every
bounds check. -/
theorem index_safety_witness :
    1 ≤ (cfgHold1 ℝ).L_beta ∧ 1 ≤ (cfgHold1 ℝ).L_z ∧
    runC Real.sqrt (cfgHold1 ℝ) (obs5 ℝ) = some (run Real.sqrt (cfgHold1 ℝ) (obs5 ℝ)) :=
  have hb : 1 ≤ (cfgHold1 ℝ).L_beta := by simp [cfgHold1]
  have hz : 1 ≤ (cfgHold1 ℝ).L_z := by simp [cfgHold1]
  ⟨hb, hz, (index_safety Real.sqrt (cfgHold1 ℝ) (obs5 ℝ) hb hz).2⟩

/-- Without a window the bounds check fails: with `L_beta = L_z = 0` the first iteration is
`t = 0` and reads `data[-1]`. -/
theorem runC_fails_without_window :
    runC Real.sqrt (cfgNoWindow ℝ) (obsFlatX ℝ) = none := by
  simp [runC, forLtC, firstStep, cfgNoWindow, obsFlatX, loopFromC, stepC,
    rolling_ols_beta_alphaC, forLeC, vgetC]

/-- Witness for claim C18: on `obs5` the ledger after the iteration `3` is a prefix of the
ledger after the iteration `4`. -/
theorem ledger_append_only_witness :
    List.IsPrefix (runThrough Real.sqrt (cfgHold1 ℝ) (obs5 ℝ) 3).trades
      (runThrough Real.sqrt (cfgHold1 ℝ) (obs5 ℝ) 4).trades :=
  (ledger_append_only Real.sqrt (cfgHold1 ℝ) (obs5 ℝ) (heldShort ℝ) 4 3 4 (by decide)).2.1

/-! ## Evaluation of a run with two trades -/

theorem ols_obs7_2 : rolling_ols_beta_alpha (obs7 ℝ) 2 3 = (-2, 6) := by
  simp [rolling_ols_beta_alpha, forLe, loopFrom, xAt, yAt, vget, obs7]
  norm_num

theorem ols_obs7_3 : rolling_ols_beta_alpha (obs7 ℝ) 3 3 = (-12, 12) := by
  simp [rolling_ols_beta_alpha, forLe, loopFrom, xAt, yAt, vget, obs7]
  norm_num

theorem ols_obs7_4 : rolling_ols_beta_alpha (obs7 ℝ) 4 3 = (-26, 18) := by
  simp [rolling_ols_beta_alpha, forLe, loopFrom, xAt, yAt, vget, obs7]
  norm_num

theorem ols_obs7_5 : rolling_ols_beta_alpha (obs7 ℝ) 5 3 = (-48, 24) := by
  simp [rolling_ols_beta_alpha, forLe, loopFrom, xAt, yAt, vget, obs7]
  norm_num

theorem spreadAt_obs7_3 :
    spreadAt (cfgHold1 ℝ) (obs7 ℝ) [0, 0, 0, 0, 0, 0, 0] 3 = [0, 0, 2, 0, 0, 0, 0] := by
  have h : (cfgHold1 ℝ).L_beta = 3 := rfl
  simp only [spreadAt, h]
  norm_num [ols_obs7_2]
  simp [vset, xAt, yAt, vget, obs7]
  norm_num

theorem spreadAt_obs7_4 :
    spreadAt (cfgHold1 ℝ) (obs7 ℝ) [0, 0, 2, 0, 0, 0, 0] 4 = [0, 0, 2, 0, 0, 0, 0] := by
  have h : (cfgHold1 ℝ).L_beta = 3 := rfl
  simp only [spreadAt, h]
  norm_num [ols_obs7_3]
  simp [vset, xAt, yAt, vget, obs7]
  norm_num

theorem spreadAt_obs7_5 :
    spreadAt (cfgHold1 ℝ) (obs7 ℝ) [0, 0, 2, 0, 0, 0, 0] 5 = [0, 0, 2, 0, 2, 0, 0] := by
  have h : (cfgHold1 ℝ).L_beta = 3 := rfl
  simp only [spreadAt, h]
  norm_num [ols_obs7_4]
  simp [vset, xAt, yAt, vget, obs7]
  norm_num

theorem spreadAt_obs7_6 :
    spreadAt (cfgHold1 ℝ) (obs7 ℝ) [0, 0, 2, 0, 2, 0, 0] 6 = [0, 0, 2, 0, 2, 0, 0] := by
  have h : (cfgHold1 ℝ).L_beta = 3 := rfl
  simp only [spreadAt, h]
  norm_num [ols_obs7_5]
  simp [vset, xAt, yAt, vget, obs7]
  norm_num

theorem zscore_obs7_3 : zscore Real.sqrt (cfgHold1 ℝ) [0, 0, 2, 0, 0, 0, 0] 3 = 1 := by
  simp [zscore, mean, stdev, forLe, loopFrom, vget, cfgHold1]
  norm_num

theorem zscore_obs7_4 : zscore Real.sqrt (cfgHold1 ℝ) [0, 0, 2, 0, 0, 0, 0] 4 = -1 := by
  simp [zscore, mean, stdev, forLe, loopFrom, vget, cfgHold1]
  norm_num

theorem zscore_obs7_5 : zscore Real.sqrt (cfgHold1 ℝ) [0, 0, 2, 0, 2, 0, 0] 5 = 1 := by
  simp [zscore, mean, stdev, forLe, loopFrom, vget, cfgHold1]
  norm_num

theorem zscore_obs7_6 : zscore Real.sqrt (cfgHold1 ℝ) [0, 0, 2, 0, 2, 0, 0] 6 = -1 := by
  simp [zscore, mean, stdev, forLe, loopFrom, vget, cfgHold1]
  norm_num

theorem step_obs7_3 :
    step Real.sqrt (cfgHold1 ℝ) (obs7 ℝ) (initEngine 7) 3
      = { spread := [0, 0, 2, 0, 0, 0, 0], pos := PosState.SHORT_SPREAD, entry_t := 3,
          entry_sp := 2, pnl := 0, trades := [] } := by
  have hs : (initEngine 7 : Engine ℝ).spread = [0, 0, 0, 0, 0, 0, 0] := rfl
  simp only [step, hs, spreadAt_obs7_3, zscore_obs7_3]
  simp [initEngine, cfgHold1, vget]
  norm_num

theorem step_obs7_4 :
    step Real.sqrt (cfgHold1 ℝ) (obs7 ℝ)
        { spread := [0, 0, 2, 0, 0, 0, 0], pos := PosState.SHORT_SPREAD, entry_t := 3,
          entry_sp := 2, pnl := 0, trades := [] } 4
      = { spread := [0, 0, 2, 0, 0, 0, 0], pos := PosState.FLAT, entry_t := -1,
          entry_sp := 0, pnl := 0, trades := [trade7a ℝ] } := by
  have h : (cfgHold1 ℝ).L_beta = 3 := rfl
  have h41 : (4 : Int) - 1 = 3 := rfl
  simp only [step, spreadAt_obs7_4, zscore_obs7_4, h, h41, ols_obs7_3]
  simp [cfgHold1, vget, trade7a, hedgedReturn, sideSign, xAt, yAt, obs7]
  norm_num

theorem step_obs7_5 :
    step Real.sqrt (cfgHold1 ℝ) (obs7 ℝ)
        { spread := [0, 0, 2, 0, 0, 0, 0], pos := PosState.FLAT, entry_t := -1,
          entry_sp := 0, pnl := 0, trades := [trade7a ℝ] } 5
      = { spread := [0, 0, 2, 0, 2, 0, 0], pos := PosState.SHORT_SPREAD, entry_t := 5,
          entry_sp := 2, pnl := 0, trades := [trade7a ℝ] } := by
  simp only [step, spreadAt_obs7_5, zscore_obs7_5]
  simp [cfgHold1, vget]
  norm_num

theorem step_obs7_6 :
    step Real.sqrt (cfgHold1 ℝ) (obs7 ℝ)
        { spread := [0, 0, 2, 0, 2, 0, 0], pos := PosState.SHORT_SPREAD, entry_t := 5,
          entry_sp := 2, pnl := 0, trades := [trade7a ℝ] } 6
      = { spread := [0, 0, 2, 0, 2, 0, 0], pos := PosState.FLAT, entry_t := -1,
          entry_sp := 0, pnl := 0, trades := [trade7a ℝ, trade7b ℝ] } := by
  have h : (cfgHold1 ℝ).L_beta = 3 := rfl
  have h61 : (6 : Int) - 1 = 5 := rfl
  simp only [step, spreadAt_obs7_6, zscore_obs7_6, h, h61, ols_obs7_5]
  simp [cfgHold1, vget, trade7b, hedgedReturn, sideSign, xAt, yAt, obs7]
  norm_num

theorem run_obs7 :
    run Real.sqrt (cfgHold1 ℝ) (obs7 ℝ)
      = { spread := [0, 0, 2, 0, 2, 0, 0], pos := PosState.FLAT, entry_t := -1,
          entry_sp := 0, pnl := 0, trades := [trade7a ℝ, trade7b ℝ] } := by
  have hrun : run Real.sqrt (cfgHold1 ℝ) (obs7 ℝ)
      = step Real.sqrt (cfgHold1 ℝ) (obs7 ℝ)
          (step Real.sqrt (cfgHold1 ℝ) (obs7 ℝ)
            (step Real.sqrt (cfgHold1 ℝ) (obs7 ℝ)
              (step Real.sqrt (cfgHold1 ℝ) (obs7 ℝ) (initEngine 7) 3) 4) 5) 6 := by
    simp [run, forLt, firstStep, cfgHold1, obs7, loopFrom]
  rw [hrun, step_obs7_3, step_obs7_4, step_obs7_5, step_obs7_6]

/-- Witness for claim C20: the two trades of the run on `obs7`, closed at `4` and opened at
`5`. -/
theorem trades_chronological_witness :
    (run Real.sqrt (cfgHold1 ℝ) (obs7 ℝ)).trades = [trade7a ℝ, trade7b ℝ] ∧
    (trade7a ℝ).exit < (trade7b ℝ).entry :=
  have ht : (run Real.sqrt (cfgHold1 ℝ) (obs7 ℝ)).trades = [trade7a ℝ, trade7b ℝ] := by
    rw [run_obs7]
  ⟨ht, (trades_chronological Real.sqrt (cfgHold1 ℝ) (obs7 ℝ)).1 0 (trade7a ℝ) (trade7b ℝ)
    (by rw [ht]; rfl) (by rw [ht]; rfl)⟩

/-- Instance of claim C17: the report of the run on `obs7` is total `-13`, no win, two
losses. -/
theorem report_summary_witness :
    report (run Real.sqrt (cfgHold1 ℝ) (obs7 ℝ)).trades = (-13, 0, 2) ∧
    (report (run Real.sqrt (cfgHold1 ℝ) (obs7 ℝ)).trades).2.1
      + (report (run Real.sqrt (cfgHold1 ℝ) (obs7 ℝ)).trades).2.2 = 2 := by
  have h := (report_summary (run Real.sqrt (cfgHold1 ℝ) (obs7 ℝ)).trades).2.2.2
  rw [run_obs7] at h ⊢
  refine ⟨?_, h⟩
  simp [report, trade7a, trade7b]
  norm_num

/-! ## Close resets, trade record, centroid and exact recovery -/

/-- Counterexample for claim C21: on `obs5` the iteration `t = 4` closes the short position
and records `trade5` with realised pnl `11`, and the accumulated pnl after that iteration
is `0`. -/
theorem pnl_reset_by_close :
    (step Real.sqrt (cfgHold1 ℝ) (obs5 ℝ) (heldShort ℝ) 4).trades
      = (heldShort ℝ).trades ++ [trade5 ℝ] ∧
    (trade5 ℝ).pnl = 11 ∧
    (step Real.sqrt (cfgHold1 ℝ) (obs5 ℝ) (heldShort ℝ) 4).pnl = 0 ∧
    (step Real.sqrt (cfgHold1 ℝ) (obs5 ℝ) (heldShort ℝ) 4).pnl ≠ (trade5 ℝ).pnl := by
  rw [step_obs5_4]
  refine ⟨rfl, rfl, rfl, ?_⟩
  simp [trade5]

/-- Claim C21, amended. In an iteration in which an exit fires, the accrued pnl, the accrual
of that iteration included, is copied into the realised pnl of the emitted trade and the
close then resets the accumulated pnl to `0`, together with `entry_t = -1` and
`entry_sp = 0`. -/
theorem pnl_zero_after_close (sqrt : K → K) (cfg : Params K) (data : List (PairPoint K))
    (st : Engine K) (t : Int) (hpos : st.pos ≠ PosState.FLAT)
    (hexit : |zStep sqrt cfg data st t| < cfg.z_exit ∨ t - st.entry_t ≥ cfg.max_hold) :
    (step sqrt cfg data st t).pnl = 0 ∧
    (step sqrt cfg data st t).entry_t = -1 ∧
    (step sqrt cfg data st t).entry_sp = 0 ∧
    (step sqrt cfg data st t).pos = PosState.FLAT ∧
    ∃ tr, (step sqrt cfg data st t).trades = st.trades ++ [tr] ∧
      tr.pnl = st.pnl
        + hedgedReturn data st.pos (rolling_ols_beta_alpha data (t - 1) cfg.L_beta).2 t := by
  simp only [zStep] at hexit
  simp [step, hpos, hexit]

/-- Witness for claim C21: the short position of `heldShort` is closed at `t = 4` under
`max_hold = 1`. -/
theorem pnl_zero_after_close_witness :
    (step Real.sqrt (cfgHold1 ℝ) (obs5 ℝ) (heldShort ℝ) 4).pnl = 0 :=
  (pnl_zero_after_close Real.sqrt (cfgHold1 ℝ) (obs5 ℝ) (heldShort ℝ) 4
    (by simp [heldShort]) (Or.inr (by simp [heldShort, cfgHold1]))).1

theorem vget_vset_same {α : Type} (d : α) (v : List α) (i : Int) (a : α) (h0 : 0 ≤ i)
    (h1 : i < (v.length : Int)) : vget d (vset v i a) i = a := by
  have hlt : i.toNat < v.length := by omega
  simp [vget, vset, not_lt.2 h0, List.getD, hlt]

theorem spreadAt_read (cfg : Params K) (data : List (PairPoint K)) (spread : List K) (t : Int)
    (h0 : 0 ≤ t - 1) (h1 : t - 1 < (spread.length : Int)) :
    vget 0 (spreadAt cfg data spread t) (t - 1) = fitSpread cfg data t := by
  simp only [spreadAt, fitSpread]
  exact vget_vset_same 0 spread (t - 1) _ h0 h1

theorem spreadInv_init (cfg : Params K) (data : List (PairPoint K)) :
    SpreadInv cfg data (initEngine data.length) := by
  constructor <;> simp [initEngine]

theorem spreadInv_step (sqrt : K → K) (cfg : Params K) (data : List (PairPoint K))
    (st : Engine K) (t : Int) (h0 : 0 ≤ t - 1) (h1 : t - 1 < (data.length : Int))
    (h : SpreadInv cfg data st) : SpreadInv cfg data (step sqrt cfg data st t) := by
  obtain ⟨hl, ho, hled⟩ := h
  have hr := spreadAt_read cfg data st.spread t h0 (by rw [hl]; exact h1)
  refine ⟨by rw [step_spread_length, hl], ?_, ?_⟩
  · simp only [step, hr]
    split_ifs with c1 c2 c3 c4 c5
    · intro hc; exact absurd rfl hc
    · intro hc; exact absurd rfl hc
    · intro _; exact ho c1
    · intro _; rfl
    · intro _; rfl
    · intro hc; exact absurd (not_not.1 c1) hc
  · simp only [step, hr]
    split_ifs with c1 c2 c3 c4 c5
    · intro tr htr
      rcases List.mem_append.1 htr with htr | htr
      · exact hled tr htr
      · rw [List.mem_singleton.1 htr]; exact ⟨ho c1, rfl⟩
    · intro tr htr
      rcases List.mem_append.1 htr with htr | htr
      · exact hled tr htr
      · rw [List.mem_singleton.1 htr]; exact ⟨ho c1, rfl⟩
    all_goals exact hled

theorem spreadInv_runThrough (sqrt : K → K) (cfg : Params K) (data : List (PairPoint K))
    (hf : 1 ≤ firstStep cfg) (t : Int) (ht : t ≤ (data.length : Int) - 1) :
    SpreadInv cfg data (runThrough sqrt cfg data t) := by
  by_cases h0 : firstStep cfg - 1 ≤ t
  · revert ht
    refine @Int.le_induction (fun t => t ≤ (data.length : Int) - 1 →
      SpreadInv cfg data (runThrough sqrt cfg data t)) (firstStep cfg - 1) ?_ ?_ t h0
    · intro _
      show SpreadInv cfg data (runThrough sqrt cfg data (firstStep cfg - 1))
      rw [runThrough_before sqrt cfg data _ (by omega)]
      exact spreadInv_init cfg data
    · intro n hn ih hn1
      show SpreadInv cfg data (runThrough sqrt cfg data (n + 1))
      rw [runThrough_succ sqrt cfg data (n + 1) (by omega)]
      have h := spreadInv_step sqrt cfg data (runThrough sqrt cfg data (n + 1 - 1)) (n + 1)
        (by omega) (by omega)
      simp only [add_sub_cancel_right] at h ⊢
      exact h (ih (by omega))
  · rw [runThrough_before sqrt cfg data _ (by omega)]
    exact spreadInv_init cfg data

theorem step_emitted (sqrt : K → K) (cfg : Params K) (data : List (PairPoint K))
    (st : Engine K) (t : Int) (tr : Trade K)
    (h : tr ∈ (step sqrt cfg data st t).trades.drop st.trades.length) :
    st.pos ≠ PosState.FLAT ∧ tr.entry = st.entry_t ∧ tr.exit = t ∧ tr.side = st.pos ∧
    tr.entry_spread = st.entry_sp ∧
    tr.exit_spread = vget 0 (spreadAt cfg data st.spread t) (t - 1) := by
  simp only [step] at h
  split_ifs at h with c1 c2 c3 c4 c5
  · simp only [List.drop_left, List.mem_singleton] at h
    subst h
    exact ⟨c1, rfl, rfl, rfl, rfl, rfl⟩
  · simp only [List.drop_left, List.mem_singleton] at h
    subst h
    exact ⟨c1, rfl, rfl, rfl, rfl, rfl⟩
  all_goals simp at h

/-- Claim C22. Trade record: with `L_beta ≥ 1` and `L_z ≥ 1`, a trade emitted by the
iteration `t` of the run carries `exit = t`, the entry time and the side of the position
that was open before the iteration, whose entry signal was the z-score of the entry
iteration; its `entry_spread` is the spread at index `entry - 1` computed with the fit of
the entry iteration and its `exit_spread` is the spread at index `t - 1` computed with the
fit of the iteration `t`. -/
theorem trade_record (sqrt : K → K) (cfg : Params K) (data : List (PairPoint K))
    (hb : 1 ≤ cfg.L_beta) (_hz : 1 ≤ cfg.L_z) (t : Int) (tr : Trade K)
    (ht0 : max cfg.L_beta cfg.L_z ≤ t) (htT : t < (data.length : Int))
    (hem : tr ∈ emittedAt sqrt cfg data t) :
    tr.exit = t ∧
    tr.entry = (runThrough sqrt cfg data (t - 1)).entry_t ∧
    tr.side = (runThrough sqrt cfg data (t - 1)).pos ∧
    tr.side ≠ PosState.FLAT ∧
    tr.entry < t ∧
    OpenOK sqrt cfg data tr.side tr.entry ∧
    tr.entry_spread = yAt data (tr.entry - 1)
      - ((rolling_ols_beta_alpha data (tr.entry - 1) cfg.L_beta).1
        + (rolling_ols_beta_alpha data (tr.entry - 1) cfg.L_beta).2 * xAt data (tr.entry - 1)) ∧
    tr.exit_spread = yAt data (t - 1)
      - ((rolling_ols_beta_alpha data (t - 1) cfg.L_beta).1
        + (rolling_ols_beta_alpha data (t - 1) cfg.L_beta).2 * xAt data (t - 1)) := by
  have hf : firstStep cfg = max cfg.L_beta cfg.L_z := rfl
  have hf1 : 1 ≤ firstStep cfg := by rw [hf]; exact le_trans hb (le_max_left _ _)
  have hft : firstStep cfg ≤ t := by rw [hf]; exact ht0
  rw [emittedAt, runThrough_succ sqrt cfg data t hft] at hem
  obtain ⟨hpos, he, hx, hs, hes, hxs⟩ :=
    step_emitted sqrt cfg data (runThrough sqrt cfg data (t - 1)) t tr hem
  have hsp := spreadInv_runThrough sqrt cfg data hf1 (t - 1) (by omega)
  have hrun := runInv_runThrough sqrt cfg data (t - 1)
  have hread := spreadAt_read cfg data (runThrough sqrt cfg data (t - 1)).spread t (by omega)
    (by rw [hsp.len]; omega)
  have hen := (hrun.open_entry hpos).2
  refine ⟨hx, he, hs, by rw [hs]; exact hpos, by rw [he]; omega, ?_, ?_, ?_⟩
  · rw [hs, he]; exact hrun.open_signal hpos
  · rw [hes, he]; exact hsp.open_sp hpos
  · rw [hxs, hread]; rfl

theorem runThrough_obs5_3 :
    runThrough Real.sqrt (cfgHold1 ℝ) (obs5 ℝ) 3 = heldShort ℝ := by
  have h : runThrough Real.sqrt (cfgHold1 ℝ) (obs5 ℝ) 3
      = step Real.sqrt (cfgHold1 ℝ) (obs5 ℝ) (initEngine 5) 3 := by
    simp [runThrough, forLe, firstStep, cfgHold1, obs5, loopFrom]
  rw [h, step_obs5_3]

theorem emittedAt_obs5_4 : emittedAt Real.sqrt (cfgHold1 ℝ) (obs5 ℝ) 4 = [trade5 ℝ] := by
  have h4 : runThrough Real.sqrt (cfgHold1 ℝ) (obs5 ℝ) 4
      = run Real.sqrt (cfgHold1 ℝ) (obs5 ℝ) := by
    rw [run_eq_runThrough]; rfl
  have h43 : (4 : Int) - 1 = 3 := rfl
  rw [emittedAt, h4, h43, runThrough_obs5_3, run_obs5]
  rfl

/-- Witness for claim C22: the trade emitted at `t = 4` by the run on `obs5`. -/
theorem trade_record_witness :
    trade5 ℝ ∈ emittedAt Real.sqrt (cfgHold1 ℝ) (obs5 ℝ) 4 ∧
    (trade5 ℝ).exit = 4 ∧
    (trade5 ℝ).entry = (runThrough Real.sqrt (cfgHold1 ℝ) (obs5 ℝ) (4 - 1)).entry_t :=
  have hem : trade5 ℝ ∈ emittedAt Real.sqrt (cfgHold1 ℝ) (obs5 ℝ) 4 := by
    rw [emittedAt_obs5_4]; simp
  have h := trade_record Real.sqrt (cfgHold1 ℝ) (obs5 ℝ) (by simp [cfgHold1])
    (by simp [cfgHold1]) 4 (trade5 ℝ) (by simp [cfgHold1]) (by simp [obs5]) hem
  ⟨hem, h.1, h.2.1⟩

theorem intCast_ne_zero_of_pos (L : Int) (hL : 1 ≤ L) : ((L : Int) : K) ≠ 0 := by
  have : (0 : K) < (L : K) := by exact_mod_cast (by omega : (0 : Int) < L)
  exact ne_of_gt this

/-- Claim C23. The fitted line passes through the centroid of the window: for every window
of length `L ≥ 1`, in the regular and in the fallback branch, `a = mean(y) - b * mean(x)`,
and the residuals `y_i - (a + b * x_i)` sum to zero over the window. -/
theorem ols_through_centroid (data : List (PairPoint K)) (t_end L : Int) (hL : 1 ≤ L) :
    (rolling_ols_beta_alpha data t_end L).1
      = windowMeanY data t_end L
        - (rolling_ols_beta_alpha data t_end L).2 * windowMeanX data t_end L ∧
    ∑ i in window t_end L, (yAt data i - ((rolling_ols_beta_alpha data t_end L).1
      + (rolling_ols_beta_alpha data t_end L).2 * xAt data i)) = 0 := by
  have hL0 : (L : K) ≠ 0 := intCast_ne_zero_of_pos L hL
  have ha : (rolling_ols_beta_alpha data t_end L).1
      = windowMeanY data t_end L
        - (rolling_ols_beta_alpha data t_end L).2 * windowMeanX data t_end L := by
    rw [rolling_ols_beta_alpha_eq]
  refine ⟨ha, ?_⟩
  rw [ha]
  generalize (rolling_ols_beta_alpha data t_end L).2 = b
  have hsx : ∑ i in window t_end L, xAt data i = (L : K) * windowMeanX data t_end L := by
    rw [windowMeanX]; field_simp
  have hsy : ∑ i in window t_end L, yAt data i = (L : K) * windowMeanY data t_end L := by
    rw [windowMeanY]; field_simp
  rw [Finset.sum_sub_distrib, Finset.sum_add_distrib, Finset.sum_const, nsmul_eq_mul,
    window_card t_end L hL, ← Finset.mul_sum, hsx, hsy]
  ring

/-- Witness for claim C23: the window of length `3` of `obs5` ending at index `2`. -/
theorem ols_through_centroid_witness :
    ∑ i in window 2 3, (yAt (obs5 ℝ) i - ((rolling_ols_beta_alpha (obs5 ℝ) 2 3).1
      + (rolling_ols_beta_alpha (obs5 ℝ) 2 3).2 * xAt (obs5 ℝ) i)) = 0 :=
  (ols_through_centroid (obs5 ℝ) 2 3 (by decide)).2

/-- Claim C29. Exact recovery: on a window of length `L ≥ 1` in which `y_i = alpha + beta *
x_i` holds for every `i` and the centred sum of squares of `x` exceeds `1e-12`,
`rolling_ols_beta_alpha` returns `b = beta` and `a = alpha`; hence the spread assigned by an
iteration of the engine whose fit window is such a window is `0`. -/
theorem ols_exact_recovery (data : List (PairPoint K)) (t_end L : Int) (alpha beta : K)
    (hL : 1 ≤ L) (hline : ∀ i ∈ window t_end L, yAt data i = alpha + beta * xAt data i)
    (hden : centredSumSq data t_end L > 1e-12) :
    rolling_ols_beta_alpha data t_end L = (alpha, beta) ∧
    yAt data t_end - ((rolling_ols_beta_alpha data t_end L).1
      + (rolling_ols_beta_alpha data t_end L).2 * xAt data t_end) = 0 ∧
    (∀ (cfg : Params K) (spread : List K), cfg.L_beta = L →
      vget 0 (spreadAt cfg data spread (t_end + 1)) t_end = 0) := by
  have hL0 : (L : K) ≠ 0 := intCast_ne_zero_of_pos L hL
  have hmy : windowMeanY data t_end L = alpha + beta * windowMeanX data t_end L := by
    rw [windowMeanY, windowMeanX, Finset.sum_congr rfl hline, Finset.sum_add_distrib,
      Finset.sum_const, nsmul_eq_mul, window_card t_end L hL, ← Finset.mul_sum]
    field_simp
    ring
  have hnum : centredCross data t_end L = beta * centredSumSq data t_end L := by
    rw [centredCross, centredSumSq, Finset.mul_sum]
    apply Finset.sum_congr rfl
    intro i hi
    rw [hline i hi, hmy]
    ring
  have hden0 : centredSumSq data t_end L ≠ 0 := ne_of_gt (lt_trans eps_pos hden)
  have hols : rolling_ols_beta_alpha data t_end L = (alpha, beta) := by
    rw [rolling_ols_beta_alpha_eq, if_pos hden, hnum, mul_div_assoc, div_self hden0, mul_one,
      hmy]
    simp
  have hmem : t_end ∈ window t_end L := by
    simp only [window, Finset.mem_Icc]
    omega
  have hres : yAt data t_end - ((rolling_ols_beta_alpha data t_end L).1
      + (rolling_ols_beta_alpha data t_end L).2 * xAt data t_end) = 0 := by
    rw [hols, hline t_end hmem]
    simp
  refine ⟨hols, hres, ?_⟩
  intro cfg spread hcfg
  have h1 : t_end + 1 - 1 = t_end := by omega
  simp only [spreadAt, h1, hcfg, hres]
  by_cases c1 : t_end < 0
  · simp [vget, c1]
  · by_cases hlt : t_end.toNat < spread.length
    · simp [vget, vset, c1, List.getD, hlt]
    · have hge : (spread.set t_end.toNat 0).length ≤ t_end.toNat := by
        rw [List.length_set]; exact not_lt.1 hlt
      simp [vget, vset, c1, List.getD, List.getElem?_eq_none hge]

/-- Witness for claim C29: the three observations of `obsLine` lie on `y = 1 + 2 x`. -/
theorem ols_exact_recovery_witness :
    rolling_ols_beta_alpha (obsLine ℝ) 2 3 = (1, 2) :=
  (ols_exact_recovery (obsLine ℝ) 2 3 1 2 (by decide)
    (by
      intro i hi
      have hi2 : i = 0 ∨ i = 1 ∨ i = 2 := by
        simp only [window, Finset.mem_Icc] at hi
        omega
      rcases hi2 with rfl | rfl | rfl <;> simp [xAt, yAt, vget, obsLine] <;> norm_num)
    (by
      have hw : window 2 3 = {0, 1, 2} := by decide
      simp [centredSumSq, windowMeanX, hw, xAt, vget, obsLine]
      norm_num)).1

/-! ## Loop invariants -/

theorem loopFrom_ind {σ : Type} (body : σ → Int → σ) (Inv : Int → σ → Prop) (n : Nat) (i : Int)
    (s : σ) (h0 : Inv i s)
    (h : ∀ j : Int, i ≤ j → j < i + n → ∀ s, Inv j s → Inv (j + 1) (body s j)) :
    Inv (i + n) (loopFrom body n i s) := by
  induction n with
  | zero => simpa using h0
  | succ k ih =>
    rw [loopFrom_succ_last]
    have hk := ih (fun j hj1 hj2 s hs => h j hj1 (by push_cast; omega) s hs)
    have := h (i + k) (by omega) (by push_cast; omega) _ hk
    have e : i + (k : Int) + 1 = i + ((k + 1 : Nat) : Int) := by push_cast; ring
    rw [e] at this
    exact this

theorem loopFrom_inv {σ : Type} (body : σ → Int → σ) (Inv : σ → Prop) (n : Nat) (i : Int)
    (s : σ) (h0 : Inv s) (h : ∀ (s : σ) (j : Int), Inv s → Inv (body s j)) :
    Inv (loopFrom body n i s) :=
  loopFrom_ind body (fun _ s => Inv s) n i s h0 (fun j _ _ s hs => h s j hs)

theorem forLt_inv {σ : Type} (body : σ → Int → σ) (Inv : σ → Prop) (start stop : Int)
    (s : σ) (h0 : Inv s) (h : ∀ (s : σ) (j : Int), Inv s → Inv (body s j)) :
    Inv (forLt body start stop s) :=
  loopFrom_inv body Inv _ start s h0 h

theorem forLt_congr {σ : Type} (f g : σ → Int → σ) (start stop : Int) (s : σ)
    (h : ∀ j : Int, start ≤ j → j < stop → ∀ s, f s j = g s j) :
    forLt f start stop s = forLt g start stop s := by
  unfold forLt
  exact loopFrom_congr f g _ start s (fun j hj1 hj2 s => h j hj1 (by omega) s)

theorem forLe_congr {σ : Type} (f g : σ → Int → σ) (start stop : Int) (s : σ)
    (h : ∀ j : Int, start ≤ j → j ≤ stop → ∀ s, f s j = g s j) :
    forLe f start stop s = forLe g start stop s := by
  unfold forLe
  exact loopFrom_congr f g _ start s (fun j hj1 hj2 s => h j hj1 (by omega) s)

theorem forLe_succ {σ : Type} (body : σ → Int → σ) (start t : Int) (s : σ) (h : start ≤ t) :
    forLe body start t s = body (forLe body start (t - 1) s) t := by
  unfold forLe
  have h1 : (t - start + 1).toNat = (t - 1 - start + 1).toNat + 1 := by omega
  rw [h1, loopFrom_succ_last]
  have h2 : start + (((t - 1 - start + 1).toNat : Nat) : Int) = t := by omega
  rw [h2]

theorem forLt_eq_forLe {σ : Type} (body : σ → Int → σ) (start stop : Int) (s : σ) :
    forLt body start stop s = forLe body start (stop - 1) s := by
  unfold forLt forLe
  have h : (stop - start).toNat = (stop - 1 - start + 1).toNat := by omega
  rw [h]

theorem opensCount_eq {σ : Type} (body : σ → Int → σ) (isFlat : σ → Bool) (len : σ → Nat)
    (start : Int) (s0 : σ)
    (hstep : ∀ (s : σ) (i : Int),
      (isFlat s = true → len (body s i) = len s) ∧
      (isFlat s = false →
        (isFlat (body s i) = true ∧ len (body s i) = len s + 1) ∨
        (isFlat (body s i) = false ∧ len (body s i) = len s))) (n : Nat) :
    len (loopFrom body n start s0) + (if isFlat (loopFrom body n start s0) = true then 0 else 1)
      = len s0 + (if isFlat s0 = true then 0 else 1) + opensCount body isFlat start s0 n := by
  induction n with
  | zero => simp [loopFrom, opensCount]
  | succ k ih =>
    rw [opensCount]
    have hs := hstep (loopFrom body k start s0) (start + k)
    rw [← loopFrom_succ_last body k start s0] at hs
    cases hf : isFlat (loopFrom body k start s0) <;>
      cases hf1 : isFlat (loopFrom body (k + 1) start s0) <;>
      simp only [hf, hf1] at ih hs ⊢ <;> simp at ih hs ⊢ <;> omega

end Theorems

end Pairs

/-! # Theorems on the Bollinger-band reversion -/

namespace BB

section Theorems

variable {K : Type} [LinearOrderedField K]

theorem bb_mean_congr (c1 c2 : List K) (start stop : Int)
    (h : ∀ i : Int, i < stop → Pairs.vget 0 c1 i = Pairs.vget 0 c2 i) :
    mean c1 start stop = mean c2 start stop := by
  unfold mean
  rw [Pairs.forLt_congr _ (fun s i => s + Pairs.vget 0 c2 i) start stop 0
    (fun j _ hj s => by rw [h j hj])]

theorem bb_stdev_congr (sqrt : K → K) (c1 c2 : List K) (start stop : Int) (m : K)
    (h : ∀ i : Int, i < stop → Pairs.vget 0 c1 i = Pairs.vget 0 c2 i) :
    stdev sqrt c1 start stop m = stdev sqrt c2 start stop m := by
  unfold stdev
  rw [Pairs.forLt_congr _ (fun ss i => let d := Pairs.vget 0 c2 i - m; ss + d * d) start stop 0
    (fun j _ hj s => by rw [h j hj])]

theorem bb_bands_congr (sqrt : K → K) (cfg : Params K) (c1 c2 : List K) (t : Int)
    (h : ∀ i : Int, i < t → Pairs.vget 0 c1 i = Pairs.vget 0 c2 i) :
    bbUp sqrt cfg c1 t = bbUp sqrt cfg c2 t ∧ bbLo sqrt cfg c1 t = bbLo sqrt cfg c2 t := by
  simp only [bbUp, bbLo, bb_mean_congr c1 c2 (t - cfg.N_bb) t h,
    bb_stdev_congr sqrt c1 c2 (t - cfg.N_bb) t _ h, and_self]

theorem bb_step_congr (sqrt : K → K) (cfg : Params K) (c1 c2 : List K) (st : State K) (t : Int)
    (h : ∀ i : Int, i < t → Pairs.vget 0 c1 i = Pairs.vget 0 c2 i) :
    step sqrt cfg c1 st t = step sqrt cfg c2 st t := by
  have hb := bb_bands_congr sqrt cfg c1 c2 t h
  simp only [step, entryLogic, hb.1, hb.2, h (t - 1) (by omega)]

theorem bb_loopThrough_congr (sqrt : K → K) (cfg : Params K) (c1 c2 : List K) (t : Int)
    (h : ∀ i : Int, i < t → Pairs.vget 0 c1 i = Pairs.vget 0 c2 i) :
    loopThrough sqrt cfg c1 t = loopThrough sqrt cfg c2 t := by
  unfold loopThrough
  exact Pairs.forLe_congr _ _ _ t _ (fun j _ hj s =>
    bb_step_congr sqrt cfg c1 c2 s j (fun i hi => h i (by omega)))

/-- Claim C25. No lookahead in the Bollinger reversion: two close series of equal length
that agree on every index `≤ t - 1` give, at the loop step `t`, the same bands over
`[t - N_bb, t)`, the same state after the step (position, entry price and index, ledger)
and the same trades emitted by the step. -/
theorem bb_no_lookahead (sqrt : K → K) (cfg : Params K) (c1 c2 : List K) (t : Int)
    (_hlen : c1.length = c2.length) (_ht0 : cfg.N_bb + 1 ≤ t) (_htT : t < (c1.length : Int))
    (hagree : ∀ i : Nat, (i : Int) ≤ t - 1 → c1[i]? = c2[i]?) :
    mean c1 (t - cfg.N_bb) t = mean c2 (t - cfg.N_bb) t ∧
    bbUp sqrt cfg c1 t = bbUp sqrt cfg c2 t ∧
    bbLo sqrt cfg c1 t = bbLo sqrt cfg c2 t ∧
    (∀ st : State K, step sqrt cfg c1 st t = step sqrt cfg c2 st t) ∧
    loopThrough sqrt cfg c1 t = loopThrough sqrt cfg c2 t ∧
    emittedAt sqrt cfg c1 t = emittedAt sqrt cfg c2 t := by
  have hv : ∀ i : Int, i < t → Pairs.vget 0 c1 i = Pairs.vget 0 c2 i :=
    fun i hi => Pairs.vget_congr 0 c1 c2 (t - 1) hagree i (by omega)
  have hb := bb_bands_congr sqrt cfg c1 c2 t hv
  have hl := bb_loopThrough_congr sqrt cfg c1 c2 t hv
  have hl1 := bb_loopThrough_congr sqrt cfg c1 c2 (t - 1) (fun i hi => hv i (by omega))
  refine ⟨bb_mean_congr c1 c2 _ t hv, hb.1, hb.2, fun st => bb_step_congr sqrt cfg c1 c2 st t hv,
    hl, ?_⟩
  rw [emittedAt, emittedAt, hl, hl1]

/-! ## Steps, fills and the closing block -/

theorem bb_close_trade_sl_pnl (cfg : Params K) (st : State K) (h : st.pos ≠ PosState.FLAT) :
    (slPrice cfg st - st.entry) * ((st.pos.toInt : Int) : K) = -cfg.alphaSL * st.entry := by
  cases hp : st.pos with
  | FLAT => exact absurd hp h
  | LONG => simp [slPrice, hp, PosState.toInt]; ring
  | SHORT => simp [slPrice, hp, PosState.toInt]; ring

theorem bb_close_trade_tp_pnl (cfg : Params K) (st : State K) (h : st.pos ≠ PosState.FLAT) :
    (tpPrice cfg st - st.entry) * ((st.pos.toInt : Int) : K) = cfg.alphaTP * st.entry := by
  cases hp : st.pos with
  | FLAT => exact absurd hp h
  | LONG => simp [tpPrice, hp, PosState.toInt]; ring
  | SHORT => simp [tpPrice, hp, PosState.toInt]; ring

theorem bb_step_sl_first (sqrt : K → K) (cfg : Params K) (close : List K) (st : State K)
    (t : Int) (hu : cfg.useSLTP = true) (hpos : st.pos ≠ PosState.FLAT)
    (hsl : hitSL cfg st (Pairs.vget 0 close (t - 1)) = true) :
    step sqrt cfg close st t = close_trade st (t - 1) (slPrice cfg st) "SL" := by
  simp [step, hu, hpos, hsl]

theorem bb_step_flat (sqrt : K → K) (cfg : Params K) (close : List K) (st : State K) (t : Int)
    (hpos : st.pos = PosState.FLAT) : (step sqrt cfg close st t).trades = st.trades := by
  simp only [step, entryLogic, hpos, ne_eq, not_true_eq_false, and_false, if_false, if_true]
  split_ifs <;> rfl

theorem bb_step_held (sqrt : K → K) (cfg : Params K) (close : List K) (st : State K) (t : Int)
    (hpos : st.pos ≠ PosState.FLAT) :
    ((step sqrt cfg close st t).pos = PosState.FLAT ∧
      (step sqrt cfg close st t).trades.length = st.trades.length + 1) ∨
    ((step sqrt cfg close st t).pos ≠ PosState.FLAT ∧
      (step sqrt cfg close st t).trades = st.trades) := by
  simp only [step, entryLogic, hpos, if_false]
  split_ifs
  · exact Or.inl ⟨rfl, by simp [close_trade]⟩
  · exact Or.inl ⟨rfl, by simp [close_trade]⟩
  · exact Or.inr ⟨hpos, rfl⟩
  · exact Or.inr ⟨hpos, rfl⟩

theorem bb_close_trade_fills_sl (cfg : Params K) (st : State K) (idx : Int)
    (hpos : st.pos ≠ PosState.FLAT) (h : FillsAtLevel cfg st) :
    FillsAtLevel cfg (close_trade st idx (slPrice cfg st) "SL") := by
  intro tr htr
  simp only [close_trade] at htr
  rcases List.mem_append.1 htr with htr | htr
  · exact h tr htr
  · rw [List.mem_singleton.1 htr]
    exact ⟨fun _ => bb_close_trade_sl_pnl cfg st hpos, fun hr => by simp at hr⟩

theorem bb_close_trade_fills_tp (cfg : Params K) (st : State K) (idx : Int)
    (hpos : st.pos ≠ PosState.FLAT) (h : FillsAtLevel cfg st) :
    FillsAtLevel cfg (close_trade st idx (tpPrice cfg st) "TP") := by
  intro tr htr
  simp only [close_trade] at htr
  rcases List.mem_append.1 htr with htr | htr
  · exact h tr htr
  · rw [List.mem_singleton.1 htr]
    exact ⟨fun hr => by simp at hr, fun _ => bb_close_trade_tp_pnl cfg st hpos⟩

theorem bb_step_fills (sqrt : K → K) (cfg : Params K) (close : List K) (st : State K) (t : Int)
    (h : FillsAtLevel cfg st) : FillsAtLevel cfg (step sqrt cfg close st t) := by
  simp only [step, entryLogic]
  split_ifs with c1 c2 c3
  · exact bb_close_trade_fills_sl cfg st _ c1.2 h
  · exact bb_close_trade_fills_tp cfg st _ c1.2 h
  all_goals exact h

theorem bb_closeAtEnd_fills (cfg : Params K) (close : List K) (st : State K)
    (h : FillsAtLevel cfg st) : FillsAtLevel cfg (closeAtEnd close st) := by
  unfold closeAtEnd
  split_ifs
  · intro tr htr
    simp only [close_trade] at htr
    rcases List.mem_append.1 htr with htr | htr
    · exact h tr htr
    · rw [List.mem_singleton.1 htr]
      exact ⟨fun hr => by simp at hr, fun hr => by simp at hr⟩
  · exact h

theorem bb_run_fills (sqrt : K → K) (cfg : Params K) (close : List K) :
    FillsAtLevel cfg (run sqrt cfg close) := by
  apply bb_closeAtEnd_fills
  exact Pairs.forLt_inv _ (FillsAtLevel cfg) _ _ _ (by intro tr htr; simp [initState] at htr)
    (fun s j hs => bb_step_fills sqrt cfg close s j hs)

theorem bb_runLoop_count (sqrt : K → K) (cfg : Params K) (close : List K) :
    (runLoop sqrt cfg close).trades.length
        + (if (runLoop sqrt cfg close).pos = PosState.FLAT then 0 else 1)
      = opened sqrt cfg close := by
  have h := Pairs.opensCount_eq (step sqrt cfg close)
    (fun st => decide (st.pos = PosState.FLAT)) (fun st => st.trades.length) (cfg.N_bb + 1)
    initState
    (fun s i => by
      constructor
      · intro hf
        simp only [decide_eq_true_eq] at hf
        show (step sqrt cfg close s i).trades.length = s.trades.length
        rw [bb_step_flat sqrt cfg close s i hf]
      · intro hf
        simp only [decide_eq_false_iff_not] at hf
        rcases bb_step_held sqrt cfg close s i hf with h1 | h1
        · exact Or.inl ⟨by simp [h1.1], h1.2⟩
        · exact Or.inr ⟨by simp [h1.1], by
            show (step sqrt cfg close s i).trades.length = s.trades.length
            rw [h1.2]⟩)
    ((close.length : Int) - (cfg.N_bb + 1)).toNat
  simpa [runLoop, opened, Pairs.forLt, initState] using h

theorem bb_run_eod (sqrt : K → K) (cfg : Params K) (close : List K) :
    (run sqrt cfg close).pos = PosState.FLAT ∧
    (run sqrt cfg close).trades.length = opened sqrt cfg close ∧
    ((runLoop sqrt cfg close).pos = PosState.FLAT →
      run sqrt cfg close = runLoop sqrt cfg close) ∧
    ((runLoop sqrt cfg close).pos ≠ PosState.FLAT →
      ∃ tr, (run sqrt cfg close).trades = (runLoop sqrt cfg close).trades ++ [tr] ∧
        tr.entry_idx = (runLoop sqrt cfg close).entry_idx ∧
        tr.side = (runLoop sqrt cfg close).pos ∧
        tr.exit_idx = (close.length : Int) - 1 ∧
        tr.exit_px = Pairs.vget 0 close ((close.length : Int) - 1) ∧
        tr.reason = "EOD") := by
  have hc := bb_runLoop_count sqrt cfg close
  by_cases hf : (runLoop sqrt cfg close).pos = PosState.FLAT
  · have hr : run sqrt cfg close = runLoop sqrt cfg close := by
      simp [run, closeAtEnd, hf]
    rw [hr]
    simp only [hf, if_true, add_zero] at hc
    exact ⟨hf, hc, fun _ => rfl, fun hn => absurd hf hn⟩
  · simp only [hf, if_false] at hc
    refine ⟨by simp [run, closeAtEnd, hf, close_trade],
      by simp [run, closeAtEnd, hf, close_trade]; exact hc, fun h => absurd h hf, fun _ => ?_⟩
    exact ⟨_, by simp [run, closeAtEnd, hf, close_trade]; rfl, rfl, rfl, rfl, rfl, rfl⟩

/-! ## Concrete runs -/

theorem bb_bands_head (rest : List ℝ) :
    bbUp Real.sqrt (cfgTwo : Params ℝ) (10 :: 10 :: 12 :: rest) 3 = 23 / 2 ∧
    bbLo Real.sqrt (cfgTwo : Params ℝ) (10 :: 10 :: 12 :: rest) 3 = 21 / 2 := by
  have h1 : mean (10 :: 10 :: 12 :: rest : List ℝ) (3 - 2) 3 = 11 := by
    simp [mean, Pairs.forLt, Pairs.loopFrom, Pairs.vget]
    norm_num
  have h2 : stdev Real.sqrt (10 :: 10 :: 12 :: rest : List ℝ) (3 - 2) 3 11 = 1 := by
    simp [stdev, Pairs.forLt, Pairs.loopFrom, Pairs.vget]
    norm_num
  constructor
  · simp only [bbUp, cfgTwo, h1, h2]; norm_num
  · simp only [bbLo, cfgTwo, h1, h2]; norm_num

theorem bb_step_head (rest : List ℝ) :
    step Real.sqrt (cfgTwo : Params ℝ) (10 :: 10 :: 12 :: rest) initState 3 = heldShort := by
  have hb := (bb_bands_head rest).1
  have hv : Pairs.vget (0 : ℝ) (10 :: 10 :: 12 :: rest) (3 - 1) = 12 := by
    simp [Pairs.vget]
  simp only [step, entryLogic, hb, hv, initState]
  norm_num [open_trade, heldShort]

theorem bb_runLoop_closeOpen :
    runLoop Real.sqrt (cfgTwo : Params ℝ) closeOpen = heldShort := by
  have h := bb_step_head [12]
  simp only [runLoop, closeOpen, Pairs.forLt, Pairs.loopFrom, cfgTwo] at h ⊢
  simpa [Pairs.loopFrom, cfgTwo] using h

theorem bb_run_closeOpen :
    run Real.sqrt (cfgTwo : Params ℝ) closeOpen
      = { pos := PosState.FLAT, entry := 0, entry_idx := -1, trades := [tradeEod] } := by
  rw [run, bb_runLoop_closeOpen]
  simp [closeAtEnd, heldShort, close_trade, closeOpen, Pairs.vget, tradeEod, PosState.toInt]

theorem bb_step_stop :
    step Real.sqrt (cfgTwo : Params ℝ) closeStop heldShort 4
      = { pos := PosState.FLAT, entry := 0, entry_idx := -1, trades := [tradeStop] } := by
  have hsl : hitSL (cfgTwo : Params ℝ) heldShort (Pairs.vget 0 closeStop (4 - 1)) = true := by
    simp [hitSL, slPrice, heldShort, cfgTwo, closeStop, Pairs.vget, PosState.toInt]
    norm_num
  rw [bb_step_sl_first Real.sqrt cfgTwo closeStop heldShort 4 rfl (by simp [heldShort]) hsl]
  simp [close_trade, slPrice, heldShort, cfgTwo, tradeStop, PosState.toInt]
  norm_num

theorem bb_run_closeStop :
    run Real.sqrt (cfgTwo : Params ℝ) closeStop
      = { pos := PosState.FLAT, entry := 0, entry_idx := -1, trades := [tradeStop] } := by
  have h3 := bb_step_head [15, 15]
  have hl : runLoop Real.sqrt (cfgTwo : Params ℝ) closeStop
      = step Real.sqrt cfgTwo closeStop (step Real.sqrt cfgTwo closeStop initState 3) 4 := by
    simp [runLoop, closeStop, Pairs.forLt, Pairs.loopFrom, cfgTwo]
  have h3b : step Real.sqrt (cfgTwo : Params ℝ) closeStop initState 3 = heldShort := h3
  rw [run, hl, h3b, bb_step_stop]
  simp [closeAtEnd]

/-- Witness for claim C25: `closeOpen` and `closeLate` differ only at the index 3 and give the
same bands, the same step and the same emitted trades at `t = 3`. -/
theorem bb_no_lookahead_witness :
    (closeOpen : List ℝ) ≠ closeLate ∧
    bbUp Real.sqrt (cfgTwo : Params ℝ) closeOpen 3 = bbUp Real.sqrt cfgTwo closeLate 3 ∧
    step Real.sqrt (cfgTwo : Params ℝ) closeOpen initState 3
      = step Real.sqrt cfgTwo closeLate initState 3 ∧
    emittedAt Real.sqrt (cfgTwo : Params ℝ) closeOpen 3
      = emittedAt Real.sqrt cfgTwo closeLate 3 := by
  have h := bb_no_lookahead Real.sqrt (cfgTwo : Params ℝ) closeOpen closeLate 3 rfl
    (by simp [cfgTwo]) (by simp [closeOpen])
    (by
      intro i hi
      have hi2 : i ≤ 2 := by omega
      interval_cases i <;> simp [closeOpen, closeLate])
  refine ⟨by simp [closeOpen, closeLate], h.2.1, h.2.2.2.1 initState, h.2.2.2.2.2⟩

end Theorems

end BB

/-! # Theorems on the ATR expansion breakout -/

namespace ATR

section Theorems

variable {K : Type} [LinearOrderedField K]

theorem atr_close_pos_sl_pnl (cfg : Params K) (st : State K) (h : st.pos ≠ PosState.FLAT) :
    (slPrice cfg st - st.entry) * ((st.pos.toInt : Int) : K) = -cfg.alphaSL * st.entry := by
  cases hp : st.pos with
  | FLAT => exact absurd hp h
  | LONG => simp [slPrice, hp, PosState.toInt]; ring
  | SHORT => simp [slPrice, hp, PosState.toInt]; ring

theorem atr_close_pos_tp_pnl (cfg : Params K) (st : State K) (h : st.pos ≠ PosState.FLAT) :
    (tpPrice cfg st - st.entry) * ((st.pos.toInt : Int) : K) = cfg.alphaTP * st.entry := by
  cases hp : st.pos with
  | FLAT => exact absurd hp h
  | LONG => simp [tpPrice, hp, PosState.toInt]; ring
  | SHORT => simp [tpPrice, hp, PosState.toInt]; ring

theorem atr_step_sl_first (cfg : Params K) (bars : List (Bar K)) (atr : List K × List K)
    (st : State K) (t : Int) (hu : cfg.useSLTP = true) (hpos : st.pos ≠ PosState.FLAT)
    (hsl : hitSL cfg st (barAt bars (t - 1)) = true) :
    step cfg bars atr st t = close_pos st (t - 1) (slPrice cfg st) "SL" := by
  simp [step, hu, hpos, hsl]

theorem atr_step_flat (cfg : Params K) (bars : List (Bar K)) (atr : List K × List K)
    (st : State K) (t : Int) (hpos : st.pos = PosState.FLAT) :
    (step cfg bars atr st t).trades = st.trades := by
  simp only [step, signalLogic, hpos, ne_eq, not_true_eq_false, and_false, if_false]
  split_ifs <;> rfl

theorem atr_step_held (cfg : Params K) (bars : List (Bar K)) (atr : List K × List K)
    (st : State K) (t : Int) (hpos : st.pos ≠ PosState.FLAT) :
    ((step cfg bars atr st t).pos = PosState.FLAT ∧
      (step cfg bars atr st t).trades.length = st.trades.length + 1) ∨
    ((step cfg bars atr st t).pos ≠ PosState.FLAT ∧
      (step cfg bars atr st t).trades = st.trades) := by
  simp only [step, signalLogic, hpos, false_and, if_false]
  split_ifs
  · exact Or.inl ⟨rfl, by simp [close_pos]⟩
  · exact Or.inl ⟨rfl, by simp [close_pos]⟩
  · exact Or.inr ⟨hpos, rfl⟩
  · exact Or.inr ⟨hpos, rfl⟩

theorem atr_close_pos_fills_sl (cfg : Params K) (st : State K) (idx : Int)
    (hpos : st.pos ≠ PosState.FLAT) (h : FillsAtLevel cfg st) :
    FillsAtLevel cfg (close_pos st idx (slPrice cfg st) "SL") := by
  intro tr htr
  simp only [close_pos] at htr
  rcases List.mem_append.1 htr with htr | htr
  · exact h tr htr
  · rw [List.mem_singleton.1 htr]
    exact ⟨fun _ => atr_close_pos_sl_pnl cfg st hpos, fun hr => by simp at hr⟩

theorem atr_close_pos_fills_tp (cfg : Params K) (st : State K) (idx : Int)
    (hpos : st.pos ≠ PosState.FLAT) (h : FillsAtLevel cfg st) :
    FillsAtLevel cfg (close_pos st idx (tpPrice cfg st) "TP") := by
  intro tr htr
  simp only [close_pos] at htr
  rcases List.mem_append.1 htr with htr | htr
  · exact h tr htr
  · rw [List.mem_singleton.1 htr]
    exact ⟨fun hr => by simp at hr, fun _ => atr_close_pos_tp_pnl cfg st hpos⟩

theorem atr_step_fills (cfg : Params K) (bars : List (Bar K)) (atr : List K × List K)
    (st : State K) (t : Int) (h : FillsAtLevel cfg st) :
    FillsAtLevel cfg (step cfg bars atr st t) := by
  simp only [step, signalLogic]
  split_ifs with c1 c2 c3
  · exact atr_close_pos_fills_sl cfg st _ c1.2 h
  · exact atr_close_pos_fills_tp cfg st _ c1.2 h
  all_goals exact h

theorem atr_closeAtEnd_fills (cfg : Params K) (bars : List (Bar K)) (st : State K)
    (h : FillsAtLevel cfg st) : FillsAtLevel cfg (closeAtEnd bars st) := by
  unfold closeAtEnd
  split_ifs
  · intro tr htr
    simp only [close_pos] at htr
    rcases List.mem_append.1 htr with htr | htr
    · exact h tr htr
    · rw [List.mem_singleton.1 htr]
      exact ⟨fun hr => by simp at hr, fun hr => by simp at hr⟩
  · exact h

theorem atr_run_fills (cfg : Params K) (bars : List (Bar K)) :
    FillsAtLevel cfg (run cfg bars) := by
  apply atr_closeAtEnd_fills
  exact Pairs.forLt_inv _ (FillsAtLevel cfg) _ _ _ (by intro tr htr; simp [initState] at htr)
    (fun s j hs => atr_step_fills cfg bars _ s j hs)

theorem atr_runLoop_count (cfg : Params K) (bars : List (Bar K)) :
    (runLoop cfg bars).trades.length
        + (if (runLoop cfg bars).pos = PosState.FLAT then 0 else 1)
      = opened cfg bars := by
  have h := Pairs.opensCount_eq (step cfg bars (atrSeries cfg bars))
    (fun st => decide (st.pos = PosState.FLAT)) (fun st => st.trades.length) (cfg.atrSlow + 2)
    initState
    (fun s i => by
      constructor
      · intro hf
        simp only [decide_eq_true_eq] at hf
        show (step cfg bars (atrSeries cfg bars) s i).trades.length = s.trades.length
        rw [atr_step_flat cfg bars _ s i hf]
      · intro hf
        simp only [decide_eq_false_iff_not] at hf
        rcases atr_step_held cfg bars (atrSeries cfg bars) s i hf with h1 | h1
        · exact Or.inl ⟨by simp [h1.1], h1.2⟩
        · exact Or.inr ⟨by simp [h1.1], by
            show (step cfg bars (atrSeries cfg bars) s i).trades.length = s.trades.length
            rw [h1.2]⟩)
    ((bars.length : Int) - (cfg.atrSlow + 2)).toNat
  simpa [runLoop, opened, Pairs.forLt, initState] using h

theorem atr_run_eod (cfg : Params K) (bars : List (Bar K)) :
    (run cfg bars).pos = PosState.FLAT ∧
    (run cfg bars).trades.length = opened cfg bars ∧
    ((runLoop cfg bars).pos = PosState.FLAT → run cfg bars = runLoop cfg bars) ∧
    ((runLoop cfg bars).pos ≠ PosState.FLAT →
      ∃ tr, (run cfg bars).trades = (runLoop cfg bars).trades ++ [tr] ∧
        tr.entry_idx = (runLoop cfg bars).entry_idx ∧
        tr.side = (runLoop cfg bars).pos ∧
        tr.exit_idx = (bars.length : Int) - 1 ∧
        tr.exit_px = (barAt bars ((bars.length : Int) - 1)).close ∧
        tr.reason = "EOD") := by
  have hc := atr_runLoop_count cfg bars
  by_cases hf : (runLoop cfg bars).pos = PosState.FLAT
  · have hr : run cfg bars = runLoop cfg bars := by
      simp [run, closeAtEnd, hf]
    rw [hr]
    simp only [hf, if_true, add_zero] at hc
    exact ⟨hf, hc, fun _ => rfl, fun hn => absurd hf hn⟩
  · simp only [hf, if_false] at hc
    refine ⟨by simp [run, closeAtEnd, hf, close_pos],
      by simp [run, closeAtEnd, hf, close_pos]; exact hc, fun h => absurd h hf, fun _ => ?_⟩
    exact ⟨_, by simp [run, closeAtEnd, hf, close_pos]; rfl, rfl, rfl, rfl, rfl, rfl⟩

end Theorems

end ATR

/-! # Theorems on the London breakout -/

namespace London

section Theorems

variable {K : Type} [LinearOrderedField K]

theorem london_close_pos_sl_pnl (cfg : Params K) (st : State K)
    (h : st.pos ≠ PosState.FLAT) :
    (slPrice cfg st - st.entry) * ((st.pos.toInt : Int) : K) = -cfg.alphaSL * st.entry := by
  cases hp : st.pos with
  | FLAT => exact absurd hp h
  | LONG => simp [slPrice, hp, PosState.toInt]; ring
  | SHORT => simp [slPrice, hp, PosState.toInt]; ring

theorem london_close_pos_tp_pnl (cfg : Params K) (st : State K)
    (h : st.pos ≠ PosState.FLAT) :
    (tpPrice cfg st - st.entry) * ((st.pos.toInt : Int) : K) = cfg.alphaTP * st.entry := by
  cases hp : st.pos with
  | FLAT => exact absurd hp h
  | LONG => simp [tpPrice, hp, PosState.toInt]; ring
  | SHORT => simp [tpPrice, hp, PosState.toInt]; ring

theorem london_barStep_sl_first (cfg : Params K) (bars : List (Bar K)) (d bi : Int)
    (st : State K) (hu : cfg.useSLTP = true) (hpos : st.pos ≠ PosState.FLAT)
    (hsl : hitSL cfg st (barAt bars (d * cfg.bars_per_day + bi)) = true) :
    barStep cfg bars d (st, false) bi
      = (close_pos st d (d * cfg.bars_per_day + bi) (slPrice cfg st) "SL", true) := by
  simp [barStep, hu, hpos, hsl]

theorem london_barStep_flat (cfg : Params K) (bars : List (Bar K)) (d bi : Int)
    (st : State K) (hpos : st.pos = PosState.FLAT) :
    barStep cfg bars d (st, false) bi
      = (pendingLogic st d (d * cfg.bars_per_day + bi)
          (barAt bars (d * cfg.bars_per_day + bi)), false) := by
  simp [barStep, hpos]

theorem london_pendingLogic_trades (st : State K) (d t : Int) (b : Bar K) :
    (pendingLogic st d t b).trades = st.trades := by
  simp only [pendingLogic]
  split_ifs <;> rfl

theorem london_pendingLogic_held (st : State K) (d t : Int) (b : Bar K)
    (h : st.pos ≠ PosState.FLAT) : pendingLogic st d t b = st := by
  simp [pendingLogic, h]

theorem london_pendingLogic_cases (st : State K) (d t : Int) (b : Bar K)
    (h : st.pos = PosState.FLAT) :
    pendingLogic st d t b = st ∨
    ((pendingLogic st d t b).pos ≠ PosState.FLAT ∧ (pendingLogic st d t b).entry_idx = t ∧
      (pendingLogic st d t b).trades = st.trades) := by
  simp only [pendingLogic, h, if_true]
  split_ifs
  all_goals first
    | exact Or.inl rfl
    | exact Or.inr ⟨by simp [open_pos], rfl, rfl⟩

theorem london_barStep_stopped (cfg : Params K) (bars : List (Bar K)) (d bi : Int)
    (st : State K) : barStep cfg bars d (st, true) bi = (st, true) := by
  simp [barStep]

theorem london_barStep_cases (cfg : Params K) (bars : List (Bar K)) (d bi : Int)
    (st : State K) :
    (st.pos ≠ PosState.FLAT ∧ barStep cfg bars d (st, false) bi
      = (close_pos st d (d * cfg.bars_per_day + bi) (slPrice cfg st) "SL", true)) ∨
    (st.pos ≠ PosState.FLAT ∧ barStep cfg bars d (st, false) bi
      = (close_pos st d (d * cfg.bars_per_day + bi) (tpPrice cfg st) "TP", true)) ∨
    barStep cfg bars d (st, false) bi
      = (pendingLogic st d (d * cfg.bars_per_day + bi)
          (barAt bars (d * cfg.bars_per_day + bi)), false) := by
  by_cases hc : cfg.useSLTP = true ∧ st.pos ≠ PosState.FLAT
  · by_cases hsl : hitSL cfg st (barAt bars (d * cfg.bars_per_day + bi)) = true
    · exact Or.inl ⟨hc.2, by simp [barStep, hc, hsl]⟩
    · by_cases htp : hitTP cfg st (barAt bars (d * cfg.bars_per_day + bi)) = true
      · exact Or.inr (Or.inl ⟨hc.2, by simp [barStep, hc, hsl, htp]⟩)
      · exact Or.inr (Or.inr (by simp [barStep, hc, hsl, htp]))
  · exact Or.inr (Or.inr (by simp only [barStep, hc, if_false]; simp))

theorem london_close_fills_sl (cfg : Params K) (st : State K) (d idx : Int)
    (hpos : st.pos ≠ PosState.FLAT) (h : FillsAtLevel cfg st) :
    FillsAtLevel cfg (close_pos st d idx (slPrice cfg st) "SL") := by
  intro tr htr
  simp only [close_pos] at htr
  rcases List.mem_append.1 htr with htr | htr
  · exact h tr htr
  · rw [List.mem_singleton.1 htr]
    exact ⟨fun _ => london_close_pos_sl_pnl cfg st hpos, fun hr => by simp at hr⟩

theorem london_close_fills_tp (cfg : Params K) (st : State K) (d idx : Int)
    (hpos : st.pos ≠ PosState.FLAT) (h : FillsAtLevel cfg st) :
    FillsAtLevel cfg (close_pos st d idx (tpPrice cfg st) "TP") := by
  intro tr htr
  simp only [close_pos] at htr
  rcases List.mem_append.1 htr with htr | htr
  · exact h tr htr
  · rw [List.mem_singleton.1 htr]
    exact ⟨fun hr => by simp at hr, fun _ => london_close_pos_tp_pnl cfg st hpos⟩

theorem london_barStep_fills (cfg : Params K) (bars : List (Bar K)) (d : Int)
    (s : State K × Bool) (bi : Int) (h : FillsAtLevel cfg s.1) :
    FillsAtLevel cfg (barStep cfg bars d s bi).1 := by
  obtain ⟨st, flag⟩ := s
  cases flag with
  | true => rw [london_barStep_stopped]; exact h
  | false =>
    rcases london_barStep_cases cfg bars d bi st with ⟨hp, he⟩ | ⟨hp, he⟩ | he
    · rw [he]; exact london_close_fills_sl cfg st d _ hp h
    · rw [he]; exact london_close_fills_tp cfg st d _ hp h
    · rw [he]
      intro tr htr
      rw [london_pendingLogic_trades] at htr
      exact h tr htr

theorem london_sessionClose_fills (cfg : Params K) (bars : List (Bar K)) (st : State K)
    (d : Int) (h : FillsAtLevel cfg st) : FillsAtLevel cfg (sessionClose cfg bars st d) := by
  simp only [sessionClose]
  split_ifs
  · intro tr htr
    simp only [close_pos] at htr
    rcases List.mem_append.1 htr with htr | htr
    · exact h tr htr
    · rw [List.mem_singleton.1 htr]
      exact ⟨fun hr => by simp at hr, fun hr => by simp at hr⟩
  · exact h

theorem london_dayStep_fills (cfg : Params K) (bars : List (Bar K)) (st : State K) (d : Int)
    (h : FillsAtLevel cfg st) : FillsAtLevel cfg (dayStep cfg bars st d) := by
  have h1 : FillsAtLevel cfg (placeOrders cfg bars st d) := by
    unfold placeOrders
    split_ifs
    · exact h
    · exact h
  have h2 : FillsAtLevel cfg (sessionBefore cfg bars st d cfg.london_close_bar).1 :=
    Pairs.forLt_inv (barStep cfg bars d) (fun s => FillsAtLevel cfg s.1) _ _ _ h1
      (fun s j hs => london_barStep_fills cfg bars d s j hs)
  exact london_sessionClose_fills cfg bars _ d h2

theorem london_run_fills (cfg : Params K) (bars : List (Bar K)) :
    FillsAtLevel cfg (run cfg bars) :=
  Pairs.forLt_inv (dayStep cfg bars) (FillsAtLevel cfg) _ _ _
    (by intro tr htr; simp [initState] at htr)
    (fun s j hs => london_dayStep_fills cfg bars s j hs)

/-! ## Session and day invariants -/

theorem london_close_pos_spec (st : State K) (d idx : Int) (px : K) (r : String) :
    (close_pos st d idx px r).pos = PosState.FLAT ∧
    (close_pos st d idx px r).pending_buy = st.pending_buy ∧
    (close_pos st d idx px r).pending_sell = st.pending_sell ∧
    ∃ tr, (close_pos st d idx px r).trades = st.trades ++ [tr] ∧ tr.day = d ∧
      tr.entry_idx = st.entry_idx ∧ tr.exit_idx = idx :=
  ⟨rfl, rfl, rfl, _, rfl, rfl, rfl, rfl⟩

theorem london_sessInv_step (cfg : Params K) (bars : List (Bar K)) (d : Int)
    (trades0 : List (Trade K)) (j : Int) (hj : cfg.london_open_bar ≤ j) (s : State K × Bool)
    (h : SessInv cfg d trades0 j s) : SessInv cfg d trades0 (j + 1) (barStep cfg bars d s j) := by
  obtain ⟨st, flag⟩ := s
  rcases h with ⟨hf, hp, ht⟩ | ⟨hf, hp, ht, he1, he2⟩ | ⟨hf, hp, tr, ht, hd, hi1, hi2, hi3⟩
  · simp only at hf hp ht
    subst hf
    rw [london_barStep_flat cfg bars d j st hp]
    rcases london_pendingLogic_cases st d (d * cfg.bars_per_day + j)
      (barAt bars (d * cfg.bars_per_day + j)) hp with he | ⟨h1, h2, h3⟩
    · rw [he]; exact Or.inl ⟨rfl, hp, ht⟩
    · refine Or.inr (Or.inl ⟨rfl, h1, by rw [h3]; exact ht, ?_, ?_⟩)
      · simp only [h2]; omega
      · simp only [h2]; omega
  · simp only at hf hp ht he1 he2
    subst hf
    rcases london_barStep_cases cfg bars d j st with ⟨_, he⟩ | ⟨_, he⟩ | he
    · rw [he]
      obtain ⟨hcp, _, _, tr, htr, h1, h2, h3⟩ :=
        london_close_pos_spec st d (d * cfg.bars_per_day + j) (slPrice cfg st) "SL"
      exact Or.inr (Or.inr ⟨rfl, hcp, tr, by rw [htr, ht], h1, by rw [h2]; exact he1,
        by rw [h2, h3]; omega, by rw [h3]; omega⟩)
    · rw [he]
      obtain ⟨hcp, _, _, tr, htr, h1, h2, h3⟩ :=
        london_close_pos_spec st d (d * cfg.bars_per_day + j) (tpPrice cfg st) "TP"
      exact Or.inr (Or.inr ⟨rfl, hcp, tr, by rw [htr, ht], h1, by rw [h2]; exact he1,
        by rw [h2, h3]; omega, by rw [h3]; omega⟩)
    · rw [he, london_pendingLogic_held st d _ _ hp]
      exact Or.inr (Or.inl ⟨rfl, hp, ht, he1, by simp only; omega⟩)
  · simp only at hf hp ht
    subst hf
    rw [london_barStep_stopped]
    exact Or.inr (Or.inr ⟨rfl, hp, tr, ht, hd, hi1, hi2, by omega⟩)

theorem london_sessInv_end (cfg : Params K) (bars : List (Bar K)) (st : State K) (d : Int)
    (hflat : st.pos = PosState.FLAT) :
    SessInv cfg d st.trades
      (cfg.london_open_bar + ((cfg.london_close_bar - cfg.london_open_bar).toNat : Int))
      (sessionBefore cfg bars st d cfg.london_close_bar) := by
  have h0 : SessInv cfg d st.trades cfg.london_open_bar (placeOrders cfg bars st d, false) := by
    refine Or.inl ⟨rfl, ?_, ?_⟩
    · simp [placeOrders, hflat]
    · simp [placeOrders, hflat]
  exact Pairs.loopFrom_ind (barStep cfg bars d) (SessInv cfg d st.trades) _ _ _ h0
    (fun j hj1 _ s hs => london_sessInv_step cfg bars d st.trades j hj1 s hs)

theorem london_dayInv_step (cfg : Params K) (bars : List (Bar K)) (st : State K) (d : Int)
    (hd : 0 ≤ d) (h : DayInv cfg d st) : DayInv cfg (d + 1) (dayStep cfg bars st d) := by
  obtain ⟨hflat, _, _, hcount, hdays, hled⟩ := h
  have hled1 : ∀ tr ∈ st.trades, 0 ≤ tr.day ∧ tr.day < d + 1 ∧
      InSession cfg tr.day cfg.london_close_bar tr := by
    intro tr htr
    have := hled tr htr
    exact ⟨this.1, by omega, this.2.2⟩
  have hnew : ∀ (s1 : State K) (tr : Trade K), s1.pos = PosState.FLAT →
      s1.pending_buy = false → s1.pending_sell = false → s1.trades = st.trades ++ [tr] →
      InSession cfg d cfg.london_close_bar tr → DayInv cfg (d + 1) s1 := by
    intro s1 tr hp hb hs ht hin
    refine ⟨hp, hb, hs, ?_, ?_, ?_⟩
    · rw [ht]
      simp only [List.length_append, List.length_singleton]
      push_cast
      omega
    · rw [ht, List.pairwise_append]
      refine ⟨hdays, List.pairwise_singleton _ _, ?_⟩
      intro a ha b hb
      rw [List.mem_singleton.1 hb, hin.1]
      exact (hled a ha).2.1
    · intro a ha
      rw [ht] at ha
      rcases List.mem_append.1 ha with ha | ha
      · exact hled1 a ha
      · rw [List.mem_singleton.1 ha]
        exact ⟨by rw [hin.1]; exact hd, by rw [hin.1]; omega, by rw [hin.1]; exact hin⟩
  have hs := london_sessInv_end cfg bars st d hflat
  unfold dayStep
  generalize sessionBefore cfg bars st d cfg.london_close_bar = s at hs ⊢
  obtain ⟨s1, flag⟩ := s
  simp only [sessionClose]
  rcases hs with ⟨_, hp, ht⟩ | ⟨_, hp, ht, he1, he2⟩ | ⟨_, hp, tr, ht, hin⟩
  · simp only at hp ht
    simp only [hp, ne_eq, not_true_eq_false, if_false]
    exact ⟨rfl, rfl, rfl, by rw [ht]; omega, by rw [ht]; exact hdays, by rw [ht]; exact hled1⟩
  · simp only at hp ht he1 he2
    simp only [ne_eq, hp, not_false_eq_true, if_true]
    obtain ⟨hcp, hb, hs, tr, htr, h1, h2, h3⟩ :=
      london_close_pos_spec
        ({ s1 with pending_buy := false, pending_sell := false } : State K) d
        (d * cfg.bars_per_day + (cfg.london_close_bar - 1))
        (barAt bars (d * cfg.bars_per_day + (cfg.london_close_bar - 1))).close "SessionClose"
    exact hnew _ tr hcp hb hs (by rw [htr]; simp only [ht]) ⟨h1, by rw [h2]; exact he1,
      by rw [h2, h3]; simp only; omega, by rw [h3]; omega⟩
  · simp only at hp ht
    simp only [hp, ne_eq, not_true_eq_false, if_false]
    obtain ⟨h1, h2, h3, h4⟩ := hin
    exact hnew _ tr rfl rfl rfl ht ⟨h1, h2, h3, by omega⟩

theorem london_dayInv_runDays (cfg : Params K) (bars : List (Bar K)) (d : Int) (hd : 0 ≤ d) :
    DayInv cfg d (runDays cfg bars d) := by
  have h0 : DayInv cfg 0 (initState : State K) := by
    constructor <;> simp [initState]
  have h := Pairs.loopFrom_ind (dayStep cfg bars) (DayInv cfg) (d - 0).toNat 0 initState h0
    (fun j hj1 _ s hs => london_dayInv_step cfg bars s j hj1 hs)
  have e : (0 : Int) + (((d - 0).toNat : Nat) : Int) = d := by omega
  rw [e] at h
  exact h

theorem london_pending_when_flat (cfg : Params K) (bars : List (Bar K)) (st0 : State K)
    (d bi : Int) :
    (sessionBefore cfg bars st0 d bi).2 = false →
    (sessionBefore cfg bars st0 d bi).1.pos = PosState.FLAT →
    (sessionBefore cfg bars st0 d bi).1.pending_buy = true ∧
    (sessionBefore cfg bars st0 d bi).1.pending_sell = true := by
  refine Pairs.forLt_inv (barStep cfg bars d)
    (fun s => s.2 = false → s.1.pos = PosState.FLAT →
      s.1.pending_buy = true ∧ s.1.pending_sell = true) _ _ _ ?_ ?_
  · intro _ hp
    by_cases h0 : st0.pos = PosState.FLAT
    · simp [placeOrders, h0]
    · simp [placeOrders, h0] at hp
  · intro s j hs
    obtain ⟨st, flag⟩ := s
    cases flag with
    | true => rw [london_barStep_stopped]; exact hs
    | false =>
      rcases london_barStep_cases cfg bars d j st with ⟨_, he⟩ | ⟨_, he⟩ | he
      · rw [he]; intro hf; simp at hf
      · rw [he]; intro hf; simp at hf
      · rw [he]
        intro _ hp
        by_cases h0 : st.pos = PosState.FLAT
        · rcases london_pendingLogic_cases st d (d * cfg.bars_per_day + j)
            (barAt bars (d * cfg.bars_per_day + j)) h0 with h1 | ⟨h1, _, _⟩
          · simp only [h1]; exact hs rfl h0
          · exact absurd hp h1
        · rw [london_pendingLogic_held st d _ _ h0] at hp
          exact absurd hp h0

/-! ## Claims on the London breakout -/

/-- Claim C24. Entry tie-break of the London breakout: at a session bar that starts flat
with both orders pending, if both levels are hit (`high ≥ buy_level` and `low ≤
sell_level`) a long is opened at `buy_level` exactly when `|open - buy_level| ≤ |open -
sell_level|` and a short at `sell_level` otherwise; if one level only is hit that side is
opened at its level; if none is hit nothing changes; every open sets the entry index to the
bar and cancels both pending orders. In a run, a session bar that starts flat has both
orders pending. -/
theorem london_entry_tiebreak (cfg : Params K) (bars : List (Bar K)) (d bi : Int)
    (st : State K) (hflat : st.pos = PosState.FLAT) (hpb : st.pending_buy = true)
    (hps : st.pending_sell = true) :
    ((barAt bars (d * cfg.bars_per_day + bi)).high ≥ st.buy_level ∧
        (barAt bars (d * cfg.bars_per_day + bi)).low ≤ st.sell_level →
      ((barStep cfg bars d (st, false) bi).1.pos = PosState.LONG ↔
        |(barAt bars (d * cfg.bars_per_day + bi)).opn - st.buy_level|
          ≤ |(barAt bars (d * cfg.bars_per_day + bi)).opn - st.sell_level|) ∧
      (|(barAt bars (d * cfg.bars_per_day + bi)).opn - st.buy_level|
          ≤ |(barAt bars (d * cfg.bars_per_day + bi)).opn - st.sell_level| →
        (barStep cfg bars d (st, false) bi).1
          = open_pos st d (d * cfg.bars_per_day + bi) PosState.LONG st.buy_level) ∧
      (¬ |(barAt bars (d * cfg.bars_per_day + bi)).opn - st.buy_level|
          ≤ |(barAt bars (d * cfg.bars_per_day + bi)).opn - st.sell_level| →
        (barStep cfg bars d (st, false) bi).1
          = open_pos st d (d * cfg.bars_per_day + bi) PosState.SHORT st.sell_level)) ∧
    ((barAt bars (d * cfg.bars_per_day + bi)).high ≥ st.buy_level ∧
        ¬ (barAt bars (d * cfg.bars_per_day + bi)).low ≤ st.sell_level →
      (barStep cfg bars d (st, false) bi).1
        = open_pos st d (d * cfg.bars_per_day + bi) PosState.LONG st.buy_level) ∧
    (¬ (barAt bars (d * cfg.bars_per_day + bi)).high ≥ st.buy_level ∧
        (barAt bars (d * cfg.bars_per_day + bi)).low ≤ st.sell_level →
      (barStep cfg bars d (st, false) bi).1
        = open_pos st d (d * cfg.bars_per_day + bi) PosState.SHORT st.sell_level) ∧
    (¬ (barAt bars (d * cfg.bars_per_day + bi)).high ≥ st.buy_level ∧
        ¬ (barAt bars (d * cfg.bars_per_day + bi)).low ≤ st.sell_level →
      (barStep cfg bars d (st, false) bi).1 = st) ∧
    (∀ (t : Int) (side : PosState) (px : K),
      (open_pos st d t side px).pos = side ∧ (open_pos st d t side px).entry = px ∧
      (open_pos st d t side px).entry_idx = t ∧
      (open_pos st d t side px).pending_buy = false ∧
      (open_pos st d t side px).pending_sell = false ∧
      (open_pos st d t side px).trades = st.trades) ∧
    (∀ (st0 : State K) (b0 : Int),
      (sessionBefore cfg bars st0 d b0).2 = false →
      (sessionBefore cfg bars st0 d b0).1.pos = PosState.FLAT →
      (sessionBefore cfg bars st0 d b0).1.pending_buy = true ∧
      (sessionBefore cfg bars st0 d b0).1.pending_sell = true) := by
  rw [london_barStep_flat cfg bars d bi st hflat]
  refine ⟨?_, ?_, ?_, ?_, fun t side px => ⟨rfl, rfl, rfl, rfl, rfl, rfl⟩,
    fun st0 b0 => london_pending_when_flat cfg bars st0 d b0⟩
  · rintro ⟨h1, h2⟩
    refine ⟨?_, ?_, ?_⟩
    · by_cases hd : |(barAt bars (d * cfg.bars_per_day + bi)).opn - st.buy_level|
          ≤ |(barAt bars (d * cfg.bars_per_day + bi)).opn - st.sell_level|
      · simp [pendingLogic, hflat, hitBuy, hitSell, hpb, hps, h1, h2, hd, open_pos]
      · simp [pendingLogic, hflat, hitBuy, hitSell, hpb, hps, h1, h2, hd, open_pos]
    · intro hd
      simp [pendingLogic, hflat, hitBuy, hitSell, hpb, hps, h1, h2, hd]
    · intro hd
      simp [pendingLogic, hflat, hitBuy, hitSell, hpb, hps, h1, h2, hd]
  · rintro ⟨h1, h2⟩
    simp [pendingLogic, hflat, hitBuy, hitSell, hpb, hps, h1, h2]
  · rintro ⟨h1, h2⟩
    simp [pendingLogic, hflat, hitBuy, hitSell, hpb, hps, h1, h2]
  · rintro ⟨h1, h2⟩
    simp [pendingLogic, hflat, hitBuy, hitSell, hpb, hps, h1, h2]

/-- Claim C28. The London breakout is flat overnight: after every day of the day loop the
position is `FLAT` and both pending orders are cancelled; after `d` days at most `d` trades
are recorded, with strictly increasing days (at most one per day), and the entry and exit
indices of every trade lie in the London session `[day * bars_per_day + london_open_bar,
day * bars_per_day + london_close_bar)` of the day stored in the trade. -/
theorem london_flat_overnight (cfg : Params K) (bars : List (Bar K)) (d : Int) (hd : 0 ≤ d) :
    (runDays cfg bars d).pos = PosState.FLAT ∧
    (runDays cfg bars d).pending_buy = false ∧
    (runDays cfg bars d).pending_sell = false ∧
    ((runDays cfg bars d).trades.length : Int) ≤ d ∧
    List.Pairwise (fun a b => a.day < b.day) (runDays cfg bars d).trades ∧
    (∀ tr ∈ (runDays cfg bars d).trades, 0 ≤ tr.day ∧ tr.day < d ∧
      tr.day * cfg.bars_per_day + cfg.london_open_bar ≤ tr.entry_idx ∧
      tr.entry_idx < tr.day * cfg.bars_per_day + cfg.london_close_bar ∧
      tr.day * cfg.bars_per_day + cfg.london_open_bar ≤ tr.exit_idx ∧
      tr.exit_idx < tr.day * cfg.bars_per_day + cfg.london_close_bar) ∧
    (d = cfg.days → run cfg bars = runDays cfg bars d) := by
  have h := london_dayInv_runDays cfg bars d hd
  refine ⟨h.flat, h.no_buy, h.no_sell, h.count, h.days, ?_, fun he => by rw [he]; rfl⟩
  intro tr htr
  obtain ⟨h1, h2, _, h3, h4, h5⟩ := h.led tr htr
  exact ⟨h1, h2, h3, by omega, by omega, h5⟩

/-! ## A concrete day -/

theorem london_asia_day :
    asiaRange (cfgDay : Params ℝ) barsDay 0 = (10, 5) := by
  simp [asiaRange, cfgDay, barsDay, barAt, Pairs.forLt, Pairs.loopFrom, Pairs.vget]
  norm_num

theorem london_place_day :
    placeOrders (cfgDay : Params ℝ) barsDay initState 0 = stPending := by
  have h := london_asia_day
  simp only [placeOrders, initState, stPending, h]
  simp [cfgDay]

theorem london_bar1_day :
    barStep (cfgDay : Params ℝ) barsDay 0 (stPending, false) 1
      = (open_pos stPending 0 1 PosState.LONG 10, false) := by
  rw [london_barStep_flat _ _ _ _ _ rfl]
  simp [pendingLogic, hitBuy, hitSell, stPending, cfgDay, barsDay, barAt, Pairs.vget]
  norm_num [abs_le, le_abs]

theorem london_bar2_day :
    barStep (cfgDay : Params ℝ) barsDay 0 (open_pos stPending 0 1 PosState.LONG 10, false) 2
      = (open_pos stPending 0 1 PosState.LONG 10, false) := by
  simp [barStep, pendingLogic, hitSL, hitTP, slPrice, tpPrice, open_pos, stPending, cfgDay,
    barsDay, barAt, Pairs.vget, PosState.toInt]
  norm_num

theorem london_run_day :
    (runDays (cfgDay : Params ℝ) barsDay 1).trades = [tradeDay] := by
  have hs : sessionBefore (cfgDay : Params ℝ) barsDay initState 0 3
      = (open_pos stPending 0 1 PosState.LONG 10, false) := by
    have : sessionBefore (cfgDay : Params ℝ) barsDay initState 0 3
        = barStep cfgDay barsDay 0 (barStep cfgDay barsDay 0
            (placeOrders cfgDay barsDay initState 0, false) 1) 2 := by
      simp [sessionBefore, Pairs.forLt, Pairs.loopFrom, cfgDay]
    rw [this, london_place_day, london_bar1_day, london_bar2_day]
  have hr : runDays (cfgDay : Params ℝ) barsDay 1 = dayStep cfgDay barsDay initState 0 := by
    simp [runDays, Pairs.forLt, Pairs.loopFrom]
  have hc : (cfgDay : Params ℝ).london_close_bar = 3 := rfl
  rw [hr, dayStep, hc, hs]
  simp [sessionClose, open_pos, close_pos, stPending, cfgDay, barsDay, barAt, Pairs.vget,
    tradeDay, PosState.toInt]

/-- Witness for claim C24: the bar 1 of `barsDay` hits both levels of `stPending` and opens
at 8, nearer to the buy level 10 than to the sell level 5, so a long is opened at 10. -/
theorem london_entry_tiebreak_witness :
    (barStep (cfgDay : Params ℝ) barsDay 0 (stPending, false) 1).1.pos = PosState.LONG ∧
    (barStep (cfgDay : Params ℝ) barsDay 0 (stPending, false) 1).1
      = open_pos stPending 0 (0 * (cfgDay : Params ℝ).bars_per_day + 1) PosState.LONG
          (stPending : State ℝ).buy_level := by
  have h := london_entry_tiebreak (cfgDay : Params ℝ) barsDay 0 1 stPending rfl rfl rfl
  have hb : (barAt (barsDay : List (Bar ℝ)) (0 * (cfgDay : Params ℝ).bars_per_day + 1)).high
        ≥ (stPending : State ℝ).buy_level ∧
      (barAt (barsDay : List (Bar ℝ)) (0 * (cfgDay : Params ℝ).bars_per_day + 1)).low
        ≤ (stPending : State ℝ).sell_level := by
    simp [barAt, barsDay, cfgDay, stPending, Pairs.vget]
    norm_num
  have hd : |(barAt (barsDay : List (Bar ℝ)) (0 * (cfgDay : Params ℝ).bars_per_day + 1)).opn
        - (stPending : State ℝ).buy_level|
      ≤ |(barAt (barsDay : List (Bar ℝ)) (0 * (cfgDay : Params ℝ).bars_per_day + 1)).opn
        - (stPending : State ℝ).sell_level| := by
    simp [barAt, barsDay, cfgDay, stPending, Pairs.vget]
    norm_num [abs_le, le_abs]
  exact ⟨((h.1 hb).1).2 hd, (h.1 hb).2.1 hd⟩

/-- Witness for claim C28: after the day of `barsDay` the state is flat with no pending order
and the ledger holds the single trade `tradeDay`. -/
theorem london_flat_overnight_witness :
    (0 : Int) ≤ 1 ∧
    (runDays (cfgDay : Params ℝ) barsDay 1).pos = PosState.FLAT ∧
    (runDays (cfgDay : Params ℝ) barsDay 1).pending_buy = false ∧
    (runDays (cfgDay : Params ℝ) barsDay 1).pending_sell = false ∧
    ((runDays (cfgDay : Params ℝ) barsDay 1).trades.length : Int) ≤ 1 ∧
    (runDays (cfgDay : Params ℝ) barsDay 1).trades = [tradeDay] :=
  ⟨by decide,
    (london_flat_overnight (cfgDay : Params ℝ) barsDay 1 (by decide)).1,
    (london_flat_overnight (cfgDay : Params ℝ) barsDay 1 (by decide)).2.1,
    (london_flat_overnight (cfgDay : Params ℝ) barsDay 1 (by decide)).2.2.1,
    (london_flat_overnight (cfgDay : Params ℝ) barsDay 1 (by decide)).2.2.2.1,
    london_run_day⟩

end Theorems

end London

/-! # Theorems on the moving-average crossover -/

namespace MACross

section Theorems

variable {K : Type} [LinearOrderedField K]

theorem ma_step_sl_first (cfg : Params K) (close : List K) (st : State K) (i : Int)
    (hu : cfg.useSLTP = true) (hpos : st.pos ≠ 0)
    (hsl : hitSL cfg st (Pairs.vget 0 close i) = true) :
    step cfg close st i = close_pos st i (slPrice cfg st) := by
  simp [step, hu, hpos, hsl]

end Theorems

end MACross

/-! # Claims on several strategies -/

namespace Siblings

section Theorems

variable {K : Type} [LinearOrderedField K]

/-- Claim C26. End-of-data close in the Bollinger reversion and in the ATR breakout: after
the run the position is `FLAT` and the ledger has as many trades as positions were opened
by the loop; a run whose loop ends flat adds nothing, and a position still open after the
last loop step is closed by one more trade, at the index `T - 1`, at the last close, with
the reason `"EOD"`. -/
theorem eod_close (sqrt : K → K) (bcfg : BB.Params K) (close : List K)
    (acfg : ATR.Params K) (bars : List (ATR.Bar K)) :
    ((BB.run sqrt bcfg close).pos = BB.PosState.FLAT ∧
      (BB.run sqrt bcfg close).trades.length = BB.opened sqrt bcfg close ∧
      ((BB.runLoop sqrt bcfg close).pos = BB.PosState.FLAT →
        BB.run sqrt bcfg close = BB.runLoop sqrt bcfg close) ∧
      ((BB.runLoop sqrt bcfg close).pos ≠ BB.PosState.FLAT →
        ∃ tr, (BB.run sqrt bcfg close).trades = (BB.runLoop sqrt bcfg close).trades ++ [tr] ∧
          tr.entry_idx = (BB.runLoop sqrt bcfg close).entry_idx ∧
          tr.side = (BB.runLoop sqrt bcfg close).pos ∧
          tr.exit_idx = (close.length : Int) - 1 ∧
          tr.exit_px = Pairs.vget 0 close ((close.length : Int) - 1) ∧
          tr.reason = "EOD")) ∧
    ((ATR.run acfg bars).pos = ATR.PosState.FLAT ∧
      (ATR.run acfg bars).trades.length = ATR.opened acfg bars ∧
      ((ATR.runLoop acfg bars).pos = ATR.PosState.FLAT →
        ATR.run acfg bars = ATR.runLoop acfg bars) ∧
      ((ATR.runLoop acfg bars).pos ≠ ATR.PosState.FLAT →
        ∃ tr, (ATR.run acfg bars).trades = (ATR.runLoop acfg bars).trades ++ [tr] ∧
          tr.entry_idx = (ATR.runLoop acfg bars).entry_idx ∧
          tr.side = (ATR.runLoop acfg bars).pos ∧
          tr.exit_idx = (bars.length : Int) - 1 ∧
          tr.exit_px = (ATR.barAt bars ((bars.length : Int) - 1)).close ∧
          tr.reason = "EOD")) :=
  ⟨BB.bb_run_eod sqrt bcfg close, ATR.atr_run_eod acfg bars⟩

/-- Claim C27. Stop-loss before take-profit in the four sibling strategies: when the risk
check is enabled, a position is open and both the stop-loss and the take-profit flags hold
for the price or bar checked, the loop body closes the position at the stop level: the
state is flat, exactly one trade is appended, its exit price is the stop level (hence not
the target level when the two differ) and its reason, where one is recorded, is `"SL"`. -/
theorem sl_before_tp (sqrt : K → K) :
    (∀ (cfg : MACross.Params K) (close : List K) (st : MACross.State K) (i : Int),
      cfg.useSLTP = true → st.pos ≠ 0 →
      MACross.hitSL cfg st (Pairs.vget 0 close i) = true →
      MACross.hitTP cfg st (Pairs.vget 0 close i) = true →
      (MACross.step cfg close st i).pos = 0 ∧
      ∃ tr, (MACross.step cfg close st i).trades = st.trades ++ [tr] ∧
        tr.exit = MACross.slPrice cfg st ∧ tr.exit_idx = i ∧ tr.side = st.pos ∧
        tr.entry = st.entry ∧
        (MACross.slPrice cfg st ≠ MACross.tpPrice cfg st → tr.exit ≠ MACross.tpPrice cfg st)) ∧
    (∀ (cfg : BB.Params K) (close : List K) (st : BB.State K) (t : Int),
      cfg.useSLTP = true → st.pos ≠ BB.PosState.FLAT →
      BB.hitSL cfg st (Pairs.vget 0 close (t - 1)) = true →
      BB.hitTP cfg st (Pairs.vget 0 close (t - 1)) = true →
      (BB.step sqrt cfg close st t).pos = BB.PosState.FLAT ∧
      ∃ tr, (BB.step sqrt cfg close st t).trades = st.trades ++ [tr] ∧
        tr.exit_px = BB.slPrice cfg st ∧ tr.reason = "SL" ∧ tr.exit_idx = t - 1 ∧
        tr.side = st.pos ∧ tr.entry_px = st.entry ∧
        (BB.slPrice cfg st ≠ BB.tpPrice cfg st → tr.exit_px ≠ BB.tpPrice cfg st)) ∧
    (∀ (cfg : London.Params K) (bars : List (London.Bar K)) (d bi : Int) (st : London.State K),
      cfg.useSLTP = true → st.pos ≠ London.PosState.FLAT →
      London.hitSL cfg st (London.barAt bars (d * cfg.bars_per_day + bi)) = true →
      London.hitTP cfg st (London.barAt bars (d * cfg.bars_per_day + bi)) = true →
      (London.barStep cfg bars d (st, false) bi).1.pos = London.PosState.FLAT ∧
      (London.barStep cfg bars d (st, false) bi).2 = true ∧
      ∃ tr, (London.barStep cfg bars d (st, false) bi).1.trades = st.trades ++ [tr] ∧
        tr.exit_px = London.slPrice cfg st ∧ tr.reason = "SL" ∧
        tr.exit_idx = d * cfg.bars_per_day + bi ∧ tr.side = st.pos ∧
        tr.entry_px = st.entry ∧
        (London.slPrice cfg st ≠ London.tpPrice cfg st →
          tr.exit_px ≠ London.tpPrice cfg st)) ∧
    (∀ (cfg : ATR.Params K) (bars : List (ATR.Bar K)) (atr : List K × List K)
        (st : ATR.State K) (t : Int),
      cfg.useSLTP = true → st.pos ≠ ATR.PosState.FLAT →
      ATR.hitSL cfg st (ATR.barAt bars (t - 1)) = true →
      ATR.hitTP cfg st (ATR.barAt bars (t - 1)) = true →
      (ATR.step cfg bars atr st t).pos = ATR.PosState.FLAT ∧
      ∃ tr, (ATR.step cfg bars atr st t).trades = st.trades ++ [tr] ∧
        tr.exit_px = ATR.slPrice cfg st ∧ tr.reason = "SL" ∧ tr.exit_idx = t - 1 ∧
        tr.side = st.pos ∧ tr.entry_px = st.entry ∧
        (ATR.slPrice cfg st ≠ ATR.tpPrice cfg st → tr.exit_px ≠ ATR.tpPrice cfg st)) := by
  refine ⟨?_, ?_, ?_, ?_⟩
  · intro cfg close st i hu hpos hsl _
    rw [MACross.ma_step_sl_first cfg close st i hu hpos hsl]
    exact ⟨rfl, _, rfl, rfl, rfl, rfl, rfl, fun h => h⟩
  · intro cfg close st t hu hpos hsl _
    rw [BB.bb_step_sl_first sqrt cfg close st t hu hpos hsl]
    exact ⟨rfl, _, rfl, rfl, rfl, rfl, rfl, rfl, fun h => h⟩
  · intro cfg bars d bi st hu hpos hsl _
    rw [London.london_barStep_sl_first cfg bars d bi st hu hpos hsl]
    exact ⟨rfl, rfl, _, rfl, rfl, rfl, rfl, rfl, rfl, fun h => h⟩
  · intro cfg bars atr st t hu hpos hsl _
    rw [ATR.atr_step_sl_first cfg bars atr st t hu hpos hsl]
    exact ⟨rfl, _, rfl, rfl, rfl, rfl, rfl, rfl, fun h => h⟩

/-- Claim C30. Stop and target fills are at the level in the Bollinger reversion, the ATR
breakout and the London breakout: in the ledger of every run, a trade with the reason
`"SL"` has `pnl = -alphaSL * entry_px` and a trade with the reason `"TP"` has
`pnl = alphaTP * entry_px`, whatever the prices of the bars and the side of the trade
(arithmetic in an ordered field). -/
theorem fills_at_level (sqrt : K → K) (bcfg : BB.Params K) (close : List K)
    (acfg : ATR.Params K) (abars : List (ATR.Bar K))
    (lcfg : London.Params K) (lbars : List (London.Bar K)) :
    (∀ tr ∈ (BB.run sqrt bcfg close).trades,
      (tr.reason = "SL" → tr.pnl = -bcfg.alphaSL * tr.entry_px) ∧
      (tr.reason = "TP" → tr.pnl = bcfg.alphaTP * tr.entry_px)) ∧
    (∀ tr ∈ (ATR.run acfg abars).trades,
      (tr.reason = "SL" → tr.pnl = -acfg.alphaSL * tr.entry_px) ∧
      (tr.reason = "TP" → tr.pnl = acfg.alphaTP * tr.entry_px)) ∧
    (∀ tr ∈ (London.run lcfg lbars).trades,
      (tr.reason = "SL" → tr.pnl = -lcfg.alphaSL * tr.entry_px) ∧
      (tr.reason = "TP" → tr.pnl = lcfg.alphaTP * tr.entry_px)) :=
  ⟨BB.bb_run_fills sqrt bcfg close, ATR.atr_run_fills acfg abars,
    London.london_run_fills lcfg lbars⟩

/-- Witness for claim C26: the Bollinger loop over `closeOpen` ends with a short open, which
the closing block records as `tradeEod`. -/
theorem eod_close_witness :
    (BB.runLoop Real.sqrt (BB.cfgTwo : BB.Params ℝ) BB.closeOpen).pos ≠ BB.PosState.FLAT ∧
    (BB.run Real.sqrt (BB.cfgTwo : BB.Params ℝ) BB.closeOpen).pos = BB.PosState.FLAT ∧
    (BB.run Real.sqrt (BB.cfgTwo : BB.Params ℝ) BB.closeOpen).trades = [BB.tradeEod] ∧
    BB.opened Real.sqrt (BB.cfgTwo : BB.Params ℝ) BB.closeOpen = 1 := by
  have h := (eod_close Real.sqrt (BB.cfgTwo : BB.Params ℝ) BB.closeOpen
    (ATR.cfgRisk : ATR.Params ℝ) ATR.barsWide).1
  refine ⟨by rw [BB.bb_runLoop_closeOpen]; simp [BB.heldShort], h.1,
    by rw [BB.bb_run_closeOpen], ?_⟩
  rw [← h.2.1, BB.bb_run_closeOpen]
  rfl

/-- Witness for claim C27: the wide bar of `barsWide` hits both the stop 99 and the target 102
of `heldLong`; the ATR loop body closes at 99 with the reason `"SL"`. -/
theorem sl_before_tp_witness :
    ATR.hitSL (ATR.cfgRisk : ATR.Params ℝ) ATR.heldLong (ATR.barAt ATR.barsWide (1 - 1)) = true ∧
    ATR.hitTP (ATR.cfgRisk : ATR.Params ℝ) ATR.heldLong (ATR.barAt ATR.barsWide (1 - 1)) = true ∧
    (ATR.step (ATR.cfgRisk : ATR.Params ℝ) ATR.barsWide ([], []) ATR.heldLong 1).pos
      = ATR.PosState.FLAT ∧
    ∃ tr, (ATR.step (ATR.cfgRisk : ATR.Params ℝ) ATR.barsWide ([], []) ATR.heldLong 1).trades
        = [tr] ∧ tr.exit_px = 99 ∧ tr.reason = "SL" := by
  have hsl : ATR.hitSL (ATR.cfgRisk : ATR.Params ℝ) ATR.heldLong
      (ATR.barAt ATR.barsWide (1 - 1)) = true := by
    simp [ATR.hitSL, ATR.slPrice, ATR.heldLong, ATR.cfgRisk, ATR.barAt, ATR.barsWide,
      Pairs.vget, ATR.PosState.toInt]
    norm_num
  have htp : ATR.hitTP (ATR.cfgRisk : ATR.Params ℝ) ATR.heldLong
      (ATR.barAt ATR.barsWide (1 - 1)) = true := by
    simp [ATR.hitTP, ATR.tpPrice, ATR.heldLong, ATR.cfgRisk, ATR.barAt, ATR.barsWide,
      Pairs.vget, ATR.PosState.toInt]
    norm_num
  obtain ⟨h1, tr, h2, h3, h4, _⟩ := (sl_before_tp Real.sqrt).2.2.2 (ATR.cfgRisk : ATR.Params ℝ)
    ATR.barsWide ([], []) ATR.heldLong 1 rfl (by simp [ATR.heldLong]) hsl htp
  refine ⟨hsl, htp, h1, tr, by simpa [ATR.heldLong] using h2, ?_, h4⟩
  rw [h3]
  simp [ATR.slPrice, ATR.heldLong, ATR.cfgRisk, ATR.PosState.toInt]
  norm_num

/-- Witness for claim C30: the run over `closeStop` records `tradeStop`, a short from 12
stopped at 15 with `pnl = -3 = -(1/4) * 12`. -/
theorem fills_at_level_witness :
    (BB.tradeStop : BB.Trade ℝ) ∈ (BB.run Real.sqrt (BB.cfgTwo : BB.Params ℝ) BB.closeStop).trades ∧
    (BB.tradeStop : BB.Trade ℝ).reason = "SL" ∧
    (BB.tradeStop : BB.Trade ℝ).pnl
      = -(BB.cfgTwo : BB.Params ℝ).alphaSL * (BB.tradeStop : BB.Trade ℝ).entry_px := by
  have hm : (BB.tradeStop : BB.Trade ℝ)
      ∈ (BB.run Real.sqrt (BB.cfgTwo : BB.Params ℝ) BB.closeStop).trades := by
    rw [BB.bb_run_closeStop]
    simp
  exact ⟨hm, rfl, ((fills_at_level Real.sqrt (BB.cfgTwo : BB.Params ℝ) BB.closeStop
    (ATR.cfgRisk : ATR.Params ℝ) ATR.barsWide (London.cfgDay : London.Params ℝ)
    London.barsDay).1 BB.tradeStop hm).1 rfl⟩

end Theorems

end Siblings

/-! # Breakout flags and true range of the ATR expansion breakout -/

namespace ATR

section Theorems

variable {K : Type} [LinearOrderedField K]

theorem atr_barAt_cases (bars : List (Bar K)) (i : Int) :
    barAt bars i = Bar.mk 0 0 0 0 ∨ barAt bars i ∈ bars := by
  unfold barAt Pairs.vget
  split_ifs with h
  · exact Or.inl rfl
  · by_cases hl : i.toNat < bars.length
    · right
      rw [List.getD_eq_getElem _ _ hl]
      exact List.getElem_mem _
    · left
      exact List.getD_eq_default _ _ (by omega)

theorem atr_barAt_ordered (bars : List (Bar K)) (h : ∀ b ∈ bars, b.high ≥ b.low) (i : Int) :
    (barAt bars i).low ≤ (barAt bars i).high := by
  rcases atr_barAt_cases bars i with h0 | hm
  · rw [h0]
  · exact h _ hm

/-- Claim C31. The double-breakout branch of the ATR breakout is unreachable: when every bar
of the series has `high ≥ low`, the flags `breakoutUp` (`C > Hprev`) and `breakoutDown`
(`C < Lprev`) of an iteration are never both true, and the signal part of the loop body is
decided by the single-breakout branches alone: flat with an expansion, it opens a long at
the close on `breakoutUp`, a short at the close on `breakoutDown`, and does nothing
otherwise. -/
theorem double_breakout_unreachable (cfg : Params K) (bars : List (Bar K))
    (atr : List K × List K) (st : State K) (t : Int) (h : ∀ b ∈ bars, b.high ≥ b.low) :
    ¬ (breakoutUp bars t = true ∧ breakoutDown bars t = true) ∧
    signalLogic cfg bars atr st t
      = (if st.pos = PosState.FLAT
            ∧ decide (Pairs.vget 0 atr.1 (t - 1) > cfg.mult * Pairs.vget 0 atr.2 (t - 1)) = true
          then
            if breakoutUp bars t = true then
              open_pos st (t - 1) PosState.LONG (barAt bars (t - 1)).close
            else if breakoutDown bars t = true then
              open_pos st (t - 1) PosState.SHORT (barAt bars (t - 1)).close
            else st
          else st) := by
  have hno : ¬ (breakoutUp bars t = true ∧ breakoutDown bars t = true) := by
    rintro ⟨hu, hd⟩
    have ho := atr_barAt_ordered bars h (t - 1 - 1)
    simp only [breakoutUp, breakoutDown, decide_eq_true_eq] at hu hd
    exact absurd (lt_trans (lt_of_le_of_lt ho hu) hd) (lt_irrefl _)
  refine ⟨hno, ?_⟩
  simp only [signalLogic, hno, if_false]

/-- Witness for claim C31: on `barsUp` the iteration `t = 2` has `breakoutUp` alone. -/
theorem double_breakout_unreachable_witness :
    breakoutUp (barsUp : List (Bar ℝ)) 2 = true ∧
    ¬ (breakoutUp (barsUp : List (Bar ℝ)) 2 = true
        ∧ breakoutDown (barsUp : List (Bar ℝ)) 2 = true) := by
  refine ⟨?_, (double_breakout_unreachable (cfgRisk : Params ℝ) barsUp ([], []) heldLong 2
    (by
      intro b hb
      simp only [barsUp, List.mem_cons, List.mem_singleton, List.not_mem_nil, or_false] at hb
      rcases hb with rfl | rfl <;> norm_num)).1⟩
  simp [breakoutUp, barsUp, barAt, Pairs.vget]
  norm_num

/-- Claim C32. True range identity: for a bar with `high ≥ low` and a previous close `pc`,
`true_range b pc = max high pc - min low pc`; in particular
`true_range b pc ≥ high - low ≥ 0`. -/
theorem true_range_identity (b : Bar K) (pc : K) (h : b.high ≥ b.low) :
    true_range b pc = max b.high pc - min b.low pc ∧
    true_range b pc ≥ b.high - b.low ∧ b.high - b.low ≥ 0 := by
  have h0 : b.high - b.low ≥ 0 := sub_nonneg.mpr h
  have hge : true_range b pc ≥ b.high - b.low := by
    unfold true_range
    exact le_trans (le_max_left _ _) (le_max_left _ _)
  refine ⟨?_, hge, h0⟩
  unfold true_range
  dsimp only
  rcases le_total pc b.low with h1 | h1
  · have h2 : pc ≤ b.high := le_trans h1 h
    rw [max_eq_left h2, min_eq_right h1, abs_of_nonneg (sub_nonneg.mpr h2),
      abs_of_nonneg (sub_nonneg.mpr h1)]
    rw [max_eq_right (by linarith : b.high - b.low ≤ b.high - pc),
      max_eq_left (by linarith : b.low - pc ≤ b.high - pc)]
  · rcases le_total pc b.high with h2 | h2
    · rw [max_eq_left h2, min_eq_left h1, abs_of_nonneg (sub_nonneg.mpr h2),
        abs_of_nonpos (sub_nonpos.mpr h1)]
      rw [max_eq_left (by linarith : b.high - pc ≤ b.high - b.low),
        max_eq_left (by linarith : -(b.low - pc) ≤ b.high - b.low)]
    · rw [max_eq_right h2, min_eq_left h1, abs_of_nonpos (sub_nonpos.mpr h2),
        abs_of_nonpos (sub_nonpos.mpr h1)]
      rw [max_eq_right (max_le (by linarith) (by linarith) :
        max (b.high - b.low) (-(b.high - pc)) ≤ -(b.low - pc))]
      ring

/-- Witness for claim C32: the bar `[98, 103]` after a previous close at 105 has the true
range `105 - 98 = 7`. -/
theorem true_range_identity_witness :
    true_range (barWide : Bar ℝ) 105 = 7 := by
  have h := (true_range_identity (barWide : Bar ℝ) 105 (by simp [barWide]; norm_num)).1
  rw [h]
  simp [barWide]
  norm_num

end Theorems

end ATR

/-! # Order-book quantities and imbalance -/

namespace OrderFlow

section Theorems

variable {K : Type} [LinearOrderedField K]

theorem lob_orderEvent_qty (book : LobSim.LOB K) (buy : Bool)
    (h : QtyOK book.bid_qty book.ask_qty) :
    QtyOK (LobSim.orderEvent book buy).bid_qty (LobSim.orderEvent book buy).ask_qty := by
  obtain ⟨h1, h2, h3, h4⟩ := h
  unfold LobSim.orderEvent QtyOK
  cases buy
  · simp only [Bool.false_eq_true, if_false]
    split_ifs with hc <;> dsimp only at hc ⊢ <;> omega
  · simp only [if_true]
    split_ifs with hc <;> dsimp only at hc ⊢ <;> omega

theorem lob_eventLoop_qty (sides : List Bool) (book : LobSim.LOB K)
    (h : QtyOK book.bid_qty book.ask_qty) :
    QtyOK (LobSim.eventLoop book sides).bid_qty (LobSim.eventLoop book sides).ask_qty := by
  induction sides generalizing book with
  | nil => exact h
  | cons s rest ih => exact ih _ (lob_orderEvent_qty book s h)

theorem lob_run_qty (arrivals : List (List Bool)) :
    QtyOK (LobSim.run arrivals : LobSim.LOB K).bid_qty
      (LobSim.run arrivals : LobSim.LOB K).ask_qty := by
  have hgen : ∀ (l : List (List Bool)) (book : LobSim.LOB K),
      QtyOK book.bid_qty book.ask_qty →
      QtyOK (l.foldl LobSim.eventLoop book).bid_qty (l.foldl LobSim.eventLoop book).ask_qty := by
    intro l
    induction l with
    | nil => intro book h; exact h
    | cons s rest ih => intro book h; exact ih _ (lob_eventLoop_qty s book h)
  exact hgen arrivals _ (by simp [LobSim.initBook, QtyOK])

theorem flow_orderEvent_qty (book : LOB K) (buy : Bool) (h : QtyOK book.bid_qty book.ask_qty) :
    QtyOK (orderEvent book buy).bid_qty (orderEvent book buy).ask_qty := by
  obtain ⟨h1, h2, h3, h4⟩ := h
  unfold orderEvent QtyOK
  cases buy
  · simp only [Bool.false_eq_true, if_false]
    split_ifs with hc <;> dsimp only at hc ⊢ <;> omega
  · simp only [if_true]
    split_ifs with hc <;> dsimp only at hc ⊢ <;> omega

theorem flow_eventLoop_qty (sides : List Bool) (book : LOB K)
    (h : QtyOK book.bid_qty book.ask_qty) :
    QtyOK (eventLoop book sides).bid_qty (eventLoop book sides).ask_qty := by
  induction sides generalizing book with
  | nil => exact h
  | cons s rest ih => exact ih _ (flow_orderEvent_qty book s h)

theorem flow_step_book (cfg : Params K) (st : State K) (sides : List Bool) :
    (step cfg st sides).book = eventLoop st.book sides := by
  unfold step
  dsimp only
  split_ifs <;> rfl

theorem flow_run_qty (cfg : Params K) (arrivals : List (List Bool)) :
    QtyOK (run cfg arrivals).book.bid_qty (run cfg arrivals).book.ask_qty := by
  have hgen : ∀ (l : List (List Bool)) (st : State K),
      QtyOK st.book.bid_qty st.book.ask_qty →
      QtyOK (l.foldl (step cfg) st).book.bid_qty (l.foldl (step cfg) st).book.ask_qty := by
    intro l
    induction l with
    | nil => intro st h; exact h
    | cons s rest ih =>
      intro st h
      refine ih _ ?_
      rw [flow_step_book]
      exact flow_eventLoop_qty s st.book h
  exact hgen arrivals _ (by simp [initState, initBook, QtyOK])

theorem flow_imbalance_bound (book : LOB K) (h : QtyOK book.bid_qty book.ask_qty) :
    ((book.bid_qty + book.ask_qty : Int) : K) ≠ 0 ∧ |imbalance book| ≤ 99 / 101 := by
  obtain ⟨h1, h2, h3, h4⟩ := h
  have hpos : (0 : K) < ((book.bid_qty + book.ask_qty : Int) : K) := by
    exact_mod_cast (by omega : (0 : Int) < book.bid_qty + book.ask_qty)
  refine ⟨ne_of_gt hpos, ?_⟩
  unfold imbalance
  rw [abs_div, abs_of_pos hpos, div_le_div_iff₀ hpos (by norm_num)]
  have hz : |book.bid_qty - book.ask_qty| * 101 ≤ 99 * (book.bid_qty + book.ask_qty) := by
    rcases abs_cases (book.bid_qty - book.ask_qty) with ⟨he, _⟩ | ⟨he, _⟩ <;> rw [he] <;> omega
  have hk : ((|book.bid_qty - book.ask_qty| * 101 : Int) : K)
      ≤ ((99 * (book.bid_qty + book.ask_qty) : Int) : K) := Int.cast_le.mpr hz
  push_cast at hk ⊢
  exact hk

theorem flow_buys_drain (n : Nat) (book : LOB K) (hn : (n : Int) < book.ask_qty) :
    (eventLoop book (List.replicate n true)).ask_qty = book.ask_qty - n ∧
    (eventLoop book (List.replicate n true)).bid_qty = book.bid_qty := by
  induction n generalizing book with
  | zero => simp [eventLoop]
  | succ m ih =>
    have h1 : orderEvent book true = { book with ask_qty := book.ask_qty - 1 } := by
      unfold orderEvent
      simp only [if_true]
      rw [if_neg (by push_cast at hn; omega)]
    have h2 := ih (orderEvent book true) (by rw [h1]; dsimp only; push_cast at hn; omega)
    simp only [eventLoop, List.replicate_succ, List.foldl_cons] at h2 ⊢
    rw [h2.1, h2.2, h1]
    dsimp only
    push_cast
    constructor
    · ring
    · trivial

/-- Claim C33. Order-book quantities in the LOB simulator and in the order-flow strategy:
after every order event of every time step, `1 ≤ bid_qty ≤ 100` and `1 ≤ ask_qty ≤ 100`;
hence the divisor `bid_qty + ask_qty` of the imbalance is not zero and `|I| ≤ 99/101` at
every step. The book is taken after the time steps with the draws `arrivals` and the order
events `sides` of the next step; the imbalance of that step is computed on the book after
its events. -/
theorem book_quantity_invariant (cfg : Params K) (arrivals : List (List Bool))
    (sides : List Bool) :
    (1 ≤ (LobSim.eventLoop (LobSim.run arrivals : LobSim.LOB K) sides).bid_qty ∧
      (LobSim.eventLoop (LobSim.run arrivals : LobSim.LOB K) sides).bid_qty ≤ 100 ∧
      1 ≤ (LobSim.eventLoop (LobSim.run arrivals : LobSim.LOB K) sides).ask_qty ∧
      (LobSim.eventLoop (LobSim.run arrivals : LobSim.LOB K) sides).ask_qty ≤ 100) ∧
    (1 ≤ (eventLoop (run cfg arrivals).book sides).bid_qty ∧
      (eventLoop (run cfg arrivals).book sides).bid_qty ≤ 100 ∧
      1 ≤ (eventLoop (run cfg arrivals).book sides).ask_qty ∧
      (eventLoop (run cfg arrivals).book sides).ask_qty ≤ 100) ∧
    (run cfg (arrivals ++ [sides])).book = eventLoop (run cfg arrivals).book sides ∧
    (((eventLoop (run cfg arrivals).book sides).bid_qty
        + (eventLoop (run cfg arrivals).book sides).ask_qty : Int) : K) ≠ 0 ∧
    |imbalance (eventLoop (run cfg arrivals).book sides)| ≤ 99 / 101 := by
  have h1 := lob_eventLoop_qty sides (LobSim.run arrivals : LobSim.LOB K) (lob_run_qty arrivals)
  have h2 := flow_eventLoop_qty sides (run cfg arrivals).book (flow_run_qty cfg arrivals)
  have h3 := flow_imbalance_bound _ h2
  refine ⟨h1, h2, ?_, h3.1, h3.2⟩
  simp only [run, List.foldl_append, List.foldl_cons, List.foldl_nil]
  exact flow_step_book cfg _ sides

/-- Witness for claim C33: ninety-nine buy orders on the initial book leave `bid_qty = 100`
and `ask_qty = 1`, the book of largest imbalance `99/101`. -/
theorem book_quantity_invariant_witness :
    (eventLoop (run (mainParams : Params ℝ) []).book buys99).bid_qty = 100 ∧
    (eventLoop (run (mainParams : Params ℝ) []).book buys99).ask_qty = 1 ∧
    imbalance (eventLoop (run (mainParams : Params ℝ) []).book buys99) = 99 / 101 ∧
    |imbalance (eventLoop (run (mainParams : Params ℝ) []).book buys99)| ≤ 99 / 101 := by
  have hd := flow_buys_drain 99 (initBook : LOB ℝ) (by simp [initBook])
  have hb : (run (mainParams : Params ℝ) []).book = initBook := rfl
  have h1 : (eventLoop (run (mainParams : Params ℝ) []).book buys99).bid_qty = 100 := by
    rw [hb, buys99, hd.2]; rfl
  have h2 : (eventLoop (run (mainParams : Params ℝ) []).book buys99).ask_qty = 1 := by
    rw [hb, buys99, hd.1]; simp [initBook]
  refine ⟨h1, h2, ?_, (book_quantity_invariant (mainParams : Params ℝ) [] buys99).2.2.2.2⟩
  rw [imbalance, h1, h2]
  norm_num

end Theorems

end OrderFlow

/-! # Weights of the online learner -/

namespace Learner

section Theorems

variable {K : Type} [LinearOrderedField K]

theorem learner_length_three {α : Type} (l : List α) (h : l.length = 3) :
    ∃ a b c, l = [a, b, c] := by
  match l, h with
  | [a, b, c], _ => exact ⟨a, b, c, rfl⟩

theorem learner_reweight_three (exp : K → K) (eta : K) (a b c : K) (e1 e2 e3 : Int) (r : K) :
    reweight exp eta [a, b, c] [e1, e2, e3] r
      = [a * exp (eta * (e1 : K) * r), b * exp (eta * (e2 : K) * r),
         c * exp (eta * (e3 : K) * r)] := by
  simp [reweight, Pairs.forLt, Pairs.loopFrom, Pairs.vget, Pairs.vset]

theorem learner_normalise_three (a b c : K) (ha : 0 < a) (hb : 0 < b) (hc : 0 < c) :
    0 < accumulate [a, b, c] ∧
    IsDistribution (normalise [a, b, c] (accumulate [a, b, c])) := by
  have hn : accumulate [a, b, c] = a + b + c := by simp [accumulate]
  have hpos : 0 < a + b + c := by positivity
  rw [hn]
  refine ⟨hpos, rfl, ?_, ?_⟩
  · intro w hw
    simp only [normalise, List.map_cons, List.map_nil, List.mem_cons, List.mem_singleton,
      List.not_mem_nil, or_false] at hw
    rcases hw with rfl | rfl | rfl <;> positivity
  · simp only [normalise, accumulate, List.map_cons, List.map_nil, List.foldl_cons,
      List.foldl_nil, zero_add]
    field_simp

theorem learner_step_distribution (exp : K → K) (hexp : ∀ x, 0 < exp x) (eta : K)
    (st : State K) (t : Int) (r : K) (e3 : Int)
    (hlen : st.weights.length = 3) (hpos : ∀ w ∈ st.weights, 0 < w) :
    0 < accumulate (reweight exp eta st.weights (expertsAt (Pairs.vset st.returns t r) t e3) r) ∧
    IsDistribution (step exp eta st t r e3).weights := by
  obtain ⟨a, b, c, hw⟩ := learner_length_three st.weights hlen
  have ha : 0 < a := hpos a (by rw [hw]; simp)
  have hb : 0 < b := hpos b (by rw [hw]; simp)
  have hc : 0 < c := hpos c (by rw [hw]; simp)
  simp only [step, hw, expertsAt, learner_reweight_three]
  exact learner_normalise_three _ _ _ (mul_pos ha (hexp _)) (mul_pos hb (hexp _))
    (mul_pos hc (hexp _))

theorem learner_init_distribution (T : Int) : IsDistribution (initState T : State K).weights := by
  refine ⟨rfl, ?_, ?_⟩
  · intro w hw
    simp only [initState, List.mem_cons, List.mem_singleton, List.not_mem_nil, or_false] at hw
    rcases hw with rfl | rfl | rfl <;> norm_num
  · simp only [initState, accumulate, List.foldl_cons, List.foldl_nil]
    norm_num

theorem learner_loop_distribution (exp : K → K) (hexp : ∀ x, 0 < exp x) (eta : K) (T : Int)
    (draws : Int → K) (noise : Int → Int) (n : Nat) (start : Int) :
    IsDistribution
      (Pairs.loopFrom (fun st i => step exp eta st i (draws i) (noise i)) n start
        (initState T)).weights :=
  Pairs.loopFrom_inv (fun st i => step exp eta st i (draws i) (noise i))
    (fun st => IsDistribution st.weights) n start (initState T) (learner_init_distribution T)
    (fun s j hs => (learner_step_distribution exp hexp eta s j _ _ hs.1 hs.2.1).2)

theorem learner_sign_values (x : K) : sign x = -1 ∨ sign x = 0 ∨ sign x = 1 := by
  unfold sign
  split_ifs <;> simp

/-- Claim C34. The expert weights of the online learner stay a probability distribution:
with the real exponential, for every learning rate, all returns drawn and all noise
signals, the three weights are strictly positive and sum to 1 after every iteration of the
main loop and at its end; in every iteration from positive weights the normalising sum is
strictly positive, whatever the return and the signals, and the signals of the trend and
mean-reversion experts are in `{-1, 0, 1}`. -/
theorem weights_stay_distribution (eta : ℝ) (T : Int) (draws : Int → ℝ) (noise : Int → Int)
    (t : Int) :
    ((loopThrough Real.exp eta T draws noise t).weights.length = 3 ∧
      (∀ w ∈ (loopThrough Real.exp eta T draws noise t).weights, 0 < w) ∧
      accumulate (loopThrough Real.exp eta T draws noise t).weights = 1) ∧
    ((run Real.exp eta T draws noise).weights.length = 3 ∧
      (∀ w ∈ (run Real.exp eta T draws noise).weights, 0 < w) ∧
      accumulate (run Real.exp eta T draws noise).weights = 1) ∧
    (∀ (st : State ℝ) (r : ℝ) (e3 : Int),
      st.weights.length = 3 → (∀ w ∈ st.weights, 0 < w) →
      0 < accumulate
          (reweight Real.exp eta st.weights (expertsAt (Pairs.vset st.returns t r) t e3) r) ∧
      (step Real.exp eta st t r e3).weights.length = 3 ∧
      (∀ w ∈ (step Real.exp eta st t r e3).weights, 0 < w) ∧
      accumulate (step Real.exp eta st t r e3).weights = 1) ∧
    (∀ (returns : List ℝ) (e3 : Int), (e3 = -1 ∨ e3 = 0 ∨ e3 = 1) →
      ∀ e ∈ expertsAt returns t e3, e = -1 ∨ e = 0 ∨ e = 1) := by
  refine ⟨learner_loop_distribution Real.exp Real.exp_pos eta T draws noise _ _,
    learner_loop_distribution Real.exp Real.exp_pos eta T draws noise _ _,
    fun st r e3 hl hp => learner_step_distribution Real.exp Real.exp_pos eta st t r e3 hl hp,
    ?_⟩
  intro returns e3 he3 e he
  simp only [expertsAt, trend_expert, mean_reversion_expert, List.mem_cons, List.mem_singleton,
    List.not_mem_nil, or_false] at he
  rcases he with rfl | rfl | rfl
  · exact learner_sign_values _
  · rcases learner_sign_values (Pairs.vget 0 returns (t - 1)) with h | h | h <;> rw [h] <;> simp
  · exact he3

/-- Witness for claim C34: with the constants of `main`, returns and noise signals all zero,
the three weights after the first iteration sum to 1. -/
theorem weights_stay_distribution_witness :
    (loopThrough Real.exp mainEta mainT (fun _ => 0) (fun _ => 0) 1).weights.length = 3 ∧
    accumulate (loopThrough Real.exp mainEta mainT (fun _ => 0) (fun _ => 0) 1).weights = 1 :=
  ⟨(weights_stay_distribution mainEta mainT (fun _ => 0) (fun _ => 0) 1).1.1,
    (weights_stay_distribution mainEta mainT (fun _ => 0) (fun _ => 0) 1).1.2.2⟩

end Theorems

end Learner

/-! # Counters and sizes of the macro news breakout -/

namespace MacroNews

section Theorems

variable {K : Type} [LinearOrderedField K]

theorem news_markToMarket_frame (data : List (Tick K)) (st : State K) (t : Int) :
    (markToMarket data st t).pos = st.pos ∧
    (markToMarket data st t).entry_t = st.entry_t ∧
    (markToMarket data st t).size = st.size ∧
    (markToMarket data st t).trades_closed = st.trades_closed ∧
    (markToMarket data st t).trades_opened = st.trades_opened := by
  unfold markToMarket
  dsimp only
  split_ifs <;> exact ⟨rfl, rfl, rfl, rfl, rfl⟩

theorem news_riskExit_cases (cur : Tick K) (st : State K) :
    riskExit cur st = st ∨
    (st.pos ≠ PosState.FLAT ∧ (riskExit cur st).pos = PosState.FLAT ∧
      (riskExit cur st).trades_closed = st.trades_closed + 1 ∧
      (riskExit cur st).trades_opened = st.trades_opened ∧
      (riskExit cur st).size = st.size) := by
  unfold riskExit
  split_ifs with h1 h2 h3 h4
  · exact Or.inr ⟨h1, rfl, rfl, rfl, rfl⟩
  · exact Or.inl rfl
  · exact Or.inr ⟨h1, rfl, rfl, rfl, rfl⟩
  · exact Or.inl rfl
  · exact Or.inl rfl

theorem news_timeExit_cases {F : Type} (cfg : Params F) (st : State F) (t : Int) :
    timeExit cfg st t = st ∨
    (st.pos ≠ PosState.FLAT ∧ (timeExit cfg st t).pos = PosState.FLAT ∧
      (timeExit cfg st t).trades_closed = st.trades_closed + 1 ∧
      (timeExit cfg st t).trades_opened = st.trades_opened ∧
      (timeExit cfg st t).size = st.size) := by
  unfold timeExit
  split_ifs with h1
  · exact Or.inr ⟨h1.1, rfl, rfl, rfl, rfl⟩
  · exact Or.inl rfl

theorem news_entry_cases (cfg : Params K) (cur : Tick K) (st : State K) (t : Int) :
    entry cfg cur st t = st ∨
    (st.pos = PosState.FLAT ∧ cur.event_type ≠ EventType.NONE ∧
      (entry cfg cur st t).pos ≠ PosState.FLAT ∧
      (entry cfg cur st t).trades_closed = st.trades_closed ∧
      (entry cfg cur st t).trades_opened = st.trades_opened + 1 ∧
      (entry cfg cur st t).size = base_size cfg cur * cal_mult cfg cur * cb_mult cfg cur) := by
  unfold entry
  dsimp only
  split_ifs with h1 h2 h3
  · exact Or.inr ⟨h1.1, h1.2, by simp, rfl, rfl, rfl⟩
  · exact Or.inr ⟨h1.1, h1.2, by simp, rfl, rfl, rfl⟩
  · exact Or.inl rfl
  · exact Or.inl rfl

theorem news_step_counters (cfg : Params K) (data : List (Tick K)) (st : State K) (t : Int)
    (h : Counters st) :
    Counters (step cfg data st t) ∧
    st.trades_closed ≤ (step cfg data st t).trades_closed ∧
    (step cfg data st t).trades_closed ≤ st.trades_closed + 1 ∧
    st.trades_opened ≤ (step cfg data st t).trades_opened ∧
    (step cfg data st t).trades_opened ≤ st.trades_opened + 1 := by
  unfold Counters at h ⊢
  unfold step
  dsimp only
  obtain ⟨m1, _, _, m4, m5⟩ := news_markToMarket_frame data st t
  generalize markToMarket data st t = s1 at m1 m4 m5 ⊢
  rcases news_riskExit_cases (tickAt data t) s1 with r | ⟨r0, r1, r2, r3, _⟩ <;>
    generalize riskExit (tickAt data t) s1 = s2 at * <;>
    rcases news_timeExit_cases cfg s2 t with q | ⟨q0, q1, q2, q3, _⟩ <;>
    generalize timeExit cfg s2 t = s3 at * <;>
    rcases news_entry_cases cfg (tickAt data t) s3 t with e | ⟨e0, _, e1, e2, e3, _⟩ <;>
    generalize entry cfg (tickAt data t) s3 t = s4 at * <;>
    subst_vars <;>
    split_ifs at h ⊢ <;>
    first
      | (refine ⟨?_, ?_, ?_, ?_, ?_⟩ <;> omega)
      | contradiction
      | (exfalso; simp_all)

theorem news_counters_init : Counters (initState : State K) := by
  simp [Counters, initState]

theorem news_loop_counters (cfg : Params K) (data : List (Tick K)) (n : Nat) (start : Int) :
    Counters (Pairs.loopFrom (step cfg data) n start initState) :=
  Pairs.loopFrom_inv (step cfg data) Counters n start initState news_counters_init
    (fun s j hs => (news_step_counters cfg data s j hs).1)

theorem news_counters_bounds {F : Type} (st : State F) (h : Counters st) :
    st.trades_closed ≤ st.trades_opened ∧ st.trades_opened ≤ st.trades_closed + 1 := by
  unfold Counters at h
  split_ifs at h <;> constructor <;> omega

theorem news_step_both_exits (cfg : Params K) (data : List (Tick K)) (st : State K) (t : Int)
    (hrisk : (st.pos = PosState.LONG ∧
        ((tickAt data t).price ≤ st.stop ∨ (tickAt data t).price ≥ st.take)) ∨
      (st.pos = PosState.SHORT ∧
        ((tickAt data t).price ≥ st.stop ∨ (tickAt data t).price ≤ st.take))) :
    (riskExit (tickAt data t) (markToMarket data st t)).pos = PosState.FLAT ∧
    timeExit cfg (riskExit (tickAt data t) (markToMarket data st t)) t
      = riskExit (tickAt data t) (markToMarket data st t) ∧
    (step cfg data st t).trades_closed = st.trades_closed + 1 := by
  have hm : (markToMarket data st t).pos = st.pos ∧ (markToMarket data st t).stop = st.stop ∧
      (markToMarket data st t).take = st.take ∧
      (markToMarket data st t).trades_closed = st.trades_closed := by
    unfold markToMarket
    dsimp only
    split_ifs <;> exact ⟨rfl, rfl, rfl, rfl⟩
  obtain ⟨m1, m2, m3, m4⟩ := hm
  generalize hs1 : markToMarket data st t = s1 at m1 m2 m3 m4
  have hr : (riskExit (tickAt data t) s1).pos = PosState.FLAT ∧
      (riskExit (tickAt data t) s1).trades_closed = st.trades_closed + 1 := by
    unfold riskExit
    rcases hrisk with ⟨hp, hc⟩ | ⟨hp, hc⟩
    · rw [← m1] at hp
      rw [← m2, ← m3] at hc
      simp [hp, hc, m4]
    · rw [← m1] at hp
      rw [← m2, ← m3] at hc
      simp [hp, hc, m4]
  have ht : timeExit cfg (riskExit (tickAt data t) s1) t = riskExit (tickAt data t) s1 := by
    unfold timeExit
    rw [if_neg (by simp [hr.1])]
  refine ⟨hr.1, ht, ?_⟩
  unfold step
  dsimp only
  rw [hs1, ht]
  rcases news_entry_cases cfg (tickAt data t) (riskExit (tickAt data t) s1) t
    with e | ⟨_, _, _, e2, _, _⟩
  · rw [e, hr.2]
  · rw [e2, hr.2]

theorem news_step_drop :
    step (cfgQuick : Params ℝ) dataDrop heldLong 1
      = { (heldLong : State ℝ) with pos := PosState.FLAT, pnl := -3, trades_closed := 1 } := by
  simp [step, entry, timeExit, riskExit, markToMarket, tickAt, dataDrop, heldLong, Pairs.vget,
    cfgQuick]
  norm_num

/-- Claim C35. Open and close counters of the macro news breakout: after every iteration of
the main loop and at its end, `trades_opened - trades_closed` is 1 with a position open and
0 when flat, so `trades_closed ≤ trades_opened ≤ trades_closed + 1`; an iteration started
with this relation raises `trades_closed` by at most 1, and an iteration in which the
stop/take exit holds closes the position there, leaves it untouched by the time exit, and
raises `trades_closed` by exactly 1, whatever the holding time. -/
theorem open_close_counters (cfg : Params K) (data : List (Tick K)) (T t : Int) :
    ((loopThrough cfg data t).trades_opened - (loopThrough cfg data t).trades_closed
        = (if (loopThrough cfg data t).pos = PosState.FLAT then 0 else 1) ∧
      (loopThrough cfg data t).trades_closed ≤ (loopThrough cfg data t).trades_opened ∧
      (loopThrough cfg data t).trades_opened ≤ (loopThrough cfg data t).trades_closed + 1) ∧
    ((run cfg T data).trades_opened - (run cfg T data).trades_closed
        = (if (run cfg T data).pos = PosState.FLAT then 0 else 1) ∧
      (run cfg T data).trades_closed ≤ (run cfg T data).trades_opened ∧
      (run cfg T data).trades_opened ≤ (run cfg T data).trades_closed + 1) ∧
    (∀ st : State K,
      st.trades_opened - st.trades_closed = (if st.pos = PosState.FLAT then 0 else 1) →
      (step cfg data st t).trades_opened - (step cfg data st t).trades_closed
        = (if (step cfg data st t).pos = PosState.FLAT then 0 else 1) ∧
      st.trades_closed ≤ (step cfg data st t).trades_closed ∧
      (step cfg data st t).trades_closed ≤ st.trades_closed + 1) ∧
    (∀ st : State K,
      ((st.pos = PosState.LONG ∧
          ((tickAt data t).price ≤ st.stop ∨ (tickAt data t).price ≥ st.take)) ∨
        (st.pos = PosState.SHORT ∧
          ((tickAt data t).price ≥ st.stop ∨ (tickAt data t).price ≤ st.take))) →
      timeExit cfg (riskExit (tickAt data t) (markToMarket data st t)) t
        = riskExit (tickAt data t) (markToMarket data st t) ∧
      (step cfg data st t).trades_closed = st.trades_closed + 1) := by
  have h1 : Counters (loopThrough cfg data t) := news_loop_counters cfg data _ _
  have h2 : Counters (run cfg T data) := news_loop_counters cfg data _ _
  refine ⟨⟨h1, news_counters_bounds _ h1⟩, ⟨h2, news_counters_bounds _ h2⟩, ?_, ?_⟩
  · intro st hst
    have h := news_step_counters cfg data st t hst
    exact ⟨h.1, h.2.1, h.2.2.1⟩
  · intro st hrisk
    exact (news_step_both_exits cfg data st t hrisk).2

/-- Witness for claim C35: on `dataDrop` the long of `heldLong` meets at `t = 1` both the
stop (price 97 under 98) and the time exit (horizon 1); it is counted as closed once. -/
theorem open_close_counters_witness :
    (tickAt (dataDrop : List (Tick ℝ)) 1).price ≤ (heldLong : State ℝ).stop ∧
    (1 : Int) - (heldLong : State ℝ).entry_t ≥ (cfgQuick : Params ℝ).hold_horizon ∧
    (step (cfgQuick : Params ℝ) dataDrop heldLong 1).trades_closed = 1 ∧
    (step (cfgQuick : Params ℝ) dataDrop heldLong 1).trades_opened = 1 ∧
    (step (cfgQuick : Params ℝ) dataDrop heldLong 1).pos = PosState.FLAT := by
  have hp : (tickAt (dataDrop : List (Tick ℝ)) 1).price ≤ (heldLong : State ℝ).stop := by
    simp [tickAt, dataDrop, heldLong, Pairs.vget]
    norm_num
  have hc : (step (cfgQuick : Params ℝ) dataDrop heldLong 1).trades_closed = 1 :=
    ((open_close_counters (cfgQuick : Params ℝ) dataDrop 2 1).2.2.2 heldLong
      (Or.inl ⟨rfl, Or.inl hp⟩)).2
  rw [news_step_drop] at hc ⊢
  exact ⟨hp, by simp [heldLong, cfgQuick], hc, rfl, rfl⟩

/-! ## Event calendar and entry sizes -/

theorem news_pushEvery_mem (stride : Int) (hs : 0 < stride) (T : Int) :
    ∀ (n : Nat) (t : Int) (acc : List Int), (T - t).toNat ≤ n →
      ∀ e ∈ pushEvery stride hs T t acc,
        e ∈ acc ∨ ∃ k : Int, 0 ≤ k ∧ e = t + stride * k ∧ e < T := by
  intro n
  induction n with
  | zero =>
    intro t acc hn e he
    rw [pushEvery, if_neg (by omega)] at he
    exact Or.inl he
  | succ m ih =>
    intro t acc hn e he
    by_cases hlt : t < T
    · rw [pushEvery, if_pos hlt] at he
      rcases ih (t + stride) (acc ++ [t]) (by omega) e he with h | ⟨k, hk, hek, heT⟩
      · rcases List.mem_append.mp h with h1 | h1
        · exact Or.inl h1
        · refine Or.inr ⟨0, le_refl _, ?_, ?_⟩
          · rw [List.mem_singleton.mp h1]; ring
          · rw [List.mem_singleton.mp h1]; exact hlt
      · exact Or.inr ⟨k + 1, by omega, by rw [hek]; ring, heT⟩
    · rw [pushEvery, if_neg hlt] at he
      exact Or.inl he

theorem news_macro_events_mem (T e : Int) (he : e ∈ macro_events T) :
    ∃ k : Int, 1 ≤ k ∧ e = 400 * k ∧ e < T := by
  rcases news_pushEvery_mem 400 (by decide) T _ 400 [] (le_refl _) e he with h | ⟨k, hk, hek, hT⟩
  · simp at h
  · exact ⟨k + 1, by omega, by omega, hT⟩

theorem news_cb_events_mem (T e : Int) (he : e ∈ cb_events T) :
    ∃ k : Int, 1 ≤ k ∧ e = 400 * k ∧ e < T := by
  rcases news_pushEvery_mem 800 (by decide) T _ 800 [] (le_refl _) e he with h | ⟨k, hk, hek, hT⟩
  · simp at h
  · exact ⟨2 * k + 2, by omega, by omega, hT⟩

theorem news_eventAt_multiple (T t : Int) (h : eventAt T t ≠ EventType.NONE) :
    ∃ k : Int, 1 ≤ k ∧ t = 400 * k ∧ t < T := by
  unfold eventAt at h
  split_ifs at h with h1 h2
  · exact news_cb_events_mem T t h1
  · exact news_macro_events_mem T t h2
  · exact absurd rfl h

theorem news_tmod_multiple (k : Int) (hk : 1 ≤ k) : Int.tmod (400 * k) 1000 ≤ 800 := by
  rw [Int.tmod_eq_emod (by omega) (by decide)]
  omega

theorem news_world_events (exp : K → K) (T : Int) (draws : Draws K) :
    ∀ tk ∈ generate_world exp T draws, tk.event_type = eventAt T tk.t := by
  unfold generate_world
  refine Pairs.forLt_inv (worldStep exp T draws)
    (fun w => ∀ tk ∈ w.out, tk.event_type = eventAt T tk.t) 0 T _ ?_ ?_
  · intro tk htk
    simp at htk
  · intro w j hw tk htk
    unfold worldStep at htk
    dsimp only at htk
    rcases List.mem_append.mp htk with h | h
    · exact hw tk h
    · rw [List.mem_singleton.mp h]

theorem news_flow_day_event {F : Type} (tk : Tick F) (T : Int) (he : tk.event_type = eventAt T tk.t)
    (hne : tk.event_type ≠ EventType.NONE) :
    (∃ k : Int, 1 ≤ k ∧ tk.t = 400 * k) ∧ Int.tmod tk.t 1000 ≤ 800 ∧ flow_day tk = false := by
  rw [he] at hne
  obtain ⟨k, hk, hek, _⟩ := news_eventAt_multiple T tk.t hne
  have hm : Int.tmod tk.t 1000 ≤ 800 := by
    rw [hek]
    exact news_tmod_multiple k hk
  refine ⟨⟨k, hk, hek⟩, hm, ?_⟩
  unfold flow_day
  exact decide_eq_false (by omega)

theorem news_tickAt_cases (data : List (Tick K)) (t : Int) :
    (tickAt data t).event_type = EventType.NONE ∨ tickAt data t ∈ data := by
  unfold tickAt Pairs.vget
  split_ifs with h
  · exact Or.inl rfl
  · by_cases hl : t.toNat < data.length
    · right
      rw [List.getD_eq_getElem _ _ hl]
      exact List.getElem_mem _
    · left
      rw [List.getD_eq_default _ _ (by omega)]

theorem news_entry_size (cur : Tick K) (hflow : flow_day cur = false) :
    cal_mult (mainParams : Params K) cur = 1.0 ∧
    base_size (mainParams : Params K) cur * cal_mult mainParams cur * cb_mult mainParams cur
      = base_size mainParams cur * cb_mult mainParams cur ∧
    SizeOK (base_size (mainParams : Params K) cur * cal_mult mainParams cur
      * cb_mult mainParams cur) := by
  have hc : cal_mult (mainParams : Params K) cur = 1.0 := by
    unfold cal_mult
    rw [hflow]
    simp
  refine ⟨hc, by rw [hc]; norm_num, ?_⟩
  rw [hc]
  unfold base_size cb_mult SizeOK mainParams
  dsimp only
  split_ifs
  · right; right; left; norm_num
  · left; norm_num
  · right; right; right; norm_num
  · right; left; norm_num

theorem news_step_entry (T : Int) (data : List (Tick K))
    (hdata : ∀ tk ∈ data, tk.event_type = eventAt T tk.t) (st : State K) (t : Int)
    (hopen : (step (mainParams : Params K) data st t).trades_opened ≠ st.trades_opened) :
    (tickAt data t).event_type ≠ EventType.NONE ∧
    flow_day (tickAt data t) = false ∧
    cal_mult (mainParams : Params K) (tickAt data t) = 1.0 ∧
    (step (mainParams : Params K) data st t).size
      = base_size mainParams (tickAt data t) * cb_mult mainParams (tickAt data t) ∧
    SizeOK (step (mainParams : Params K) data st t).size ∧
    (step (mainParams : Params K) data st t).pos ≠ PosState.FLAT := by
  unfold step at hopen ⊢
  dsimp only at hopen ⊢
  obtain ⟨_, _, _, _, m5⟩ := news_markToMarket_frame data st t
  generalize markToMarket data st t = s1 at m5 hopen ⊢
  have h2 : (riskExit (tickAt data t) s1).trades_opened = st.trades_opened := by
    rcases news_riskExit_cases (tickAt data t) s1 with r | ⟨_, _, _, r3, _⟩
    · rw [r, m5]
    · rw [r3, m5]
  generalize riskExit (tickAt data t) s1 = s2 at h2 hopen ⊢
  have h3 : (timeExit (mainParams : Params K) s2 t).trades_opened = st.trades_opened := by
    rcases news_timeExit_cases (mainParams : Params K) s2 t with q | ⟨_, _, _, q3, _⟩
    · rw [q, h2]
    · rw [q3, h2]
  generalize timeExit (mainParams : Params K) s2 t = s3 at h3 hopen ⊢
  rcases news_entry_cases (mainParams : Params K) (tickAt data t) s3 t
    with e | ⟨_, e1, e2, _, _, e5⟩
  · rw [e, h3] at hopen
    exact absurd rfl hopen
  · have hmem : tickAt data t ∈ data := by
      rcases news_tickAt_cases data t with h | h
      · exact absurd h e1
      · exact h
    have hf := (news_flow_day_event (tickAt data t) T (hdata _ hmem) e1).2.2
    have hs := news_entry_size (tickAt data t) hf
    rw [e5]
    exact ⟨e1, hf, hs.1, hs.2.1, hs.2.2, e2⟩

theorem news_step_sizeInv (T : Int) (data : List (Tick K))
    (hdata : ∀ tk ∈ data, tk.event_type = eventAt T tk.t) (st : State K) (t : Int)
    (h : st.pos ≠ PosState.FLAT → SizeOK st.size) :
    (step (mainParams : Params K) data st t).pos ≠ PosState.FLAT →
      SizeOK (step (mainParams : Params K) data st t).size := by
  by_cases hopen : (step (mainParams : Params K) data st t).trades_opened = st.trades_opened
  · intro hpos
    unfold step at hopen hpos ⊢
    dsimp only at hopen hpos ⊢
    obtain ⟨m1, _, m3, _, m5⟩ := news_markToMarket_frame data st t
    generalize markToMarket data st t = s1 at m1 m3 m5 hopen hpos ⊢
    have h2 : (riskExit (tickAt data t) s1).trades_opened = st.trades_opened ∧
        (riskExit (tickAt data t) s1).size = st.size ∧
        ((riskExit (tickAt data t) s1).pos = st.pos ∨
          (riskExit (tickAt data t) s1).pos = PosState.FLAT) := by
      rcases news_riskExit_cases (tickAt data t) s1 with r | ⟨_, r1, _, r3, r4⟩
      · rw [r]; exact ⟨m5, m3, Or.inl m1⟩
      · exact ⟨by rw [r3, m5], by rw [r4, m3], Or.inr r1⟩
    generalize riskExit (tickAt data t) s1 = s2 at h2 hopen hpos ⊢
    have h3 : (timeExit (mainParams : Params K) s2 t).trades_opened = st.trades_opened ∧
        (timeExit (mainParams : Params K) s2 t).size = st.size ∧
        ((timeExit (mainParams : Params K) s2 t).pos = st.pos ∨
          (timeExit (mainParams : Params K) s2 t).pos = PosState.FLAT) := by
      rcases news_timeExit_cases (mainParams : Params K) s2 t with q | ⟨_, q1, _, q3, q4⟩
      · rw [q]; exact h2
      · exact ⟨by rw [q3, h2.1], by rw [q4, h2.2.1], Or.inr q1⟩
    generalize timeExit (mainParams : Params K) s2 t = s3 at h3 hopen hpos ⊢
    rcases news_entry_cases (mainParams : Params K) (tickAt data t) s3 t
      with e | ⟨_, _, _, _, e4, _⟩
    · rw [e] at hpos ⊢
      rcases h3.2.2 with hp | hp
      · rw [h3.2.1]
        exact h (by rw [← hp]; exact hpos)
      · exact absurd hp hpos
    · rw [e4, h3.1] at hopen
      omega
  · intro _
    exact (news_step_entry T data hdata st t hopen).2.2.2.2.1

theorem news_loop_sizeInv (T : Int) (data : List (Tick K))
    (hdata : ∀ tk ∈ data, tk.event_type = eventAt T tk.t) (n : Nat) (start : Int) :
    (Pairs.loopFrom (step (mainParams : Params K) data) n start initState).pos
        ≠ PosState.FLAT →
      SizeOK (Pairs.loopFrom (step (mainParams : Params K) data) n start initState).size :=
  Pairs.loopFrom_inv (step (mainParams : Params K) data)
    (fun st => st.pos ≠ PosState.FLAT → SizeOK st.size) n start initState
    (fun h => absurd rfl h)
    (fun s j hs => news_step_sizeInv T data hdata s j hs)

/-! ## Ticks of the generated world -/

theorem news_pushEvery_acc (stride : Int) (hs : 0 < stride) (T : Int) :
    ∀ (n : Nat) (t : Int) (acc : List Int), (T - t).toNat ≤ n →
      ∀ e ∈ acc, e ∈ pushEvery stride hs T t acc := by
  intro n
  induction n with
  | zero =>
    intro t acc hn e he
    rw [pushEvery, if_neg (by omega)]
    exact he
  | succ m ih =>
    intro t acc hn e he
    by_cases hlt : t < T
    · rw [pushEvery, if_pos hlt]
      exact ih (t + stride) (acc ++ [t]) (by omega) e (List.mem_append.mpr (Or.inl he))
    · rw [pushEvery, if_neg hlt]
      exact he

theorem news_event_800 : eventAt mainT 800 = EventType.CENTRAL_BANK := by
  have h : (800 : Int) ∈ cb_events mainT := by
    unfold cb_events
    rw [pushEvery, if_pos (by decide)]
    exact news_pushEvery_acc 800 (by decide) mainT _ _ _ (le_refl _) 800 (by simp)
  unfold eventAt
  rw [if_pos h]

theorem news_tickAt_append (l : List (Tick K)) (x : Tick K) (i : Int) (h0 : 0 ≤ i) :
    (i < (l.length : Int) → tickAt (l ++ [x]) i = tickAt l i) ∧
    (i = (l.length : Int) → tickAt (l ++ [x]) i = x) := by
  unfold tickAt Pairs.vget
  rw [if_neg (by omega), if_neg (by omega)]
  constructor
  · intro h
    have h1 : i.toNat < l.length := by omega
    rw [List.getD_eq_getElem _ _ h1, List.getD_eq_getElem _ _ (by simp; omega),
      List.getElem_append_left h1]
  · intro h
    have h1 : i.toNat = l.length := by omega
    rw [h1, List.getD_eq_getElem?_getD]
    simp

theorem news_world_tick (exp : K → K) (T : Int) (draws : Draws K) (t : Int) (h0 : 0 ≤ t)
    (hT : t < T) :
    (tickAt (generate_world exp T draws) t).t = t ∧
    (tickAt (generate_world exp T draws) t).event_type = eventAt T t ∧
    (tickAt (generate_world exp T draws) t).surprise
      = (if eventAt T t ≠ EventType.NONE then draws.z_surprise t else 0.0) := by
  have h := Pairs.loopFrom_ind (worldStep exp T draws)
    (fun j w => (w.out.length : Int) = j ∧ ∀ i : Int, 0 ≤ i → i < j →
      (tickAt w.out i).t = i ∧ (tickAt w.out i).event_type = eventAt T i ∧
      (tickAt w.out i).surprise
        = (if eventAt T i ≠ EventType.NONE then draws.z_surprise i else 0.0))
    (T - 0).toNat 0 { price := 100.0, regime := Regime.RISK_ON, out := [] }
    ⟨rfl, fun i hi0 hi => absurd hi (by omega)⟩
    (by
      intro j hj0 _ w hw
      obtain ⟨hlen, hall⟩ := hw
      have hout : ∃ x : Tick K, (worldStep exp T draws w j).out = w.out ++ [x] ∧ x.t = j ∧
          x.event_type = eventAt T j ∧
          x.surprise = (if eventAt T j ≠ EventType.NONE then draws.z_surprise j else 0.0) :=
        ⟨_, rfl, rfl, rfl, rfl⟩
      obtain ⟨x, hx, hx1, hx2, hx3⟩ := hout
      have happ := fun i hi => news_tickAt_append w.out x i hi
      constructor
      · rw [hx, List.length_append]
        simp only [List.length_singleton]
        push_cast
        omega
      · intro i hi0 hi
        rw [hx]
        by_cases hij : i < j
        · rw [(happ i hi0).1 (by omega)]
          exact hall i hi0 hij
        · have hej : i = j := by omega
          rw [(happ i hi0).2 (by omega), hej]
          exact ⟨hx1, hx2, hx3⟩)
  exact h.2 t h0 (by omega)

theorem news_step_event_800 :
    (step (mainParams : Params ℝ) (generate_world Real.exp mainT drawsOne) initState 800).trades_opened
      = 1 ∧
    cb_mult (mainParams : Params ℝ) (tickAt (generate_world Real.exp mainT drawsOne) 800)
      = 1.3 := by
  obtain ⟨_, hev, hsur⟩ := news_world_tick Real.exp mainT (drawsOne : Draws ℝ) 800
    (by decide) (by decide)
  rw [news_event_800] at hev hsur
  simp only [ne_eq, reduceCtorEq, not_false_eq_true, if_true] at hsur
  have hz : (drawsOne : Draws ℝ).z_surprise 800 = 1 := rfl
  rw [hz] at hsur
  constructor
  · simp [step, markToMarket, riskExit, timeExit, entry, initState, hev, hsur, mainParams]
    norm_num
  · simp [cb_mult, hev, mainParams]

/-- Claim C36. The calendar size bump of the macro news breakout never applies: every
timestamp of `macro_events` and `cb_events` is a positive multiple of 400; for such a `t`,
`t % 1000 ≤ 800`; hence every tick of the generated world that carries an event has
`flow_day = false` and `cal_mult = 1.0`, and an iteration of the main loop that opens a
position (it raises `trades_opened`) sets `size = base_size * cb_mult`, one of `1.0`, `0.6`,
`1.3`, `0.78`; the size of every position held during the run is one of these values. -/
theorem calendar_bump_never_applies (exp : K → K) (T : Int) (draws : Draws K) (t : Int) :
    (∀ e : Int, e ∈ macro_events T ∨ e ∈ cb_events T → ∃ k : Int, 1 ≤ k ∧ e = 400 * k) ∧
    (∀ k : Int, 1 ≤ k → Int.tmod (400 * k) 1000 ≤ 800) ∧
    (∀ tk ∈ generate_world exp T draws, tk.event_type ≠ EventType.NONE →
      (∃ k : Int, 1 ≤ k ∧ tk.t = 400 * k) ∧ Int.tmod tk.t 1000 ≤ 800 ∧
      flow_day tk = false ∧ cal_mult (mainParams : Params K) tk = 1.0) ∧
    (∀ st : State K,
      (step (mainParams : Params K) (generate_world exp T draws) st t).trades_opened
        ≠ st.trades_opened →
      cal_mult (mainParams : Params K) (tickAt (generate_world exp T draws) t) = 1.0 ∧
      (step (mainParams : Params K) (generate_world exp T draws) st t).size
        = base_size mainParams (tickAt (generate_world exp T draws) t)
          * cb_mult mainParams (tickAt (generate_world exp T draws) t) ∧
      ((step (mainParams : Params K) (generate_world exp T draws) st t).size = 1.0 ∨
        (step (mainParams : Params K) (generate_world exp T draws) st t).size = 0.6 ∨
        (step (mainParams : Params K) (generate_world exp T draws) st t).size = 1.3 ∨
        (step (mainParams : Params K) (generate_world exp T draws) st t).size = 0.78)) ∧
    ((loopThrough (mainParams : Params K) (generate_world exp T draws) t).pos ≠ PosState.FLAT →
      ((loopThrough (mainParams : Params K) (generate_world exp T draws) t).size = 1.0 ∨
        (loopThrough (mainParams : Params K) (generate_world exp T draws) t).size = 0.6 ∨
        (loopThrough (mainParams : Params K) (generate_world exp T draws) t).size = 1.3 ∨
        (loopThrough (mainParams : Params K) (generate_world exp T draws) t).size = 0.78)) := by
  have hdata := news_world_events exp T draws
  refine ⟨?_, news_tmod_multiple, ?_, ?_, ?_⟩
  · rintro e (he | he)
    · obtain ⟨k, hk, hek, _⟩ := news_macro_events_mem T e he
      exact ⟨k, hk, hek⟩
    · obtain ⟨k, hk, hek, _⟩ := news_cb_events_mem T e he
      exact ⟨k, hk, hek⟩
  · intro tk htk hne
    have h := news_flow_day_event tk T (hdata tk htk) hne
    exact ⟨h.1, h.2.1, h.2.2, (news_entry_size tk h.2.2).1⟩
  · intro st hopen
    have h := news_step_entry T _ hdata st t hopen
    exact ⟨h.2.2.1, h.2.2.2.1, h.2.2.2.2.1⟩
  · exact news_loop_sizeInv T _ hdata _ _

/-- Witness for claim C36: in the world of `main` generated with the draws `drawsOne`, the
iteration `t = 800` (a central-bank event with surprise 1) opens a position from the initial
state, with `cb_mult = 1.3` and a size among the four values. -/
theorem calendar_bump_never_applies_witness :
    (step (mainParams : Params ℝ) (generate_world Real.exp mainT drawsOne) initState
        800).trades_opened = 1 ∧
    cb_mult (mainParams : Params ℝ) (tickAt (generate_world Real.exp mainT drawsOne) 800)
      = 1.3 ∧
    cal_mult (mainParams : Params ℝ) (tickAt (generate_world Real.exp mainT drawsOne) 800)
      = 1.0 ∧
    ((step (mainParams : Params ℝ) (generate_world Real.exp mainT drawsOne) initState 800).size
        = 1.0 ∨
      (step (mainParams : Params ℝ) (generate_world Real.exp mainT drawsOne) initState 800).size
        = 0.6 ∨
      (step (mainParams : Params ℝ) (generate_world Real.exp mainT drawsOne) initState 800).size
        = 1.3 ∨
      (step (mainParams : Params ℝ) (generate_world Real.exp mainT drawsOne) initState 800).size
        = 0.78) := by
  have h := (calendar_bump_never_applies Real.exp mainT (drawsOne : Draws ℝ) 800).2.2.2.1
    initState (by rw [news_step_event_800.1]; simp [initState])
  exact ⟨news_step_event_800.1, news_step_event_800.2, h.1, h.2.2⟩

end Theorems

end MacroNews
